import Mathlib

/-!
# Freelancing platform backend: commission ledger and job/offer lifecycle

A shallow embedding of the request handlers of `routes/freelancer.js` and
`routes/client.js` and of the statics of `models/CommissionLedger.js`.

Modelling conventions

* A MongoDB collection is a list of documents in insertion order; every
  document carries its `_id`.  `findOne` returns the first match, `save` of a
  fetched document replaces the stored document with the same `_id`, `save` of
  a new document appends it under a fresh `_id`.
* Currency amounts are integers (`Int`), times are milliseconds (`Nat`).
* A handler is a total function from the store, the authenticated caller
  (`req.user._id`), the request fields and the request time `now` (the value of
  `Date.now()` / `new Date()` while the request runs) to a response and the new
  store.  A rejected request returns the store it was given.
* Identifier strings built from templates are kept structured (`Ref`, `Note`).
* Request fields have the type the handler expects (an amount is a number).
  Schema validation is modelled where a request can violate it (`postJob`, and
  the payment method that `clear-due` hands to `markAsPaid`); the documents
  that the other handlers save satisfy their schemas whenever the stored ones
  do.
-/

namespace Marketplace

abbrev UserId := Nat
abbrev ObjId := Nat
abbrev Time := Nat

/-- Reference ids built by the handlers from a fixed tag and a timestamp. -/
inductive Ref where
  | clearDue (t : Time)
  | commPay (t : Time)
  | cash (job : ObjId) (t : Time)
  | order (job : ObjId) (t : Time)
  | ext (s : String)
  deriving DecidableEq, Repr

/-- Description strings built by the handlers. -/
inductive Note where
  | text (s : String)
  | cashCommission (title : String)
  | cashPayment (title : String)
  | jobPayment (title : String)
  | commissionPayment (amount : Int)
  | withdrawal
  deriving DecidableEq, Repr

/-! ## models/CommissionLedger.js -/

inductive LedgerType where
  | commission_due | commission_paid | commission_waived
  deriving DecidableEq, Repr

inductive LedgerStatus where
  | pending | paid | overdue | waived
  deriving DecidableEq, Repr

inductive PaymentMethod where
  | wallet | bank_transfer | upi | cash
  deriving DecidableEq, Repr

/-- The string of a payment method in the schema `enum`. -/
def PaymentMethod.name : PaymentMethod → String
  | PaymentMethod.wallet => "wallet"
  | PaymentMethod.bank_transfer => "bank_transfer"
  | PaymentMethod.upi => "upi"
  | PaymentMethod.cash => "cash"

/-- The `enum` validator of the schema path `paymentMethod`, which `save` runs
on the value assigned to the path: an absent value passes, a string passes when
the enum lists it, and any other string is a validation error (`none`). -/
def PaymentMethod.validate : Option String → Option (Option PaymentMethod)
  | none => some none
  | some value =>
    if value = "wallet" then some (some PaymentMethod.wallet)
    else if value = "bank_transfer" then some (some PaymentMethod.bank_transfer)
    else if value = "upi" then some (some PaymentMethod.upi)
    else if value = "cash" then some (some PaymentMethod.cash)
    else none

/-- A document of the CommissionLedger collection (`commissionLedgerSchema`,
with the `createdAt` stamp of `timestamps: true`). -/
structure LedgerEntry where
  _id : ObjId
  freelancerId : UserId
  jobId : ObjId
  amount : Int
  type : LedgerType
  description : Note
  status : LedgerStatus
  dueDate : Time
  paidAt : Option Time
  paymentMethod : Option PaymentMethod
  paymentTransactionId : Option Ref
  createdAt : Time
  deriving DecidableEq, Repr

/-- The schema default of `dueDate`: `Date.now() + 30 * 24 * 60 * 60 * 1000`. -/
def defaultDueDate (now : Time) : Time := now + 30 * 24 * 60 * 60 * 1000

/-- The virtual `isOverdue`, read at time `now`. -/
def LedgerEntry.isOverdue (e : LedgerEntry) (now : Time) : Bool :=
  decide (e.status = LedgerStatus.pending) && decide (now > e.dueDate)

/-- The assignments of the method `markAsPaid(paymentMethod, transactionId)`,
for a payment method that the schema accepts. -/
def LedgerEntry.asPaid (e : LedgerEntry) (paymentMethod : Option PaymentMethod)
    (transactionId : Ref) (now : Time) : LedgerEntry :=
  { e with
    status := LedgerStatus.paid
    paidAt := some now
    paymentMethod := paymentMethod
    paymentTransactionId := some transactionId }

/-- The method `markAsPaid(paymentMethod, transactionId)`: the assignments and
the `save` that ends it.  The payment method is the request field as it came;
the result is `none` when the `save` throws because the method fails the
validator of the schema, and nothing is stored then. -/
def LedgerEntry.markAsPaid (e : LedgerEntry) (paymentMethod : Option String)
    (transactionId : Ref) (now : Time) : Option LedgerEntry :=
  match PaymentMethod.validate paymentMethod with
  | none => none
  | some method => some (e.asPaid method transactionId now)

/-- A fresh `_id`: larger than every `_id` in use in the collection. -/
def freshId (ids : List ObjId) : ObjId :=
  ids.foldr (fun a b => max (a + 1) b) 0

/-- Saving a fetched ledger document: the stored document with its `_id` is replaced. -/
def saveEntry (e : LedgerEntry) (ledger : List LedgerEntry) : List LedgerEntry :=
  ledger.map (fun d => if d._id = e._id then e else d)

/-- The filter `{ freelancerId, status: 'pending' }`. -/
def isPendingOf (freelancerId : UserId) (e : LedgerEntry) : Bool :=
  decide (e.freelancerId = freelancerId) && decide (e.status = LedgerStatus.pending)

/-- The result document of the `getTotalDue` aggregation. -/
structure TotalDue where
  totalDue : Int
  count : Nat
  deriving DecidableEq, Repr

/-- The static `getTotalDue`: `$match` on freelancer and pending status, then a
single `$group`; an empty match gives no group and the zero default. -/
def getTotalDue (ledger : List LedgerEntry) (freelancerId : UserId) : TotalDue :=
  let matched := ledger.filter (isPendingOf freelancerId)
  let result : List TotalDue :=
    if matched.isEmpty then []
    else [{ totalDue := (matched.map (fun e => e.amount)).sum, count := matched.length }]
  match result with
  | r :: _ => r
  | [] => { totalDue := 0, count := 0 }

/-- The static `canFreelancerWork(freelancerId, threshold = 500)`; `none` is an
omitted threshold argument. -/
def canFreelancerWork (ledger : List LedgerEntry) (freelancerId : UserId)
    (threshold : Option Int) : Bool :=
  let threshold := threshold.getD 500
  decide ((getTotalDue ledger freelancerId).totalDue < threshold)

/-- The order of `.sort({ createdAt: 1 })`. -/
def createdBefore (a b : LedgerEntry) : Prop := a.createdAt ≤ b.createdAt

instance : DecidableRel createdBefore := fun a b => Nat.decLe a.createdAt b.createdAt

instance : IsTotal LedgerEntry createdBefore := ⟨fun a b => Nat.le_total a.createdAt b.createdAt⟩

instance : IsTrans LedgerEntry createdBefore :=
  ⟨fun a b c (h1 : a.createdAt ≤ b.createdAt) (h2 : b.createdAt ≤ c.createdAt) =>
    Nat.le_trans h1 h2⟩

/-- The query `find({ freelancerId, status: 'pending' }).sort({ createdAt: 1 })`;
documents with equal `createdAt` keep their storage order. -/
def findPendingSorted (ledger : List LedgerEntry) (freelancerId : UserId) : List LedgerEntry :=
  (ledger.filter (isPendingOf freelancerId)).insertionSort createdBefore

/-! ## models/Job.js -/

inductive JobStatus where
  | open | assigned | work_done | waiting_for_payment | paid | completed | cancelled
  deriving DecidableEq, Repr

inductive PaymentStatus where
  | initiated | completed | failed
  deriving DecidableEq, Repr

/-- A document of the Job collection (`jobSchema`): the fields the handlers
read or write. -/
structure Job where
  _id : ObjId
  clientId : UserId
  freelancerId : Option UserId
  title : String
  description : String
  amount : Int
  numberOfPeople : Nat
  status : JobStatus
  assignedAt : Option Time
  workCompletedAt : Option Time
  paymentOrderId : Option Ref
  paymentStatus : Option PaymentStatus
  paymentTransactionId : Option Ref
  paidAt : Option Time
  completedAt : Option Time
  paymentMethod : Option PaymentMethod
  createdAt : Time
  deriving DecidableEq, Repr

/-- The query operand `{ $in: ['assigned', 'work_done', 'waiting_for_payment'] }`. -/
def JobStatus.isActive : JobStatus → Bool
  | JobStatus.assigned => true
  | JobStatus.work_done => true
  | JobStatus.waiting_for_payment => true
  | _ => false

/-- Saving a fetched job document. -/
def saveJob (j : Job) (jobs : List Job) : List Job :=
  jobs.map (fun d => if d._id = j._id then j else d)

/-! ## models/FreelancerProfile.js -/

inductive VerificationStatus where
  | pending | under_review | approved | rejected | resubmitted
  deriving DecidableEq, Repr

/-- A document of the FreelancerProfile collection: the fields the job and
payment handlers read or write. -/
structure FreelancerProfile where
  _id : ObjId
  userId : UserId
  verificationStatus : VerificationStatus
  totalJobs : Int
  completedJobs : Int
  totalEarnings : Int
  deriving DecidableEq, Repr

/-- Saving a fetched profile document. -/
def saveFreelancerProfile (p : FreelancerProfile) (ps : List FreelancerProfile) :
    List FreelancerProfile :=
  ps.map (fun d => if d._id = p._id then p else d)

/-! ## Collections whose schema files are not part of the sources -/

inductive OfferStatus where
  | pending | accepted | rejected
  deriving DecidableEq, Repr

/-- Modelled from the spec: the Offer schema (`models/Offer.js`), of which only
the uses in the route handlers are available.  An offer references job,
freelancer and client, carries original and offered amount, message and offer
type, and is created with status pending. -/
structure Offer where
  _id : ObjId
  jobId : ObjId
  freelancerId : UserId
  clientId : UserId
  originalAmount : Int
  offeredAmount : Int
  message : String
  offerType : String
  status : OfferStatus
  respondedAt : Option Time
  responseMessage : Option String
  createdAt : Time
  deriving DecidableEq, Repr

/-- Saving a fetched offer document. -/
def saveOffer (o : Offer) (offers : List Offer) : List Offer :=
  offers.map (fun d => if d._id = o._id then o else d)

/-- Modelled from the spec: the Wallet schema (`models/Wallet.js`): one wallet
per user with a single balance, zero when the wallet is created. -/
structure Wallet where
  _id : ObjId
  userId : UserId
  balance : Int
  deriving DecidableEq, Repr

/-- Saving a fetched wallet document. -/
def saveWallet (w : Wallet) (ws : List Wallet) : List Wallet :=
  ws.map (fun d => if d._id = w._id then w else d)

/-- The document `new Wallet({ userId })` for the collection `ws`. -/
def newWallet (userId : UserId) (ws : List Wallet) : Wallet :=
  { _id := freshId (ws.map (fun d => d._id)), userId := userId, balance := 0 }

/-- The query `Wallet.findOne({ userId })`. -/
def findWallet (ws : List Wallet) (userId : UserId) : Option Wallet :=
  ws.find? (fun w => decide (w.userId = userId))

inductive TransactionType where
  | payment | withdrawal | commission_payment | refund
  deriving DecidableEq, Repr

inductive TransactionStatus where
  | pending | completed | failed
  deriving DecidableEq, Repr

/-- Modelled from the spec: the Transaction schema (`models/Transaction.js`):
an audit record of one money movement. -/
structure Transaction where
  _id : ObjId
  jobId : Option ObjId
  clientId : Option UserId
  freelancerId : Option UserId
  amount : Int
  type : TransactionType
  status : TransactionStatus
  description : Note
  paymentMethod : Option String
  transactionId : Option Ref
  referenceId : Option Ref
  completedAt : Option Time
  createdAt : Time
  deriving DecidableEq, Repr

/-- Modelled from the spec: the ClientProfile schema (`models/ClientProfile.js`):
the completeness flag and the counters the handlers update. -/
structure ClientProfile where
  _id : ObjId
  userId : UserId
  isProfileComplete : Bool
  totalJobsPosted : Int
  totalSpent : Int
  deriving DecidableEq, Repr

/-- Saving a fetched client profile document. -/
def saveClientProfile (p : ClientProfile) (ps : List ClientProfile) : List ClientProfile :=
  ps.map (fun d => if d._id = p._id then p else d)

/-! ## The document store -/

structure Store where
  jobs : List Job
  offers : List Offer
  ledger : List LedgerEntry
  wallets : List Wallet
  transactions : List Transaction
  freelancerProfiles : List FreelancerProfile
  clientProfiles : List ClientProfile
  deriving DecidableEq, Repr

/-- The store with every collection empty. -/
def Store.empty : Store :=
  { jobs := [], offers := [], ledger := [], wallets := [], transactions := [],
    freelancerProfiles := [], clientProfiles := [] }

/-- The JSON answer of a handler: `ok` is a `success: true` answer with its
`data`, `rejected` a `success: false` answer with its HTTP status and message,
`serverError` the answer of the `catch` block (status 500). -/
inductive Resp (α : Type) where
  | ok (data : α)
  | rejected (status : Nat) (message : String)
  | serverError (message : String)
  deriving DecidableEq, Repr

/-- The `data` of an answer, when it has one. -/
def Resp.data? {α : Type} : Resp α → Option α
  | Resp.ok data => some data
  | _ => none

/-! ## routes/freelancer.js: POST /commission-ledger/clear-due -/

inductive ProcessedStatus where
  | fully_paid | partially_paid
  deriving DecidableEq, Repr

/-- An element of `processedEntries`. -/
structure ProcessedEntry where
  id : ObjId
  amount : Int
  status : ProcessedStatus
  deriving DecidableEq, Repr

/-- The residual document built in the partial-payment branch; fields not
passed to the constructor take their schema defaults. -/
def remainingEntryOf (entry : LedgerEntry) (entryAmount : Int) (ledger : List LedgerEntry)
    (now : Time) : LedgerEntry :=
  { _id := freshId (ledger.map (fun d => d._id))
    freelancerId := entry.freelancerId
    jobId := entry.jobId
    amount := entry.amount - entryAmount
    type := entry.type
    description := entry.description
    status := LedgerStatus.pending
    dueDate := defaultDueDate now
    paidAt := none
    paymentMethod := none
    paymentTransactionId := none
    createdAt := now }

/-- The allocation loop `for (const entry of pendingEntries)`: the arguments are
the request field `paymentMethod`, the entries still to visit,
`remainingAmount`, the ledger collection and `processedEntries`; the result is
the three variables when the loop ends, and whether it ended because a
`markAsPaid` threw (the collection then holds what had been saved until
then, the residual of a split included). -/
def clearDueLoop (paymentMethod : Option String) (now : Time) :
    List LedgerEntry → Int → List LedgerEntry → List ProcessedEntry →
      List LedgerEntry × List ProcessedEntry × Int × Bool
  | [], remainingAmount, ledger, processedEntries =>
    (ledger, processedEntries, remainingAmount, false)
  | entry :: rest, remainingAmount, ledger, processedEntries =>
    if remainingAmount ≤ 0 then (ledger, processedEntries, remainingAmount, false)
    else
      let entryAmount := min entry.amount remainingAmount
      if entryAmount = entry.amount then
        match entry.markAsPaid paymentMethod (Ref.clearDue now) now with
        | none => (ledger, processedEntries, remainingAmount, true)
        | some paid =>
          clearDueLoop paymentMethod now rest (remainingAmount - entryAmount)
            (saveEntry paid ledger)
            (processedEntries ++
              [{ id := entry._id, amount := entry.amount, status := ProcessedStatus.fully_paid }])
      else
        let remainingEntry := remainingEntryOf entry entryAmount ledger now
        let ledger1 := ledger ++ [remainingEntry]
        let entry1 := { entry with amount := entryAmount }
        match entry1.markAsPaid paymentMethod (Ref.clearDue now) now with
        | none => (ledger1, processedEntries, remainingAmount, true)
        | some paid =>
          clearDueLoop paymentMethod now rest (remainingAmount - entryAmount)
            (saveEntry paid ledger1)
            (processedEntries ++
              [{ id := entry._id, amount := entryAmount,
                 status := ProcessedStatus.partially_paid }])

/-- The order of `.sort({ createdAt: -1 })`. -/
def createdAfter (a b : LedgerEntry) : Prop := b.createdAt ≤ a.createdAt

instance : DecidableRel createdAfter := fun a b => Nat.decLe b.createdAt a.createdAt

/-- The `data` of a successful clear-due response. -/
structure ClearDueData where
  amountPaid : Int
  processedEntries : List ProcessedEntry
  updatedLedger : List LedgerEntry
  totalDue : Int
  canWork : Bool
  transaction : Transaction
  deriving DecidableEq, Repr

/-- The handler of `POST /commission-ledger/clear-due`; `paymentMethod` is the
field of the request body, which the route does not validate.  When a
`markAsPaid` throws, the `catch` block answers with status 500 and the ledger
keeps what the loop had saved. -/
def clearDue (s : Store) (user : UserId) (amount : Int) (paymentMethod : Option String)
    (now : Time) : Resp ClearDueData × Store :=
  let totalDue := (getTotalDue s.ledger user).totalDue
  if amount > totalDue then (Resp.rejected 400 "Amount cannot exceed total due amount", s)
  else
    match findWallet s.wallets user with
    | none => (Resp.rejected 400 "Insufficient wallet balance", s)
    | some wallet =>
      if wallet.balance < amount then (Resp.rejected 400 "Insufficient wallet balance", s)
      else
        let pendingEntries := findPendingSorted s.ledger user
        let (ledger1, processedEntries, _, thrown) :=
          clearDueLoop paymentMethod now pendingEntries amount s.ledger []
        if thrown then
          (Resp.serverError "Failed to clear commission due", { s with ledger := ledger1 })
        else
          let wallets1 := saveWallet { wallet with balance := wallet.balance - amount } s.wallets
          let transaction : Transaction :=
            { _id := freshId (s.transactions.map (fun t => t._id))
              jobId := none
              clientId := none
              freelancerId := some user
              amount := amount
              type := TransactionType.commission_payment
              status := TransactionStatus.completed
              description := Note.commissionPayment amount
              paymentMethod := paymentMethod
              transactionId := none
              referenceId := some (Ref.commPay now)
              completedAt := some now
              createdAt := now }
          let s1 : Store :=
            { s with ledger := ledger1, wallets := wallets1,
                     transactions := s.transactions ++ [transaction] }
          let updatedLedger :=
            (s1.ledger.filter (fun e => decide (e.freelancerId = user))).insertionSort createdAfter
          let newTotalDue := (getTotalDue s1.ledger user).totalDue
          let canWork := canFreelancerWork s1.ledger user none
          (Resp.ok
            { amountPaid := amount, processedEntries := processedEntries,
              updatedLedger := updatedLedger, totalDue := newTotalDue, canWork := canWork,
              transaction := transaction }, s1)

/-! ## routes/freelancer.js: job handlers -/

/-- The query `Job.findOne({ freelancerId, status: { $in: [...] } })` for the
active statuses. -/
def findActiveJob (jobs : List Job) (freelancerId : UserId) : Option Job :=
  jobs.find? (fun j => decide (j.freelancerId = some freelancerId) && j.status.isActive)

/-- The query `Job.findById(jobId)`. -/
def findJobById (jobs : List Job) (jobId : ObjId) : Option Job :=
  jobs.find? (fun j => decide (j._id = jobId))

/-- The query `Offer.findById(offerId)`. -/
def findOfferById (offers : List Offer) (offerId : ObjId) : Option Offer :=
  offers.find? (fun o => decide (o._id = offerId))

/-- The query `FreelancerProfile.findOne({ userId })`. -/
def findFreelancerProfile (ps : List FreelancerProfile) (userId : UserId) :
    Option FreelancerProfile :=
  ps.find? (fun p => decide (p.userId = userId))

/-- The filter `status: { $in: ['pending', 'accepted'] }`. -/
def OfferStatus.isLive : OfferStatus → Bool
  | OfferStatus.pending => true
  | OfferStatus.accepted => true
  | OfferStatus.rejected => false

/-- The query `Offer.findOne({ jobId, freelancerId, status: { $in: ['pending', 'accepted'] } })`. -/
def findExistingOffer (offers : List Offer) (jobId : ObjId) (freelancerId : UserId) :
    Option Offer :=
  offers.find? (fun o =>
    decide (o.jobId = jobId) && decide (o.freelancerId = freelancerId) && o.status.isLive)

/-- The answers of `POST /jobs/:jobId/apply`.  All but `ok` have status 400:
`notApproved` ("Your profile must be approved before you can apply for jobs"),
`hasActiveJob` ("You already have an active job..."), `commissionDue` (the
commission answer with its `commissionDue`, `threshold` and `canWork` fields),
`jobNotAvailable` ("Job not available"), `alreadyApplied` ("You have already
applied for this job"). -/
inductive ApplyResp where
  | notApproved (verificationStatus : Option VerificationStatus)
  | hasActiveJob (activeJob : Job)
  | commissionDue (commissionDue : Int) (threshold : Int) (canWork : Bool)
  | jobNotAvailable
  | alreadyApplied
  | ok (offer : Offer)
  deriving DecidableEq, Repr

/-- The handler of `POST /jobs/:jobId/apply`; `offerType = none` is a body
without that field, `offeredAmount = none` a body without an amount. -/
def applyForJob (s : Store) (user : UserId) (jobId : ObjId) (offeredAmount : Option Int)
    (message : String) (offerType : Option String) (now : Time) : ApplyResp × Store :=
  let offerType := offerType.getD "direct_apply"
  let profile := findFreelancerProfile s.freelancerProfiles user
  if (profile.map (fun p => p.verificationStatus)) ≠ some VerificationStatus.approved then
    (ApplyResp.notApproved (profile.map (fun p => p.verificationStatus)), s)
  else
    match findActiveJob s.jobs user with
    | some activeJob => (ApplyResp.hasActiveJob activeJob, s)
    | none =>
      let canWork := canFreelancerWork s.ledger user none
      if !canWork then
        let totalDue := (getTotalDue s.ledger user).totalDue
        (ApplyResp.commissionDue totalDue 700 false, s)
      else
        match findJobById s.jobs jobId with
        | none => (ApplyResp.jobNotAvailable, s)
        | some job =>
          if job.status ≠ JobStatus.open then (ApplyResp.jobNotAvailable, s)
          else
            match findExistingOffer s.offers jobId user with
            | some _ => (ApplyResp.alreadyApplied, s)
            | none =>
              let offer : Offer :=
                { _id := freshId (s.offers.map (fun o => o._id))
                  jobId := jobId
                  freelancerId := user
                  clientId := job.clientId
                  originalAmount := job.amount
                  offeredAmount :=
                    match offeredAmount with
                    | some a => if a = 0 then job.amount else a
                    | none => job.amount
                  message := message
                  offerType := offerType
                  status := OfferStatus.pending
                  respondedAt := none
                  responseMessage := none
                  createdAt := now }
              let s1 : Store := { s with offers := s.offers ++ [offer] }
              if offerType = "direct_apply" then
                let job1 : Job :=
                  { job with
                    freelancerId := some user
                    status := JobStatus.assigned
                    assignedAt := some now }
                (ApplyResp.ok offer, { s1 with jobs := saveJob job1 s1.jobs })
              else (ApplyResp.ok offer, s1)

/-- The handler of `POST /jobs/:jobId/work-done`. -/
def markWorkDone (s : Store) (user : UserId) (jobId : ObjId) (now : Time) : Resp Job × Store :=
  match s.jobs.find? (fun j =>
      decide (j._id = jobId) && decide (j.freelancerId = some user) &&
        decide (j.status = JobStatus.assigned)) with
  | none => (Resp.rejected 400 "Job not found or not assigned to you", s)
  | some job =>
    let job1 : Job :=
      { job with status := JobStatus.waiting_for_payment, workCompletedAt := some now }
    (Resp.ok job1, { s with jobs := saveJob job1 s.jobs })

/-- The handler of `POST /jobs/:jobId/complete`. -/
def markCompleted (s : Store) (user : UserId) (jobId : ObjId) (now : Time) : Resp Job × Store :=
  match s.jobs.find? (fun j =>
      decide (j._id = jobId) && decide (j.freelancerId = some user) &&
        decide (j.status = JobStatus.paid)) with
  | none => (Resp.rejected 400 "Job not found or payment not received yet", s)
  | some job =>
    let job1 : Job := { job with status := JobStatus.completed, completedAt := some now }
    let s1 : Store := { s with jobs := saveJob job1 s.jobs }
    match findFreelancerProfile s1.freelancerProfiles user with
    | some profile =>
      let profile1 : FreelancerProfile :=
        { profile with
          completedJobs := profile.completedJobs + 1
          totalEarnings := profile.totalEarnings + job1.amount }
      (Resp.ok job1,
        { s1 with freelancerProfiles := saveFreelancerProfile profile1 s1.freelancerProfiles })
    | none => (Resp.ok job1, s1)

/-- The handler of `GET /wallet` of the freelancer router: the wallet is created
on first access. -/
def getWallet (s : Store) (user : UserId) : Resp Wallet × Store :=
  match findWallet s.wallets user with
  | some wallet => (Resp.ok wallet, s)
  | none =>
    let wallet := newWallet user s.wallets
    (Resp.ok wallet, { s with wallets := s.wallets ++ [wallet] })

/-- The handler of `POST /withdraw`. -/
def withdraw (s : Store) (user : UserId) (amount : Int) (now : Time) :
    Resp Transaction × Store :=
  match findWallet s.wallets user with
  | none => (Resp.rejected 400 "Insufficient balance", s)
  | some wallet =>
    if wallet.balance < amount then (Resp.rejected 400 "Insufficient balance", s)
    else
      let transaction : Transaction :=
        { _id := freshId (s.transactions.map (fun t => t._id))
          jobId := none
          clientId := none
          freelancerId := some user
          amount := amount
          type := TransactionType.withdrawal
          status := TransactionStatus.pending
          description := Note.text "Withdrawal request"
          paymentMethod := some "bank_transfer"
          transactionId := none
          referenceId := none
          completedAt := none
          createdAt := now }
      (Resp.ok transaction,
        { s with
          transactions := s.transactions ++ [transaction]
          wallets := saveWallet { wallet with balance := wallet.balance - amount } s.wallets })

/-- The handler of `POST /create-test-profile` of `routes/verificationTest.js`:
the caller's profile is created, or updated, with the requested verification
status.  The branch that creates a profile stands for every route that stores a
new profile (`POST /profile/test` of `routes/freelancer.js` stores an approved
one); in this route itself the new document fails the schema validation of
`address` and `pincode`, so the model builds every store the routes build and
some more. -/
def createTestProfile (s : Store) (user : UserId) (verificationStatus : VerificationStatus) :
    Resp FreelancerProfile × Store :=
  match findFreelancerProfile s.freelancerProfiles user with
  | some profile =>
    let profile1 : FreelancerProfile := { profile with verificationStatus := verificationStatus }
    (Resp.ok profile1,
      { s with freelancerProfiles := saveFreelancerProfile profile1 s.freelancerProfiles })
  | none =>
    let profile : FreelancerProfile :=
      { _id := freshId (s.freelancerProfiles.map (fun p => p._id))
        userId := user
        verificationStatus := verificationStatus
        totalJobs := 0
        completedJobs := 0
        totalEarnings := 0 }
    (Resp.ok profile, { s with freelancerProfiles := s.freelancerProfiles ++ [profile] })

/-! ## routes/client.js -/

/-- The query `ClientProfile.findOne({ userId })`. -/
def findClientProfile (ps : List ClientProfile) (userId : UserId) : Option ClientProfile :=
  ps.find? (fun p => decide (p.userId = userId))

/-- The handler of `POST /profile` of the client router (and of its
`/profile/test` twin): the caller's profile is created or updated as complete. -/
def clientProfilePost (s : Store) (user : UserId) : Resp ClientProfile × Store :=
  match findClientProfile s.clientProfiles user with
  | some profile =>
    let profile1 : ClientProfile := { profile with isProfileComplete := true }
    (Resp.ok profile1, { s with clientProfiles := saveClientProfile profile1 s.clientProfiles })
  | none =>
    let profile : ClientProfile :=
      { _id := freshId (s.clientProfiles.map (fun p => p._id))
        userId := user
        isProfileComplete := true
        totalJobsPosted := 0
        totalSpent := 0 }
    (Resp.ok profile, { s with clientProfiles := s.clientProfiles ++ [profile] })

/-- The handler of `POST /jobs`.  The schema validators `amount.min = 0` and
`numberOfPeople.min = 1` make `job.save()` throw, which the `catch` block
answers with status 500.  The `required` validators of `title` and
`description` are left out: the model serves a request with an empty title or
description, which the route answers with status 500, so the model builds every
store the route builds and some more. -/
def postJob (s : Store) (user : UserId) (title description : String) (amount : Int)
    (numberOfPeople : Nat) (now : Time) : Resp Job × Store :=
  match findClientProfile s.clientProfiles user with
  | none => (Resp.rejected 400 "Please complete your profile before posting jobs", s)
  | some profile =>
    if !profile.isProfileComplete then
      (Resp.rejected 400 "Please complete your profile before posting jobs", s)
    else if amount < 0 ∨ numberOfPeople < 1 then (Resp.serverError "Failed to post job", s)
    else
      let job : Job :=
        { _id := freshId (s.jobs.map (fun j => j._id))
          clientId := user
          freelancerId := none
          title := title
          description := description
          amount := amount
          numberOfPeople := numberOfPeople
          status := JobStatus.open
          assignedAt := none
          workCompletedAt := none
          paymentOrderId := none
          paymentStatus := none
          paymentTransactionId := none
          paidAt := none
          completedAt := none
          paymentMethod := none
          createdAt := now }
      let profile1 : ClientProfile :=
        { profile with totalJobsPosted := profile.totalJobsPosted + 1 }
      (Resp.ok job,
        { s with
          jobs := s.jobs ++ [job]
          clientProfiles := saveClientProfile profile1 s.clientProfiles })

/-- The bulk update `Offer.updateMany({ jobId, _id: { $ne: offerId }, status: 'pending' },
{ status: 'rejected', respondedAt, responseMessage: 'Another offer was accepted' })`. -/
def rejectOtherOffers (offers : List Offer) (jobId : ObjId) (offerId : ObjId) (now : Time) :
    List Offer :=
  offers.map (fun o =>
    if o.jobId = jobId ∧ o._id ≠ offerId ∧ o.status = OfferStatus.pending then
      { o with
        status := OfferStatus.rejected
        respondedAt := some now
        responseMessage := some "Another offer was accepted" }
    else o)

/-- The handler of `POST /offers/:offerId/respond`.  The offer is fetched with
its job and its freelancer populated; an offer whose job document is absent
makes the ownership test throw (status 500).  User documents are not part of
the store: the freelancer of an offer is taken to exist, as no modelled handler
removes a user. -/
def respondToOffer (s : Store) (user : UserId) (offerId : ObjId) (action : String)
    (responseMessage : Option String) (now : Time) : Resp Offer × Store :=
  match findOfferById s.offers offerId with
  | none => (Resp.rejected 404 "Offer not found", s)
  | some offer =>
    match findJobById s.jobs offer.jobId with
    | none => (Resp.serverError "Failed to respond to offer", s)
    | some job =>
      if job.clientId ≠ user then (Resp.rejected 404 "Offer not found", s)
      else if offer.status ≠ OfferStatus.pending then
        (Resp.rejected 400 "Offer has already been responded to", s)
      else if action = "accept" then
        let offer1 : Offer :=
          { offer with
            status := OfferStatus.accepted
            respondedAt := some now
            responseMessage := responseMessage }
        let job1 : Job :=
          { job with
            freelancerId := some offer.freelancerId
            status := JobStatus.assigned
            assignedAt := some now }
        let jobs1 := saveJob job1 s.jobs
        let offers1 := rejectOtherOffers s.offers job._id offerId now
        (Resp.ok offer1, { s with jobs := jobs1, offers := saveOffer offer1 offers1 })
      else if action = "reject" then
        let offer1 : Offer :=
          { offer with
            status := OfferStatus.rejected
            respondedAt := some now
            responseMessage := responseMessage }
        (Resp.ok offer1, { s with offers := saveOffer offer1 s.offers })
      else (Resp.ok offer, { s with offers := saveOffer offer s.offers })

/-- The query `Job.findOne({ _id: jobId, clientId, status })`. -/
def findClientJob (jobs : List Job) (jobId : ObjId) (clientId : UserId) (status : JobStatus) :
    Option Job :=
  jobs.find? (fun j =>
    decide (j._id = jobId) && decide (j.clientId = clientId) && decide (j.status = status))

/-- The `data` of a successful `pay-phonepe` answer. -/
structure PhonepeData where
  orderId : Ref
  amount : Int
  jobId : ObjId
  deriving DecidableEq, Repr

/-- The handler of `POST /jobs/:jobId/pay-phonepe`; `gatewayOk` is the
`success` flag of the answer of the external gateway to the payment request. -/
def payPhonepe (s : Store) (user : UserId) (jobId : ObjId) (gatewayOk : Bool) (now : Time) :
    Resp PhonepeData × Store :=
  match findClientJob s.jobs jobId user JobStatus.waiting_for_payment with
  | none => (Resp.rejected 400 "Job not found or not ready for payment", s)
  | some job =>
    match findClientProfile s.clientProfiles user with
    | none => (Resp.rejected 400 "Client profile not found", s)
    | some _ =>
      let orderId := Ref.order jobId now
      if gatewayOk then
        let job1 : Job :=
          { job with paymentOrderId := some orderId, paymentStatus := some PaymentStatus.initiated }
        (Resp.ok { orderId := orderId, amount := job.amount, jobId := jobId },
          { s with jobs := saveJob job1 s.jobs })
      else (Resp.rejected 400 "Failed to initiate payment", s)

/-- The numerator of the double `0.1`, which is 3602879701896397 / 2 ^ 55. -/
def tenthNumerator : Nat := 3602879701896397

/-- The number of low bits that a natural number has beyond the 53 significant
bits of a double; the fuel bounds the exponent (1024 covers the finite doubles). -/
def excessBits : Nat → Nat → Nat
  | 0, _ => 0
  | fuel + 1, p => if p < 2 ^ 53 then 0 else excessBits fuel (p / 2) + 1

/-- Rounding to double precision, to nearest with ties to even: for the exact
value `p / 2 ^ 55` the numerator over `2 ^ 55` of the double that represents it. -/
def roundToDouble (p : Nat) : Nat :=
  let s := excessBits 1024 p
  let q := p / 2 ^ s
  let r := p % 2 ^ s
  if 2 ^ s < 2 * r ∨ (2 * r = 2 ^ s ∧ q % 2 = 1) then (q + 1) * 2 ^ s else q * 2 ^ s

/-- The value of `Math.round(amount * 0.1)` for an integer amount that a Number
holds exactly: `amount * 0.1` is the double nearest to the exact product of the
amount and the double `0.1`, and `Math.round` takes the largest integer that is
not above the product plus one half. -/
def roundTenth (amount : Int) : Int :=
  let product : Int := amount.sign * (roundToDouble (amount.natAbs * tenthNumerator) : Int)
  (2 * product + 2 ^ 55) / 2 ^ 56

/-- The `data` of a successful `pay-cash` answer. -/
structure CashData where
  job : Job
  transaction : Transaction
  commissionAmount : Int
  freelancerAmount : Int
  ledgerEntry : LedgerEntry
  deriving DecidableEq, Repr

/-- The handler of `POST /jobs/:jobId/pay-cash`.  The job is fetched with its
freelancer populated; for a job without freelancer the read of
`job.freelancerId._id` throws after the job has been saved (status 500). -/
def payCash (s : Store) (user : UserId) (jobId : ObjId) (now : Time) : Resp CashData × Store :=
  match findClientJob s.jobs jobId user JobStatus.waiting_for_payment with
  | none => (Resp.rejected 400 "Job not found or not ready for payment", s)
  | some job =>
    let job1 : Job :=
      { job with
        status := JobStatus.paid
        paymentStatus := some PaymentStatus.completed
        paymentMethod := some PaymentMethod.cash
        paidAt := some now }
    let s1 : Store := { s with jobs := saveJob job1 s.jobs }
    match job1.freelancerId with
    | none => (Resp.serverError "Failed to process cash payment", s1)
    | some freelancer =>
      let transaction : Transaction :=
        { _id := freshId (s1.transactions.map (fun t => t._id))
          jobId := some job1._id
          clientId := some job1.clientId
          freelancerId := some freelancer
          amount := job1.amount
          type := TransactionType.payment
          status := TransactionStatus.completed
          description := Note.cashPayment job1.title
          paymentMethod := some "cash"
          transactionId := some (Ref.cash job1._id now)
          referenceId := none
          completedAt := some now
          createdAt := now }
      let s2 : Store := { s1 with transactions := s1.transactions ++ [transaction] }
      let commissionAmount := roundTenth job1.amount
      let freelancerAmount := job1.amount - commissionAmount
      let ledgerEntry : LedgerEntry :=
        { _id := freshId (s2.ledger.map (fun d => d._id))
          freelancerId := freelancer
          jobId := job1._id
          amount := commissionAmount
          type := LedgerType.commission_due
          description := Note.cashCommission job1.title
          status := LedgerStatus.pending
          dueDate := defaultDueDate now
          paidAt := none
          paymentMethod := none
          paymentTransactionId := none
          createdAt := now }
      let s3 : Store := { s2 with ledger := s2.ledger ++ [ledgerEntry] }
      let wallets1 :=
        match findWallet s3.wallets freelancer with
        | some w => saveWallet { w with balance := w.balance + freelancerAmount } s3.wallets
        | none =>
          let w := newWallet freelancer s3.wallets
          s3.wallets ++ [{ w with balance := w.balance + freelancerAmount }]
      let s4 : Store := { s3 with wallets := wallets1 }
      let s5 : Store :=
        match findFreelancerProfile s4.freelancerProfiles freelancer with
        | some profile =>
          { s4 with
            freelancerProfiles :=
              saveFreelancerProfile
                { profile with
                  completedJobs := profile.completedJobs + 1
                  totalEarnings := profile.totalEarnings + freelancerAmount }
                s4.freelancerProfiles }
        | none => s4
      (Resp.ok
        { job := job1, transaction := transaction, commissionAmount := commissionAmount,
          freelancerAmount := freelancerAmount, ledgerEntry := ledgerEntry }, s5)

/-! ## config/paymentGateway.js and the payment callback -/

/-- The callback payload posted by the gateway; `amount` is in paise. -/
structure CallbackData where
  merchantTransactionId : Ref
  merchantOrderId : Ref
  amount : Int
  code : String
  checksum : String
  deriving DecidableEq, Repr

inductive CallbackStatus where
  | success | failed
  deriving DecidableEq, Repr

/-- The `data` of a verified callback.  The amount is `callbackData.amount / 100`,
a whole number of currency units when the paise amount is a multiple of 100
(as in every request built by `createPaymentRequest`). -/
structure CallbackInfo where
  transactionId : Ref
  orderId : Ref
  amount : Int
  status : CallbackStatus
  responseCode : String
  deriving DecidableEq, Repr

/-- The method `PaymentGateway.processCallback`; `generateChecksum` is the
SHA-256 digest of the serialised payload and the client secret, `Except.error`
is an answer with `success: false` and that `error`. -/
def processCallback (generateChecksum : CallbackData → String) (callbackData : CallbackData) :
    Except String CallbackInfo :=
  let receivedChecksum := callbackData.checksum
  let calculatedChecksum := generateChecksum callbackData
  if receivedChecksum ≠ calculatedChecksum then Except.error "Invalid checksum"
  else
    Except.ok
      { transactionId := callbackData.merchantTransactionId
        orderId := callbackData.merchantOrderId
        amount := callbackData.amount / 100
        status :=
          if callbackData.code = "PAYMENT_SUCCESS" then CallbackStatus.success
          else CallbackStatus.failed
        responseCode := callbackData.code }

/-- The handler of `POST /payment/callback`; the answer is `{ success: true }`
on every path that does not throw.  A job found by its order id has a
freelancer in every store the handlers build; for one without, the model stops
after the transaction record. -/
def paymentCallback (generateChecksum : CallbackData → String) (s : Store)
    (callbackData : CallbackData) (now : Time) : Resp Unit × Store :=
  match processCallback generateChecksum callbackData with
  | Except.error _ => (Resp.ok (), s)
  | Except.ok info =>
    match s.jobs.find? (fun j => decide (j.paymentOrderId = some info.orderId)) with
    | none => (Resp.ok (), s)
    | some job =>
      if info.status ≠ CallbackStatus.success then (Resp.ok (), s)
      else
        let job1 : Job :=
          { job with
            status := JobStatus.paid
            paymentStatus := some PaymentStatus.completed
            paymentTransactionId := some info.transactionId
            paidAt := some now }
        let s1 : Store := { s with jobs := saveJob job1 s.jobs }
        let transaction : Transaction :=
          { _id := freshId (s1.transactions.map (fun t => t._id))
            jobId := some job1._id
            clientId := some job1.clientId
            freelancerId := job1.freelancerId
            amount := info.amount
            type := TransactionType.payment
            status := TransactionStatus.completed
            description := Note.jobPayment job1.title
            paymentMethod := some "phonepe"
            transactionId := some info.transactionId
            referenceId := none
            completedAt := none
            createdAt := now }
        let s2 : Store := { s1 with transactions := s1.transactions ++ [transaction] }
        match job1.freelancerId with
        | none => (Resp.ok (), s2)
        | some freelancer =>
          let wallets1 :=
            match findWallet s2.wallets freelancer with
            | some w => saveWallet { w with balance := w.balance + info.amount } s2.wallets
            | none =>
              let w := newWallet freelancer s2.wallets
              s2.wallets ++ [{ w with balance := w.balance + info.amount }]
          (Resp.ok (), { s2 with wallets := wallets1 })

/-! ## The legacy wallet payment -/

/-- The argument object of `commissionService.processCommission`. -/
structure CommissionArgs where
  jobId : ObjId
  clientId : UserId
  freelancerId : UserId
  amount : Int
  paymentMethod : String
  deriving DecidableEq, Repr

/-- Modelled from the spec: the commission-processing routine
(`utils/commissionService.js`, not part of the sources) that the wallet
payment delegates to, "producing a freelancerAmount net figure": it may write
to the store and yields the net amount, or nothing when its answer carries no
commission details. -/
abbrev CommissionService := CommissionArgs → Store → Option Int × Store

/-- The handler of `POST /jobs/:jobId/pay`. -/
def pay (commissionService : CommissionService) (s : Store) (user : UserId) (jobId : ObjId)
    (now : Time) : Resp (Transaction × Job) × Store :=
  match findClientJob s.jobs jobId user JobStatus.work_done with
  | none => (Resp.rejected 400 "Job not found or not ready for payment", s)
  | some job =>
    let s1 : Store :=
      match findWallet s.wallets user with
      | some _ => s
      | none => { s with wallets := s.wallets ++ [newWallet user s.wallets] }
    match job.freelancerId with
    | none => (Resp.serverError "Failed to process payment", s1)
    | some freelancer =>
      let s2 : Store :=
        match findWallet s1.wallets freelancer with
        | some _ => s1
        | none => { s1 with wallets := s1.wallets ++ [newWallet freelancer s1.wallets] }
      let transaction : Transaction :=
        { _id := freshId (s2.transactions.map (fun t => t._id))
          jobId := some job._id
          clientId := some user
          freelancerId := some freelancer
          amount := job.amount
          type := TransactionType.payment
          status := TransactionStatus.completed
          description := Note.jobPayment job.title
          paymentMethod := some "wallet"
          transactionId := none
          referenceId := none
          completedAt := some now
          createdAt := now }
      let s3 : Store := { s2 with transactions := s2.transactions ++ [transaction] }
      let job1 : Job := { job with status := JobStatus.completed }
      let s4 : Store := { s3 with jobs := saveJob job1 s3.jobs }
      let (commissionResult, s5) :=
        commissionService
          { jobId := job._id, clientId := user, freelancerId := freelancer,
            amount := job.amount, paymentMethod := "wallet" } s4
      match commissionResult with
      | none => (Resp.serverError "Failed to process payment", s5)
      | some freelancerAmount =>
        let s6 : Store :=
          match findFreelancerProfile s5.freelancerProfiles freelancer with
          | some profile =>
            { s5 with
              freelancerProfiles :=
                saveFreelancerProfile
                  { profile with
                    totalJobs := profile.totalJobs + 1
                    completedJobs := profile.completedJobs + 1
                    totalEarnings := profile.totalEarnings + freelancerAmount }
                  s5.freelancerProfiles }
          | none => s5
        let s7 : Store :=
          match findClientProfile s6.clientProfiles user with
          | some profile =>
            { s6 with
              clientProfiles :=
                saveClientProfile { profile with totalSpent := profile.totalSpent + job.amount }
                  s6.clientProfiles }
          | none => s6
        (Resp.ok (transaction, job1), s7)

/-! ## Requests and runs -/

/-- A request to one of the handlers, with the authenticated caller, the
request fields and the time at which it is served.  These are the handlers
that write jobs, offers, ledger entries, wallets or transactions, together
with the profile handlers `POST /profile` (client) and `POST /create-test-profile`;
the remaining verification routes write only the verification status and
profile fields that the model does not carry. -/
inductive Request where
  | clientProfilePost (user : UserId)
  | createTestProfile (user : UserId) (verificationStatus : VerificationStatus)
  | postJob (user : UserId) (title description : String) (amount : Int) (numberOfPeople : Nat)
      (now : Time)
  | applyForJob (user : UserId) (jobId : ObjId) (offeredAmount : Option Int) (message : String)
      (offerType : Option String) (now : Time)
  | respondToOffer (user : UserId) (offerId : ObjId) (action : String)
      (responseMessage : Option String) (now : Time)
  | markWorkDone (user : UserId) (jobId : ObjId) (now : Time)
  | markCompleted (user : UserId) (jobId : ObjId) (now : Time)
  | payPhonepe (user : UserId) (jobId : ObjId) (gatewayOk : Bool) (now : Time)
  | pay (user : UserId) (jobId : ObjId) (now : Time)
  | payCash (user : UserId) (jobId : ObjId) (now : Time)
  | paymentCallback (callbackData : CallbackData) (now : Time)
  | getWallet (user : UserId)
  | withdraw (user : UserId) (amount : Int) (now : Time)
  | clearDue (user : UserId) (amount : Int) (paymentMethod : Option String) (now : Time)
  deriving DecidableEq, Repr

/-- The two collaborators that are not part of the sources. -/
structure Env where
  generateChecksum : CallbackData → String
  commissionService : CommissionService

/-- The store after a request has been served. -/
def step (env : Env) (s : Store) : Request → Store
  | Request.clientProfilePost user => (clientProfilePost s user).2
  | Request.createTestProfile user vs => (createTestProfile s user vs).2
  | Request.postJob user title description amount n now =>
    (postJob s user title description amount n now).2
  | Request.applyForJob user jobId offeredAmount message offerType now =>
    (applyForJob s user jobId offeredAmount message offerType now).2
  | Request.respondToOffer user offerId action responseMessage now =>
    (respondToOffer s user offerId action responseMessage now).2
  | Request.markWorkDone user jobId now => (markWorkDone s user jobId now).2
  | Request.markCompleted user jobId now => (markCompleted s user jobId now).2
  | Request.payPhonepe user jobId gatewayOk now => (payPhonepe s user jobId gatewayOk now).2
  | Request.pay user jobId now => (pay env.commissionService s user jobId now).2
  | Request.payCash user jobId now => (payCash s user jobId now).2
  | Request.paymentCallback callbackData now =>
    (paymentCallback env.generateChecksum s callbackData now).2
  | Request.getWallet user => (getWallet s user).2
  | Request.withdraw user amount now => (withdraw s user amount now).2
  | Request.clearDue user amount paymentMethod now =>
    (clearDue s user amount paymentMethod now).2

/-- The store after a sequence of requests served one after the other. -/
def run (env : Env) (s : Store) (requests : List Request) : Store :=
  requests.foldl (step env) s

/-- The stores the handlers can build from the empty store. -/
def Reachable (env : Env) (s : Store) : Prop :=
  ∃ requests : List Request, run env Store.empty requests = s

/-- A gateway environment for running examples: every checksum is the string
"ok" and the commission routine keeps a tenth. -/
def demoEnv : Env :=
  { generateChecksum := fun _ => "ok"
    commissionService := fun args s => (some (args.amount - roundTenth args.amount), s) }

/-! ## Scenario data -/

/-- A pending commission entry of freelancer 7 for job `100 + id`. -/
def pendingEntry (id : ObjId) (amount : Int) (createdAt : Time) : LedgerEntry :=
  { _id := id
    freelancerId := 7
    jobId := 100 + id
    amount := amount
    type := LedgerType.commission_due
    description := Note.cashCommission "job"
    status := LedgerStatus.pending
    dueDate := defaultDueDate createdAt
    paidAt := none
    paymentMethod := none
    paymentTransactionId := none
    createdAt := createdAt }

/-- The ledger scenario of the specification: freelancer 7 owes 100 (oldest),
300 and 50, and holds a wallet of 1000. -/
def scenarioStore : Store :=
  { Store.empty with
    ledger := [pendingEntry 1 100 10, pendingEntry 2 300 20, pendingEntry 3 50 30]
    wallets := [{ _id := 1, userId := 7, balance := 1000 }] }

/-- Client 1 with a complete profile and one open job (id 0) of amount 2000,
and the approved freelancers 10 and 11. -/
def marketStore : Store :=
  run demoEnv Store.empty
    [Request.clientProfilePost 1,
     Request.postJob 1 "paint" "paint a wall" 2000 1 10,
     Request.createTestProfile 10 VerificationStatus.approved,
     Request.createTestProfile 11 VerificationStatus.approved]

/-- The store `marketStore` in which freelancer 10 owes one pending commission
entry of the given amount. -/
def dueStore (due : Int) : Store :=
  { marketStore with
    ledger := [{ pendingEntry 1 due 10 with freelancerId := 10 }] }

/-- Freelancers 10 and 11 both hold a pending `pickup` offer (ids 0 and 1) on
job 0 of `marketStore`. -/
def twoOffersStore : Store :=
  run demoEnv marketStore
    [Request.applyForJob 10 0 none "" (some "pickup") 20,
     Request.applyForJob 11 0 (some 1800) "" (some "pickup") 21]

/-- The offer with id 0 of `twoOffersStore`. -/
def firstOffer : Offer :=
  { _id := 0
    jobId := 0
    freelancerId := 10
    clientId := 1
    originalAmount := 2000
    offeredAmount := 2000
    message := ""
    offerType := "pickup"
    status := OfferStatus.pending
    respondedAt := none
    responseMessage := none
    createdAt := 20 }

/-- The job with id 0 of `marketStore` and `twoOffersStore`. -/
def paintJob : Job :=
  { _id := 0
    clientId := 1
    freelancerId := none
    title := "paint"
    description := "paint a wall"
    amount := 2000
    numberOfPeople := 1
    status := JobStatus.open
    assignedAt := none
    workCompletedAt := none
    paymentOrderId := none
    paymentStatus := none
    paymentTransactionId := none
    paidAt := none
    completedAt := none
    paymentMethod := none
    createdAt := 10 }

/-- A run in which freelancer 10 applies with `pickup` offers to two jobs of
client 1 and the client then accepts both offers. -/
def twoAcceptsRun : List Request :=
  [Request.clientProfilePost 1,
   Request.postJob 1 "paint" "paint a wall" 2000 1 10,
   Request.postJob 1 "mow" "mow the lawn" 1000 1 11,
   Request.createTestProfile 10 VerificationStatus.approved,
   Request.applyForJob 10 0 none "" (some "pickup") 20,
   Request.applyForJob 10 1 none "" (some "pickup") 21,
   Request.respondToOffer 1 0 "accept" none 30,
   Request.respondToOffer 1 1 "accept" none 31]

/-- A run on `marketStore`: freelancer 11 leaves a `pickup` offer (id 0) on job
0, freelancer 10 takes the job by direct apply, finishes it, is paid in cash
and marks it completed. -/
def completedRun : List Request :=
  [Request.applyForJob 11 0 none "" (some "pickup") 20,
   Request.applyForJob 10 0 none "" none 21,
   Request.markWorkDone 10 0 30,
   Request.payCash 1 0 40,
   Request.markCompleted 10 0 50]

/-- A verified success callback for the order that `payPhonepe` opens at time
40 for job 0, of 200000 paise. -/
def orderCallback : CallbackData :=
  { merchantTransactionId := Ref.ext "T1"
    merchantOrderId := Ref.order 0 40
    amount := 200000
    code := "PAYMENT_SUCCESS"
    checksum := "ok" }

/-- A run on `marketStore`: freelancer 10 takes job 0 by direct apply and
finishes it, the client opens a gateway payment, the gateway confirms it, and
the freelancer marks the job completed. -/
def gatewayRun : List Request :=
  [Request.applyForJob 10 0 none "" none 21,
   Request.markWorkDone 10 0 30,
   Request.payPhonepe 1 0 true 40,
   Request.paymentCallback orderCallback 45,
   Request.markCompleted 10 0 50]

/-- The number of active jobs a freelancer holds. -/
def activeJobCount (jobs : List Job) (freelancerId : UserId) : Nat :=
  (jobs.filter (fun j => decide (j.freelancerId = some freelancerId) && j.status.isActive)).length

/-- The position of a status in the lifecycle
open, assigned, work_done, waiting_for_payment, paid, completed. -/
def JobStatus.rank : JobStatus → Nat
  | JobStatus.open => 0
  | JobStatus.assigned => 1
  | JobStatus.work_done => 2
  | JobStatus.waiting_for_payment => 3
  | JobStatus.paid => 4
  | JobStatus.completed => 5
  | JobStatus.cancelled => 6

/-- The pending offers on a job. -/
def pendingOffersOn (offers : List Offer) (jobId : ObjId) : List Offer :=
  offers.filter (fun o => decide (o.jobId = jobId) && decide (o.status = OfferStatus.pending))

/-- Offer exclusivity: no job and freelancer have two offers that are pending
or accepted. -/
def OfferExclusive (offers : List Offer) : Prop :=
  ∀ (jobId : ObjId) (freelancerId : UserId),
    (offers.filter (fun o =>
      decide (o.jobId = jobId) && decide (o.freelancerId = freelancerId) &&
        o.status.isLive)).length ≤ 1

/-- Job 0 of `marketStore` once freelancer 10 has taken it by direct apply (at
time 21) and marked the work done (at time 30). -/
def awaitingJob : Job :=
  { paintJob with
    freelancerId := some 10
    status := JobStatus.waiting_for_payment
    assignedAt := some 21
    workCompletedAt := some 30 }

/-- The store in which job 0 waits for payment: `marketStore` after the direct
apply and the work-done request of freelancer 10. -/
def awaitingPaymentStore : Store :=
  run demoEnv marketStore
    [Request.applyForJob 10 0 none "" none 21,
     Request.markWorkDone 10 0 30]

/-- The job `awaitingJob` once the client has opened a gateway payment at time 40. -/
def orderedJob : Job :=
  { awaitingJob with
    paymentOrderId := some (Ref.order 0 40)
    paymentStatus := some PaymentStatus.initiated }

/-- The store `awaitingPaymentStore` after the client has opened a gateway
payment for job 0 at time 40. -/
def orderedStore : Store :=
  run demoEnv awaitingPaymentStore [Request.payPhonepe 1 0 true 40]

/-- The callback `orderCallback` with a checksum that does not verify. -/
def forgedCallback : CallbackData :=
  { orderCallback with checksum := "forged" }

/-- The conditions under which, by the specification, an application creates
an offer: the caller's profile exists and is approved, the caller holds no job
that is assigned, work_done or waiting_for_payment, the commission gate of the
handler passes (total pending due below the default threshold 500), the job
exists and is open, and the caller has no pending or accepted offer on it. -/
def ApplyPreconditions (s : Store) (user : UserId) (jobId : ObjId) : Prop :=
  (∃ profile, findFreelancerProfile s.freelancerProfiles user = some profile ∧
      profile.verificationStatus = VerificationStatus.approved) ∧
    (∀ j ∈ s.jobs, j.freelancerId = some user →
      j.status ≠ JobStatus.assigned ∧ j.status ≠ JobStatus.work_done ∧
        j.status ≠ JobStatus.waiting_for_payment) ∧
    (getTotalDue s.ledger user).totalDue < 500 ∧
    (∃ job, findJobById s.jobs jobId = some job ∧ job.status = JobStatus.open) ∧
    (∀ o ∈ s.offers, o.jobId = jobId → o.freelancerId = user →
      o.status ≠ OfferStatus.pending ∧ o.status ≠ OfferStatus.accepted)

/-- A run from the empty store in which client 1 posts a job of amount
6755399441055744 (3 * 2 ^ 51, a whole number that a Number holds exactly),
freelancer 10 takes it by direct apply and marks the work done. -/
def largeJobRun : List Request :=
  [Request.clientProfilePost 1,
   Request.postJob 1 "estate" "clear an estate" 6755399441055744 1 10,
   Request.createTestProfile 10 VerificationStatus.approved,
   Request.applyForJob 10 0 none "" none 21,
   Request.markWorkDone 10 0 30]

/-- The store in which the job of amount 6755399441055744 waits for payment. -/
def largeJobStore : Store := run demoEnv Store.empty largeJobRun

/-! # Properties -/

/-! ## Auxiliary facts about the ledger collection -/

/-- The reported total is the sum of the pending amounts of the freelancer. -/
theorem getTotalDue_totalDue (l : List LedgerEntry) (F : UserId) :
    (getTotalDue l F).totalDue = ((l.filter (isPendingOf F)).map (fun e => e.amount)).sum := by
  unfold getTotalDue
  cases h : l.filter (isPendingOf F) <;> simp

theorem freshId_gt (ids : List ObjId) : ∀ i ∈ ids, i < freshId ids := by
  induction ids with
  | nil => intro i hi; cases hi
  | cons a t ih =>
    intro i hi
    simp only [freshId, List.foldr] at ih ⊢
    rcases List.mem_cons.mp hi with h | h
    · subst h; exact lt_of_lt_of_le (Nat.lt_succ_self i) (le_max_left _ _)
    · exact lt_of_lt_of_le (ih i h) (le_max_right _ _)

theorem freshId_not_mem (ids : List ObjId) : freshId ids ∉ ids := fun h =>
  Nat.lt_irrefl _ (freshId_gt ids _ h)

theorem saveEntry_map_id (e : LedgerEntry) (L : List LedgerEntry) :
    (saveEntry e L).map (fun d => d._id) = L.map (fun d => d._id) := by
  simp only [saveEntry, List.map_map]
  apply List.map_congr_left
  intro d _
  by_cases h : d._id = e._id <;> simp [h]

theorem saveEntry_of_not_mem (e : LedgerEntry) (L : List LedgerEntry)
    (h : e._id ∉ L.map (fun d => d._id)) : saveEntry e L = L := by
  induction L with
  | nil => rfl
  | cons d t ih =>
    simp only [List.map_cons, List.mem_cons, not_or] at h
    have hd : ¬ d._id = e._id := fun hh => h.1 hh.symm
    have := ih h.2
    simp only [saveEntry] at this ⊢
    simp [hd, this]

theorem mem_saveEntry_of_ne (e d : LedgerEntry) (L : List LedgerEntry) (hd : d ∈ L)
    (hne : d._id ≠ e._id) : d ∈ saveEntry e L := by
  simp only [saveEntry, List.mem_map]
  exact ⟨d, hd, by simp [hne]⟩

theorem mem_saveEntry_self (e d : LedgerEntry) (L : List LedgerEntry) (hd : d ∈ L)
    (heq : d._id = e._id) : e ∈ saveEntry e L := by
  simp only [saveEntry, List.mem_map]
  exact ⟨d, hd, by simp [heq]⟩

/-- Saving a document that is no longer pending over a pending one lowers the
pending sum of `F` by the amount of the replaced document. -/
theorem pendSum_saveEntry (F : UserId) (e e1 : LedgerEntry) :
    ∀ L : List LedgerEntry, (L.map (fun d => d._id)).Nodup → e ∈ L → isPendingOf F e = true →
      e1._id = e._id → isPendingOf F e1 = false →
      (((saveEntry e1 L).filter (isPendingOf F)).map (fun d => d.amount)).sum
        = ((L.filter (isPendingOf F)).map (fun d => d.amount)).sum - e.amount := by
  intro L
  induction L with
  | nil => intro _ h; cases h
  | cons d t ih =>
    intro hnd hmem hp hid hnp
    simp only [List.map_cons, List.nodup_cons] at hnd
    by_cases hde : d._id = e._id
    · have hed : e = d := by
        rcases List.mem_cons.mp hmem with h | h
        · exact h
        · exfalso; apply hnd.1; rw [hde]; exact List.mem_map_of_mem (fun d => d._id) h
      subst hed
      have hrest : saveEntry e1 t = t := by
        apply saveEntry_of_not_mem; rw [hid]; exact hnd.1
      have hcons : saveEntry e1 (e :: t) = e1 :: saveEntry e1 t := by
        simp [saveEntry, hid]
      rw [hcons, hrest]
      simp [List.filter_cons, hp, hnp]
    · have hmem1 : e ∈ t := by
        rcases List.mem_cons.mp hmem with h | h
        · exact absurd (by rw [h]) hde
        · exact h
      have hcons : saveEntry e1 (d :: t) = d :: saveEntry e1 t := by
        have : ¬ d._id = e1._id := by rw [hid]; exact hde
        simp [saveEntry, this]
      rw [hcons]
      have := ih hnd.2 hmem1 hp hid hnp
      by_cases hpd : isPendingOf F d = true
      · simp only [List.filter_cons, hpd, if_true, List.map_cons, List.sum_cons, this]; ring
      · simp only [List.filter_cons, hpd]; exact this

theorem totalDue_saveEntry (F : UserId) (e e1 : LedgerEntry) (L : List LedgerEntry)
    (hnd : (L.map (fun d => d._id)).Nodup) (hmem : e ∈ L) (hp : isPendingOf F e = true)
    (hid : e1._id = e._id) (hnp : isPendingOf F e1 = false) :
    (getTotalDue (saveEntry e1 L) F).totalDue = (getTotalDue L F).totalDue - e.amount := by
  rw [getTotalDue_totalDue, getTotalDue_totalDue]
  exact pendSum_saveEntry F e e1 L hnd hmem hp hid hnp

theorem totalDue_append (F : UserId) (L : List LedgerEntry) (d : LedgerEntry)
    (hp : isPendingOf F d = true) :
    (getTotalDue (L ++ [d]) F).totalDue = (getTotalDue L F).totalDue + d.amount := by
  rw [getTotalDue_totalDue, getTotalDue_totalDue]
  simp [List.filter_append, List.filter_cons, hp]

theorem nodup_append_fresh (L : List LedgerEntry) (d : LedgerEntry)
    (hnd : (L.map (fun d => d._id)).Nodup) (hd : d._id = freshId (L.map (fun d => d._id))) :
    ((L ++ [d]).map (fun d => d._id)).Nodup := by
  rw [List.map_append, List.nodup_append]
  refine ⟨hnd, by simp, ?_⟩
  intro a ha hb
  simp only [List.map_cons, List.map_nil, List.mem_singleton] at hb
  rw [hb, hd] at ha
  exact freshId_not_mem _ ha

/-! ## The allocation loop -/

theorem validate_name (pm : Option PaymentMethod) :
    PaymentMethod.validate (pm.map PaymentMethod.name) = some pm := by
  cases pm with
  | none => rfl
  | some m => cases m <;> rfl

theorem markAsPaid_name (e : LedgerEntry) (pm : Option PaymentMethod) (t : Ref) (now : Time) :
    e.markAsPaid (pm.map PaymentMethod.name) t now = some (e.asPaid pm t now) := by
  simp only [LedgerEntry.markAsPaid, validate_name]

theorem clearDueLoop_break (m : Option String) (now : Time) (es : List LedgerEntry)
    (r : Int) (L : List LedgerEntry) (P : List ProcessedEntry) (h : r ≤ 0) :
    clearDueLoop m now es r L P = (L, P, r, false) := by
  cases es <;> simp [clearDueLoop, h]

theorem clearDueLoop_full (pm : Option PaymentMethod) (now : Time) (e : LedgerEntry)
    (rest : List LedgerEntry) (r : Int) (L : List LedgerEntry) (P : List ProcessedEntry)
    (hr : 0 < r) (h : e.amount ≤ r) :
    clearDueLoop (pm.map PaymentMethod.name) now (e :: rest) r L P
      = clearDueLoop (pm.map PaymentMethod.name) now rest (r - e.amount)
          (saveEntry (e.asPaid pm (Ref.clearDue now) now) L)
          (P ++ [{ id := e._id, amount := e.amount, status := ProcessedStatus.fully_paid }]) := by
  have h1 : ¬ r ≤ 0 := not_le.mpr hr
  have h2 : min e.amount r = e.amount := min_eq_left h
  simp [clearDueLoop, h1, h2, markAsPaid_name]

theorem clearDueLoop_split (pm : Option PaymentMethod) (now : Time) (e : LedgerEntry)
    (rest : List LedgerEntry) (r : Int) (L : List LedgerEntry) (P : List ProcessedEntry)
    (hr : 0 < r) (h : r < e.amount) :
    clearDueLoop (pm.map PaymentMethod.name) now (e :: rest) r L P
      = (saveEntry (({ e with amount := r } : LedgerEntry).asPaid pm (Ref.clearDue now) now)
            (L ++ [remainingEntryOf e r L now]),
          P ++ [{ id := e._id, amount := r, status := ProcessedStatus.partially_paid }], 0,
          false) := by
  have h1 : ¬ r ≤ 0 := not_le.mpr hr
  have h2 : min e.amount r = r := min_eq_right (le_of_lt h)
  have h3 : ¬ r = e.amount := ne_of_lt h
  simp only [clearDueLoop, h1, h2, h3, if_false, sub_self, markAsPaid_name]
  exact clearDueLoop_break _ now rest 0 _ _ (le_refl 0)

/-- With a payment method that the schema accepts the loop never ends by an
exception. -/
theorem clearDueLoop_not_thrown (pm : Option PaymentMethod) (now : Time) :
    ∀ (es : List LedgerEntry) (r : Int) (L : List LedgerEntry) (P : List ProcessedEntry),
      (clearDueLoop (pm.map PaymentMethod.name) now es r L P).2.2.2 = false := by
  intro es
  induction es with
  | nil => intro r L P; rfl
  | cons e rest ih =>
    intro r L P
    by_cases hr : r ≤ 0
    · rw [clearDueLoop_break _ now (e :: rest) r L P hr]
    · by_cases hfull : e.amount ≤ r
      · rw [clearDueLoop_full pm now e rest r L P (not_le.mp hr) hfull]
        exact ih _ _ _
      · rw [clearDueLoop_split pm now e rest r L P (not_le.mp hr) (not_le.mp hfull)]

theorem markAsPaid_not_pending (F : UserId) (e : LedgerEntry) (pm : Option PaymentMethod)
    (t : Ref) (now : Time) : isPendingOf F (e.asPaid pm t now) = false := by
  simp [isPendingOf, LedgerEntry.asPaid]

theorem rest_mem_saveEntry (e e1 : LedgerEntry) (rest L : List LedgerEntry)
    (hid : e1._id = e._id) (hes : ((e :: rest).map (fun d => d._id)).Nodup)
    (hmem : ∀ d ∈ rest, d ∈ L) : ∀ d ∈ rest, d ∈ saveEntry e1 L := by
  intro d hd
  apply mem_saveEntry_of_ne e1 d L (hmem d hd)
  intro h
  simp only [List.map_cons, List.nodup_cons] at hes
  apply hes.1
  rw [← hid, ← h]
  exact List.mem_map_of_mem (fun d => d._id) hd

/-- Conservation along the loop: when the amount to allocate lies between zero
and the sum of the entries still to visit, the pending total drops by it and
the processed amounts grow by it. -/
theorem clearDueLoop_sum (F : UserId) (pm : Option PaymentMethod) (now : Time) :
    ∀ (es : List LedgerEntry) (r : Int) (L : List LedgerEntry) (P : List ProcessedEntry),
      (L.map (fun d => d._id)).Nodup → (es.map (fun d => d._id)).Nodup →
      (∀ e ∈ es, e ∈ L) → (∀ e ∈ es, isPendingOf F e = true) → (∀ e ∈ es, 0 ≤ e.amount) →
      0 ≤ r → r ≤ (es.map (fun e => e.amount)).sum →
      (getTotalDue (clearDueLoop (pm.map PaymentMethod.name) now es r L P).1 F).totalDue
        = (getTotalDue L F).totalDue - r ∧
      (((clearDueLoop (pm.map PaymentMethod.name) now es r L P).2.1).map (fun p => p.amount)).sum
        = (P.map (fun p => p.amount)).sum + r := by
  intro es
  induction es with
  | nil =>
    intro r L P _ _ _ _ _ h0 h1
    simp only [List.map_nil, List.sum_nil] at h1
    have : r = 0 := le_antisymm h1 h0
    subst this
    simp [clearDueLoop]
  | cons e rest ih =>
    intro r L P hL hes hmem hpend hnn h0 h1
    have heL : e ∈ L := hmem e (List.mem_cons_self _ _)
    have hep : isPendingOf F e = true := hpend e (List.mem_cons_self _ _)
    have hrestnd : (rest.map (fun d => d._id)).Nodup := by
      simp only [List.map_cons, List.nodup_cons] at hes; exact hes.2
    have hrestL : ∀ d ∈ rest, d ∈ L := fun d hd => hmem d (List.mem_cons_of_mem _ hd)
    have hrestp : ∀ d ∈ rest, isPendingOf F d = true := fun d hd =>
      hpend d (List.mem_cons_of_mem _ hd)
    have hrestnn : ∀ d ∈ rest, 0 ≤ d.amount := fun d hd => hnn d (List.mem_cons_of_mem _ hd)
    simp only [List.map_cons, List.sum_cons] at h1
    rcases lt_or_eq_of_le h0 with hr | hr
    · by_cases hfull : e.amount ≤ r
      · rw [clearDueLoop_full pm now e rest r L P hr hfull]
        have hL1 : ((saveEntry (e.asPaid pm (Ref.clearDue now) now) L).map
            (fun d => d._id)).Nodup := by rw [saveEntry_map_id]; exact hL
        obtain ⟨a, b⟩ := ih (r - e.amount) _
          (P ++ [{ id := e._id, amount := e.amount, status := ProcessedStatus.fully_paid }])
          hL1 hrestnd (rest_mem_saveEntry e _ rest L rfl hes hrestL) hrestp hrestnn
          (by omega) (by omega)
        rw [a, b, totalDue_saveEntry F e (e.asPaid pm (Ref.clearDue now) now) L hL heL hep
          rfl (markAsPaid_not_pending F e _ _ _)]
        constructor
        · ring
        · simp only [List.map_append, List.sum_append, List.map_cons, List.map_nil,
            List.sum_cons, List.sum_nil]; ring
      · have hlt : r < e.amount := not_le.mp hfull
        rw [clearDueLoop_split pm now e rest r L P hr hlt]
        have hnew : isPendingOf F (remainingEntryOf e r L now) = true := by
          simp only [isPendingOf, remainingEntryOf, Bool.and_eq_true, decide_eq_true_eq,
            and_true]
          have := hep
          simp only [isPendingOf, Bool.and_eq_true, decide_eq_true_eq] at this
          exact this.1
        have hL1 : ((L ++ [remainingEntryOf e r L now]).map (fun d => d._id)).Nodup :=
          nodup_append_fresh L _ hL rfl
        constructor
        · show (getTotalDue (saveEntry _ (L ++ [remainingEntryOf e r L now])) F).totalDue = _
          rw [totalDue_saveEntry F e
            (({ e with amount := r } : LedgerEntry).asPaid pm (Ref.clearDue now) now)
            (L ++ [remainingEntryOf e r L now]) hL1
            (List.mem_append_left _ heL) hep rfl (markAsPaid_not_pending F _ _ _ _),
            totalDue_append F L _ hnew]
          simp only [remainingEntryOf]; ring
        · simp only [List.map_append, List.sum_append, List.map_cons, List.map_nil,
            List.sum_cons, List.sum_nil]; ring
    · subst hr
      rw [clearDueLoop_break _ now (e :: rest) 0 L P (le_refl 0)]
      simp

theorem mem_dropLast_cons {α : Type} (a p : α) (l : List α) (h : p ∈ (a :: l).dropLast) :
    p = a ∨ p ∈ l.dropLast := by
  cases l with
  | nil => simp [List.dropLast] at h
  | cons b t =>
    simp only [List.dropLast] at h
    exact List.mem_cons.mp h

/-- The shape of a run of the loop: it visits a front part of the entries, pays
every visited entry but possibly the last in full, stores each visited entry as
paid with the reported amount, and leaves every other document as it was. -/
theorem clearDueLoop_shape (pm : Option PaymentMethod) (now : Time) :
    ∀ (es : List LedgerEntry) (r : Int) (L : List LedgerEntry) (P : List ProcessedEntry),
      (L.map (fun d => d._id)).Nodup → (es.map (fun d => d._id)).Nodup → (∀ e ∈ es, e ∈ L) →
      ∃ (k : Nat) (Q : List ProcessedEntry), k ≤ es.length ∧
        (clearDueLoop (pm.map PaymentMethod.name) now es r L P).2.1 = P ++ Q ∧
        List.Forall₂ (fun (e : LedgerEntry) (p : ProcessedEntry) => p.id = e._id ∧
          ((p.status = ProcessedStatus.fully_paid ∧ p.amount = e.amount) ∨
            (p.status = ProcessedStatus.partially_paid ∧ 0 < p.amount ∧ p.amount < e.amount)))
          (es.take k) Q ∧
        (∀ p ∈ Q.dropLast, p.status = ProcessedStatus.fully_paid) ∧
        (∀ e ∈ es.drop k, e ∈ (clearDueLoop (pm.map PaymentMethod.name) now es r L P).1) ∧
        (∀ d ∈ L, d._id ∉ es.map (fun d => d._id) → d
          ∈ (clearDueLoop (pm.map PaymentMethod.name) now es r L P).1) ∧
        (∀ p ∈ Q, ∃ d ∈ (clearDueLoop (pm.map PaymentMethod.name) now es r L P).1,
          d._id = p.id ∧ d.status = LedgerStatus.paid ∧ d.amount = p.amount) ∧
        (((clearDueLoop (pm.map PaymentMethod.name) now es r L P).1).map (fun d => d._id)).Nodup := by
  intro es
  induction es with
  | nil =>
    intro r L P hL _ _
    refine ⟨0, [], le_refl _, by simp [clearDueLoop], by simp, by simp, by simp, ?_, by simp, ?_⟩
    · intro d hd _; simpa [clearDueLoop] using hd
    · simpa [clearDueLoop] using hL
  | cons e rest ih =>
    intro r L P hL hes hmem
    have heL : e ∈ L := hmem e (List.mem_cons_self _ _)
    have hes1 := hes
    simp only [List.map_cons, List.nodup_cons] at hes1
    have hrestL : ∀ d ∈ rest, d ∈ L := fun d hd => hmem d (List.mem_cons_of_mem _ hd)
    by_cases hr : r ≤ 0
    · rw [clearDueLoop_break _ now (e :: rest) r L P hr]
      refine ⟨0, [], Nat.zero_le _, by simp, by simp, by simp, ?_, ?_, by simp, hL⟩
      · intro d hd; exact hmem d (by simpa using hd)
      · intro d hd _; exact hd
    · have hr0 : 0 < r := not_le.mp hr
      by_cases hfull : e.amount ≤ r
      · rw [clearDueLoop_full pm now e rest r L P hr0 hfull]
        have hL1 : ((saveEntry (e.asPaid pm (Ref.clearDue now) now) L).map
            (fun d => d._id)).Nodup := by rw [saveEntry_map_id]; exact hL
        obtain ⟨k, Q, hk, hQ, hF, hD, hU, hO, hS, hN⟩ := ih (r - e.amount) _
          (P ++ [{ id := e._id, amount := e.amount, status := ProcessedStatus.fully_paid }])
          hL1 hes1.2 (rest_mem_saveEntry e _ rest L rfl hes hrestL)
        refine ⟨k + 1,
          { id := e._id, amount := e.amount, status := ProcessedStatus.fully_paid } :: Q,
          by simpa using hk, by rw [hQ]; simp, ?_, ?_, ?_, ?_, ?_, hN⟩
        · rw [List.take_succ_cons]
          exact List.Forall₂.cons ⟨rfl, Or.inl ⟨rfl, rfl⟩⟩ hF
        · intro p hp
          rcases mem_dropLast_cons _ _ _ hp with h | h
          · rw [h]
          · exact hD p h
        · intro d hd
          rw [List.drop_succ_cons] at hd
          exact hU d hd
        · intro d hd hnot
          simp only [List.map_cons, List.mem_cons, not_or] at hnot
          exact hO d (mem_saveEntry_of_ne _ d L hd hnot.1) hnot.2
        · intro p hp
          rcases List.mem_cons.mp hp with h | h
          · refine ⟨e.asPaid pm (Ref.clearDue now) now,
              hO _ (mem_saveEntry_self _ e L heL rfl) hes1.1, ?_⟩
            rw [h]; exact ⟨rfl, rfl, rfl⟩
          · exact hS p h
      · have hlt : r < e.amount := not_le.mp hfull
        rw [clearDueLoop_split pm now e rest r L P hr0 hlt]
        have hL1 : ((L ++ [remainingEntryOf e r L now]).map (fun d => d._id)).Nodup :=
          nodup_append_fresh L _ hL rfl
        refine ⟨1, [{ id := e._id, amount := r, status := ProcessedStatus.partially_paid }],
          by simp, rfl, ?_, by simp, ?_, ?_, ?_, ?_⟩
        · rw [List.take_succ_cons, List.take_zero]
          exact List.Forall₂.cons ⟨rfl, Or.inr ⟨rfl, hr0, hlt⟩⟩ List.Forall₂.nil
        · intro d hd
          rw [List.drop_succ_cons, List.drop_zero] at hd
          exact rest_mem_saveEntry e
            (({ e with amount := r } : LedgerEntry).asPaid pm (Ref.clearDue now) now) rest
            (L ++ [remainingEntryOf e r L now]) rfl hes
            (fun d hd => List.mem_append_left _ (hrestL d hd)) d hd
        · intro d hd hnot
          simp only [List.map_cons, List.mem_cons, not_or] at hnot
          exact mem_saveEntry_of_ne _ d _ (List.mem_append_left _ hd) hnot.1
        · intro p hp
          rw [List.mem_singleton] at hp
          refine ⟨({ e with amount := r } : LedgerEntry).asPaid pm (Ref.clearDue now) now,
            mem_saveEntry_self _ e _ (List.mem_append_left _ heL) rfl, ?_⟩
          rw [hp]; exact ⟨rfl, rfl, rfl⟩
        · show ((saveEntry _ (L ++ [remainingEntryOf e r L now])).map (fun d => d._id)).Nodup
          rw [saveEntry_map_id]; exact hL1

/-! ## The sorted query and the handler -/

theorem findPendingSorted_perm (L : List LedgerEntry) (F : UserId) :
    (findPendingSorted L F).Perm (L.filter (isPendingOf F)) :=
  List.perm_insertionSort createdBefore _

theorem findPendingSorted_sorted (L : List LedgerEntry) (F : UserId) :
    (findPendingSorted L F).Sorted createdBefore :=
  List.sorted_insertionSort createdBefore _

theorem mem_findPendingSorted (L : List LedgerEntry) (F : UserId) (e : LedgerEntry) :
    e ∈ findPendingSorted L F ↔ e ∈ L ∧ isPendingOf F e = true := by
  rw [(findPendingSorted_perm L F).mem_iff, List.mem_filter]

theorem findPendingSorted_nodup (L : List LedgerEntry) (F : UserId)
    (hL : (L.map (fun d => d._id)).Nodup) :
    ((findPendingSorted L F).map (fun d => d._id)).Nodup := by
  have h1 : ((L.filter (isPendingOf F)).map (fun d => d._id)).Nodup :=
    List.Nodup.sublist (List.Sublist.map _ (List.filter_sublist L)) hL
  exact ((findPendingSorted_perm L F).map _).nodup_iff.mpr h1

theorem findPendingSorted_sum (L : List LedgerEntry) (F : UserId) :
    ((findPendingSorted L F).map (fun e => e.amount)).sum = (getTotalDue L F).totalDue := by
  rw [getTotalDue_totalDue]
  exact ((findPendingSorted_perm L F).map _).sum_eq

/-- What a clear-due request that passes both checks answers and stores. -/
theorem clearDue_success (s : Store) (user : UserId) (amount : Int)
    (pm : Option PaymentMethod) (now : Time) (wallet : Wallet)
    (hle : amount ≤ (getTotalDue s.ledger user).totalDue)
    (hw : findWallet s.wallets user = some wallet) (hb : amount ≤ wallet.balance) :
    ∃ data, (clearDue s user amount (pm.map PaymentMethod.name) now).1 = Resp.ok data ∧
      data.amountPaid = amount ∧
      data.processedEntries
        = (clearDueLoop (pm.map PaymentMethod.name) now (findPendingSorted s.ledger user)
            amount s.ledger []).2.1 ∧
      (clearDue s user amount (pm.map PaymentMethod.name) now).2.ledger
        = (clearDueLoop (pm.map PaymentMethod.name) now (findPendingSorted s.ledger user)
            amount s.ledger []).1 ∧
      data.totalDue
        = (getTotalDue (clearDue s user amount (pm.map PaymentMethod.name) now).2.ledger
            user).totalDue ∧
      data.canWork
        = canFreelancerWork (clearDue s user amount (pm.map PaymentMethod.name) now).2.ledger
            user none ∧
      (clearDue s user amount (pm.map PaymentMethod.name) now).2.wallets
        = saveWallet { wallet with balance := wallet.balance - amount } s.wallets ∧
      (clearDue s user amount (pm.map PaymentMethod.name) now).2.transactions
        = s.transactions ++ [data.transaction] ∧
      data.transaction.amount = amount ∧
      data.transaction.type = TransactionType.commission_payment ∧
      data.transaction.status = TransactionStatus.completed := by
  have h1 : ¬ amount > (getTotalDue s.ledger user).totalDue := not_lt.mpr hle
  have h2 : ¬ wallet.balance < amount := not_lt.mpr hb
  have hthrown := clearDueLoop_not_thrown pm now (findPendingSorted s.ledger user) amount
    s.ledger []
  rcases hloop : clearDueLoop (pm.map PaymentMethod.name) now (findPendingSorted s.ledger user)
      amount s.ledger [] with ⟨L1, P1, r1, thrown⟩
  rw [hloop] at hthrown
  have hthrown1 : thrown = false := hthrown
  subst hthrown1
  simp only [clearDue, h1, hw, h2, if_false, hloop, Bool.false_eq_true]
  refine ⟨_, rfl, ?_⟩
  simp

theorem processed_ids_of_forall₂ {R : LedgerEntry → ProcessedEntry → Prop}
    (hR : ∀ e p, R e p → p.id = e._id) {l : List LedgerEntry} {Q : List ProcessedEntry}
    (h : List.Forall₂ R l Q) : Q.map (fun p => p.id) = l.map (fun e => e._id) := by
  induction h with
  | nil => rfl
  | cons h _ ih => simp only [List.map_cons, ih, hR _ _ h]

/-! ## Due clearing: conservation, order, split -/

/-- C1. Due-clearing conservation: with unique document ids and non-negative
pending amounts summing to T, a clear-due request of an amount A with
0 < A ≤ T from a caller whose wallet holds at least A, sent with a payment
method of the ledger schema or with none, succeeds; its processed entries have
distinct ids of entries that were pending, their amounts sum to exactly A, each
of them is stored as paid with the reported amount, and the pending total
afterwards (the one reported and the one `getTotalDue` computes on the new
store) is T - A. -/
theorem clearDue_conservation (s : Store) (user : UserId) (amount : Int)
    (pm : Option PaymentMethod) (now : Time) (wallet : Wallet)
    (hids : (s.ledger.map (fun d => d._id)).Nodup)
    (hnn : ∀ e ∈ s.ledger, isPendingOf user e = true → 0 ≤ e.amount)
    (hpos : 0 < amount) (hle : amount ≤ (getTotalDue s.ledger user).totalDue)
    (hw : findWallet s.wallets user = some wallet) (hb : amount ≤ wallet.balance) :
    ∃ data, (clearDue s user amount (pm.map PaymentMethod.name) now).1 = Resp.ok data ∧
      (data.processedEntries.map (fun p => p.amount)).sum = amount ∧
      (data.processedEntries.map (fun p => p.id)).Nodup ∧
      (∀ p ∈ data.processedEntries,
        (∃ e ∈ s.ledger, e._id = p.id ∧ isPendingOf user e = true) ∧
        (∃ d ∈ (clearDue s user amount (pm.map PaymentMethod.name) now).2.ledger,
          d._id = p.id ∧ d.status = LedgerStatus.paid ∧ d.amount = p.amount)) ∧
      data.totalDue = (getTotalDue s.ledger user).totalDue - amount ∧
      (getTotalDue (clearDue s user amount (pm.map PaymentMethod.name) now).2.ledger user).totalDue
        = (getTotalDue s.ledger user).totalDue - amount := by
  obtain ⟨data, hresp, -, hproc, hledger, htot, -⟩ :=
    clearDue_success s user amount pm now wallet hle hw hb
  have hesnd := findPendingSorted_nodup s.ledger user hids
  have hesL : ∀ e ∈ findPendingSorted s.ledger user, e ∈ s.ledger := fun e he =>
    ((mem_findPendingSorted s.ledger user e).mp he).1
  have hesP : ∀ e ∈ findPendingSorted s.ledger user, isPendingOf user e = true := fun e he =>
    ((mem_findPendingSorted s.ledger user e).mp he).2
  obtain ⟨hsum1, hsum2⟩ := clearDueLoop_sum user pm now (findPendingSorted s.ledger user) amount
    s.ledger [] hids hesnd hesL hesP (fun e he => hnn e (hesL e he) (hesP e he))
    (le_of_lt hpos) (by rw [findPendingSorted_sum]; exact hle)
  obtain ⟨k, Q, -, hQ, hF, -, -, -, hS, -⟩ := clearDueLoop_shape pm now
    (findPendingSorted s.ledger user) amount s.ledger [] hids hesnd hesL
  rw [List.nil_append] at hQ
  have hidsQ : Q.map (fun p => p.id)
      = ((findPendingSorted s.ledger user).take k).map (fun e => e._id) :=
    processed_ids_of_forall₂ (fun _ _ h => h.1) hF
  refine ⟨data, hresp, ?_, ?_, ?_, ?_, ?_⟩
  · rw [hproc, hsum2]; simp
  · rw [hproc, hQ, hidsQ]
    exact List.Nodup.sublist (List.Sublist.map _ (List.take_sublist _ _)) hesnd
  · intro p hp
    rw [hproc, hQ] at hp
    constructor
    · have : p.id ∈ Q.map (fun p => p.id) := List.mem_map_of_mem (fun p => p.id) hp
      rw [hidsQ] at this
      obtain ⟨e, he, hid⟩ := List.mem_map.mp this
      have he1 := List.mem_of_mem_take he
      exact ⟨e, hesL e he1, hid, hesP e he1⟩
    · rw [hledger]; exact hS p hp
  · rw [htot, hledger, hsum1]
  · rw [hledger, hsum1]

/-- Witness of C1 on the scenario store: clearing 250 of a total of 450. -/
theorem clearDue_conservation_witness :
    ∃ data, (clearDue scenarioStore 7 250 (some "wallet") 1000).1 = Resp.ok data ∧
      (data.processedEntries.map (fun p => p.amount)).sum = 250 ∧
      (data.processedEntries.map (fun p => p.id)).Nodup ∧
      (∀ p ∈ data.processedEntries,
        (∃ e ∈ scenarioStore.ledger, e._id = p.id ∧ isPendingOf 7 e = true) ∧
        (∃ d ∈ (clearDue scenarioStore 7 250 (some "wallet") 1000).2.ledger,
          d._id = p.id ∧ d.status = LedgerStatus.paid ∧ d.amount = p.amount)) ∧
      data.totalDue = (getTotalDue scenarioStore.ledger 7).totalDue - 250 ∧
      (getTotalDue (clearDue scenarioStore 7 250 (some "wallet") 1000).2.ledger
        7).totalDue = (getTotalDue scenarioStore.ledger 7).totalDue - 250 :=
  clearDue_conservation scenarioStore 7 250 (some PaymentMethod.wallet) 1000
    { _id := 1, userId := 7, balance := 1000 } (by decide) (by decide) (by decide) (by decide)
    (by decide) (by decide)

/-- The loop run with an amount r, 0 < r, that the entries to visit can
absorb: it visits exactly the first k entries, where k is the least number of
leading entries whose amounts add up to r or more; each visited entry is
stored as paid, in full for all but possibly the last, which a split stores as
paid with the amount that was left; and every document with another id stays as
it was. -/
theorem clearDueLoop_prefix (pm : Option PaymentMethod) (now : Time) :
    ∀ (es : List LedgerEntry) (r : Int) (L : List LedgerEntry) (P : List ProcessedEntry),
      (L.map (fun d => d._id)).Nodup → (es.map (fun d => d._id)).Nodup → (∀ e ∈ es, e ∈ L) →
      0 < r → r ≤ (es.map (fun e => e.amount)).sum →
      ∃ (k : Nat) (Q : List ProcessedEntry), 1 ≤ k ∧ k ≤ es.length ∧
        (∀ j < k, ((es.take j).map (fun e => e.amount)).sum < r) ∧
        r ≤ ((es.take k).map (fun e => e.amount)).sum ∧
        (clearDueLoop (pm.map PaymentMethod.name) now es r L P).2.1 = P ++ Q ∧
        List.Forall₂ (fun (e : LedgerEntry) (p : ProcessedEntry) => p.id = e._id ∧
          ((p.status = ProcessedStatus.fully_paid ∧ p.amount = e.amount ∧
              e.asPaid pm (Ref.clearDue now) now
                ∈ (clearDueLoop (pm.map PaymentMethod.name) now es r L P).1) ∨
            (p.status = ProcessedStatus.partially_paid ∧ 0 < p.amount ∧ p.amount < e.amount ∧
              ({ e with amount := p.amount } : LedgerEntry).asPaid pm (Ref.clearDue now) now
                ∈ (clearDueLoop (pm.map PaymentMethod.name) now es r L P).1)))
          (es.take k) Q ∧
        (∀ p ∈ Q.dropLast, p.status = ProcessedStatus.fully_paid) ∧
        (∀ d ∈ L, d._id ∉ (es.take k).map (fun d => d._id) →
          d ∈ (clearDueLoop (pm.map PaymentMethod.name) now es r L P).1) := by
  intro es
  induction es with
  | nil =>
    intro r L P _ _ _ hr hsum
    simp only [List.map_nil, List.sum_nil] at hsum
    omega
  | cons e rest ih =>
    intro r L P hL hes hmem hr hsum
    have heL : e ∈ L := hmem e (List.mem_cons_self _ _)
    have hes1 := hes
    simp only [List.map_cons, List.nodup_cons] at hes1
    have hrestL : ∀ d ∈ rest, d ∈ L := fun d hd => hmem d (List.mem_cons_of_mem _ hd)
    simp only [List.map_cons, List.sum_cons] at hsum
    have hzero : ∀ j < 1, (((e :: rest).take j).map (fun e => e.amount)).sum < r := by
      intro j hj
      have : j = 0 := by omega
      subst this
      simpa using hr
    by_cases hfull : e.amount ≤ r
    · rw [clearDueLoop_full pm now e rest r L P hr hfull]
      have hL1 : ((saveEntry (e.asPaid pm (Ref.clearDue now) now) L).map
          (fun d => d._id)).Nodup := by rw [saveEntry_map_id]; exact hL
      have hself : e.asPaid pm (Ref.clearDue now) now
          ∈ saveEntry (e.asPaid pm (Ref.clearDue now) now) L := mem_saveEntry_self _ e L heL rfl
      by_cases heq : e.amount = r
      · rw [clearDueLoop_break _ now rest (r - e.amount) _ _ (by omega)]
        refine ⟨1, [{ id := e._id, amount := e.amount, status := ProcessedStatus.fully_paid }],
          le_refl _, by simp, hzero, by simp [heq], rfl, ?_, by simp, ?_⟩
        · rw [List.take_succ_cons, List.take_zero]
          exact List.Forall₂.cons ⟨rfl, Or.inl ⟨rfl, rfl, hself⟩⟩ List.Forall₂.nil
        · intro d hd hnot
          simp only [List.take_succ_cons, List.take_zero, List.map_cons, List.map_nil,
            List.mem_singleton] at hnot
          exact mem_saveEntry_of_ne _ d L hd hnot
      · obtain ⟨k, Q, hk1, hk, hlt, hge, hQ, hF, hD, hO⟩ := ih (r - e.amount) _
          (P ++ [{ id := e._id, amount := e.amount, status := ProcessedStatus.fully_paid }])
          hL1 hes1.2 (rest_mem_saveEntry e _ rest L rfl hes hrestL) (by omega) (by omega)
        have hnotin : e._id ∉ (rest.take k).map (fun d => d._id) := fun h =>
          hes1.1 ((List.Sublist.map _ (List.take_sublist k rest)).subset h)
        refine ⟨k + 1,
          { id := e._id, amount := e.amount, status := ProcessedStatus.fully_paid } :: Q,
          by omega, by simpa using hk, ?_, ?_, by rw [hQ]; simp, ?_, ?_, ?_⟩
        · intro j hj
          cases j with
          | zero => simpa using hr
          | succ i =>
            have := hlt i (by omega)
            simp only [List.take_succ_cons, List.map_cons, List.sum_cons]
            omega
        · simp only [List.take_succ_cons, List.map_cons, List.sum_cons]
          omega
        · rw [List.take_succ_cons]
          exact List.Forall₂.cons ⟨rfl, Or.inl ⟨rfl, rfl, hO _ hself hnotin⟩⟩ hF
        · intro p hp
          rcases mem_dropLast_cons _ _ _ hp with h | h
          · rw [h]
          · exact hD p h
        · intro d hd hnot
          simp only [List.take_succ_cons, List.map_cons, List.mem_cons, not_or] at hnot
          exact hO d (mem_saveEntry_of_ne _ d L hd hnot.1) hnot.2
    · have hlt : r < e.amount := not_le.mp hfull
      rw [clearDueLoop_split pm now e rest r L P hr hlt]
      refine ⟨1, [{ id := e._id, amount := r, status := ProcessedStatus.partially_paid }],
        le_refl _, by simp, hzero, by simp [le_of_lt hlt], rfl, ?_, by simp, ?_⟩
      · rw [List.take_succ_cons, List.take_zero]
        exact List.Forall₂.cons
          ⟨rfl, Or.inr ⟨rfl, hr, hlt,
            mem_saveEntry_self _ e _ (List.mem_append_left _ heL) rfl⟩⟩ List.Forall₂.nil
      · intro d hd hnot
        simp only [List.take_succ_cons, List.take_zero, List.map_cons, List.map_nil,
          List.mem_singleton] at hnot
        exact mem_saveEntry_of_ne _ d _ (List.mem_append_left _ hd) hnot

/-- C3. Due-clearing FIFO: with unique document ids, a clear-due request of
an amount A with 0 < A ≤ total pending due, from a caller whose wallet holds
at least A and with a payment method of the schema, touches exactly the first
k of the caller's pending entries taken in ascending `createdAt` order, where
k ≥ 1 is the least number of leading entries whose amounts add up to A or more.
The processed entries are these k entries in that order; each is stored as paid
under its id, in full for every one but possibly the last, which a split stores
as paid with the part that was left; and every ledger document with another id,
the pending entries after the k-th among them, is stored unchanged. -/
theorem clearDue_fifo (s : Store) (user : UserId) (amount : Int)
    (pm : Option PaymentMethod) (now : Time) (wallet : Wallet)
    (hids : (s.ledger.map (fun d => d._id)).Nodup)
    (hpos : 0 < amount) (hle : amount ≤ (getTotalDue s.ledger user).totalDue)
    (hw : findWallet s.wallets user = some wallet) (hb : amount ≤ wallet.balance) :
    ∃ data k, (clearDue s user amount (pm.map PaymentMethod.name) now).1 = Resp.ok data ∧
      (findPendingSorted s.ledger user).Sorted createdBefore ∧
      (findPendingSorted s.ledger user).Perm (s.ledger.filter (isPendingOf user)) ∧
      1 ≤ k ∧ k ≤ (findPendingSorted s.ledger user).length ∧
      (∀ j < k,
        (((findPendingSorted s.ledger user).take j).map (fun e => e.amount)).sum < amount) ∧
      amount ≤ (((findPendingSorted s.ledger user).take k).map (fun e => e.amount)).sum ∧
      List.Forall₂ (fun (e : LedgerEntry) (p : ProcessedEntry) => p.id = e._id ∧
        ((p.status = ProcessedStatus.fully_paid ∧ p.amount = e.amount ∧
            e.asPaid pm (Ref.clearDue now) now
              ∈ (clearDue s user amount (pm.map PaymentMethod.name) now).2.ledger) ∨
          (p.status = ProcessedStatus.partially_paid ∧ 0 < p.amount ∧ p.amount < e.amount ∧
            ({ e with amount := p.amount } : LedgerEntry).asPaid pm (Ref.clearDue now) now
              ∈ (clearDue s user amount (pm.map PaymentMethod.name) now).2.ledger)))
        ((findPendingSorted s.ledger user).take k) data.processedEntries ∧
      (∀ p ∈ data.processedEntries.dropLast, p.status = ProcessedStatus.fully_paid) ∧
      (∀ d ∈ s.ledger, d._id ∉ ((findPendingSorted s.ledger user).take k).map (fun e => e._id) →
        d ∈ (clearDue s user amount (pm.map PaymentMethod.name) now).2.ledger) ∧
      (∀ e ∈ (findPendingSorted s.ledger user).drop k,
        e ∈ (clearDue s user amount (pm.map PaymentMethod.name) now).2.ledger ∧
          e.status = LedgerStatus.pending) ∧
      ((clearDue s user amount (pm.map PaymentMethod.name) now).2.ledger.map
        (fun d => d._id)).Nodup := by
  obtain ⟨data, hresp, -, hproc, hledger, -⟩ :=
    clearDue_success s user amount pm now wallet hle hw hb
  have hesnd := findPendingSorted_nodup s.ledger user hids
  have hesL : ∀ e ∈ findPendingSorted s.ledger user, e ∈ s.ledger := fun e he =>
    ((mem_findPendingSorted s.ledger user e).mp he).1
  obtain ⟨k, Q, hk1, hk, hlt, hge, hQ, hF, hD, hO⟩ := clearDueLoop_prefix pm now
    (findPendingSorted s.ledger user) amount s.ledger [] hids hesnd hesL hpos
    (by rw [findPendingSorted_sum]; exact hle)
  obtain ⟨-, -, -, -, -, -, -, -, -, hN⟩ := clearDueLoop_shape pm now
    (findPendingSorted s.ledger user) amount s.ledger [] hids hesnd hesL
  rw [List.nil_append] at hQ
  have hQ1 : data.processedEntries = Q := hproc.trans hQ
  refine ⟨data, k, hresp, findPendingSorted_sorted _ _, findPendingSorted_perm _ _, hk1, hk,
    hlt, hge, ?_, ?_, ?_, ?_, ?_⟩
  · rw [hQ1, hledger]; exact hF
  · rw [hQ1]; exact hD
  · rw [hledger]; exact hO
  rotate_left
  · rw [hledger]; exact hN
  rw [hledger]
  intro e he
  have hmemes : e ∈ findPendingSorted s.ledger user := List.mem_of_mem_drop he
  have hpend := ((mem_findPendingSorted s.ledger user e).mp hmemes).2
  simp only [isPendingOf, Bool.and_eq_true, decide_eq_true_eq] at hpend
  refine ⟨hO e (hesL e hmemes) ?_, hpend.2⟩
  intro hin
  have hsplit : ((findPendingSorted s.ledger user).take k).map (fun d => d._id)
      ++ ((findPendingSorted s.ledger user).drop k).map (fun d => d._id)
      = (findPendingSorted s.ledger user).map (fun d => d._id) := by
    rw [← List.map_append, List.take_append_drop]
  rw [← hsplit] at hesnd
  exact (List.nodup_append.mp hesnd).2.2 hin (List.mem_map_of_mem (fun d => d._id) he)

/-- Witness of C3 on the scenario store: clearing 250 of the pending entries
100, 300 and 50 touches the two oldest entries only. -/
theorem clearDue_fifo_witness :
    ∃ data k, (clearDue scenarioStore 7 250 (some "wallet") 1000).1 = Resp.ok data ∧
      (findPendingSorted scenarioStore.ledger 7).Sorted createdBefore ∧
      (findPendingSorted scenarioStore.ledger 7).Perm
        (scenarioStore.ledger.filter (isPendingOf 7)) ∧
      1 ≤ k ∧ k ≤ (findPendingSorted scenarioStore.ledger 7).length ∧
      (∀ j < k,
        (((findPendingSorted scenarioStore.ledger 7).take j).map (fun e => e.amount)).sum
          < 250) ∧
      250 ≤ (((findPendingSorted scenarioStore.ledger 7).take k).map (fun e => e.amount)).sum ∧
      List.Forall₂ (fun (e : LedgerEntry) (p : ProcessedEntry) => p.id = e._id ∧
        ((p.status = ProcessedStatus.fully_paid ∧ p.amount = e.amount ∧
            e.asPaid (some PaymentMethod.wallet) (Ref.clearDue 1000) 1000
              ∈ (clearDue scenarioStore 7 250 (some "wallet") 1000).2.ledger) ∨
          (p.status = ProcessedStatus.partially_paid ∧ 0 < p.amount ∧ p.amount < e.amount ∧
            ({ e with amount := p.amount } : LedgerEntry).asPaid (some PaymentMethod.wallet)
                (Ref.clearDue 1000) 1000
              ∈ (clearDue scenarioStore 7 250 (some "wallet") 1000).2.ledger)))
        ((findPendingSorted scenarioStore.ledger 7).take k) data.processedEntries ∧
      (∀ p ∈ data.processedEntries.dropLast, p.status = ProcessedStatus.fully_paid) ∧
      (∀ d ∈ scenarioStore.ledger,
        d._id ∉ ((findPendingSorted scenarioStore.ledger 7).take k).map (fun e => e._id) →
        d ∈ (clearDue scenarioStore 7 250 (some "wallet") 1000).2.ledger) ∧
      (∀ e ∈ (findPendingSorted scenarioStore.ledger 7).drop k,
        e ∈ (clearDue scenarioStore 7 250 (some "wallet") 1000).2.ledger ∧
          e.status = LedgerStatus.pending) ∧
      ((clearDue scenarioStore 7 250 (some "wallet") 1000).2.ledger.map
        (fun d => d._id)).Nodup :=
  clearDue_fifo scenarioStore 7 250 (some PaymentMethod.wallet) 1000
    { _id := 1, userId := 7, balance := 1000 } (by decide) (by decide) (by decide)
    (by decide) (by decide)

/-- C4. Split step of clear-due.  When the loop, run with a payment method of
the ledger schema or with none, reaches an entry with a remaining amount r
such that 0 < r < entry.amount, it stores the entry as paid
with amount r, appends exactly one new pending document of amount
entry.amount - r with the same freelancer, job, type and description, reports
the entry as partially paid with amount r, and visits no further entry
(the remaining amount is 0 and the rest of the list is not looked at).  In any
run of the loop over stored entries with unique ids every processed entry but
possibly the last is reported fully paid, and a fully paid entry is reported
with its own amount.  On pending entries of 100, 300 and 50 and a request of
250 the first is fully paid, the second is paid as 150 with a new pending 150,
and the third is untouched. -/
theorem clearDue_split_step (pm : Option PaymentMethod) (now : Time) (entry : LedgerEntry)
    (rest : List LedgerEntry) (r : Int) (ledger : List LedgerEntry)
    (processed : List ProcessedEntry) (hr : 0 < r) (hlt : r < entry.amount) :
    clearDueLoop (pm.map PaymentMethod.name) now (entry :: rest) r ledger processed
        = (saveEntry
            (({ entry with amount := r } : LedgerEntry).asPaid pm (Ref.clearDue now) now)
            (ledger ++ [remainingEntryOf entry r ledger now]),
          processed ++
            [{ id := entry._id, amount := r, status := ProcessedStatus.partially_paid }], 0,
          false) ∧
      (remainingEntryOf entry r ledger now).amount = entry.amount - r ∧
      (remainingEntryOf entry r ledger now).status = LedgerStatus.pending ∧
      (remainingEntryOf entry r ledger now).freelancerId = entry.freelancerId ∧
      (remainingEntryOf entry r ledger now).jobId = entry.jobId ∧
      (remainingEntryOf entry r ledger now).type = entry.type ∧
      (remainingEntryOf entry r ledger now).description = entry.description ∧
      (∀ (es : List LedgerEntry) (r0 : Int) (L : List LedgerEntry),
        (L.map (fun d => d._id)).Nodup → (es.map (fun d => d._id)).Nodup →
        (∀ e ∈ es, e ∈ L) →
        ∃ k, List.Forall₂ (fun (e : LedgerEntry) (p : ProcessedEntry) => p.id = e._id ∧
            ((p.status = ProcessedStatus.fully_paid ∧ p.amount = e.amount) ∨
              (p.status = ProcessedStatus.partially_paid ∧ 0 < p.amount ∧ p.amount < e.amount)))
            (es.take k) (clearDueLoop (pm.map PaymentMethod.name) now es r0 L []).2.1 ∧
          ∀ p ∈ ((clearDueLoop (pm.map PaymentMethod.name) now es r0 L []).2.1).dropLast,
            p.status = ProcessedStatus.fully_paid) ∧
      ((clearDue scenarioStore 7 250 (some "wallet") 1000).1.data?.map
          (fun data => data.processedEntries)
        = some [{ id := 1, amount := 100, status := ProcessedStatus.fully_paid },
                { id := 2, amount := 150, status := ProcessedStatus.partially_paid }]) ∧
      ((clearDue scenarioStore 7 250 (some "wallet") 1000).2.ledger.map
          (fun d => (d._id, d.amount, d.status))
        = [(1, 100, LedgerStatus.paid), (2, 150, LedgerStatus.paid),
           (3, 50, LedgerStatus.pending), (4, 150, LedgerStatus.pending)]) := by
  refine ⟨clearDueLoop_split pm now entry rest r ledger processed hr hlt, rfl, rfl, rfl, rfl,
    rfl, rfl, ?_, by decide, by decide⟩
  intro es r0 L hL hes hmem
  obtain ⟨k, Q, -, hQ, hF, hD, -⟩ := clearDueLoop_shape pm now es r0 L [] hL hes hmem
  rw [List.nil_append] at hQ
  rw [hQ]
  exact ⟨k, hF, hD⟩

/-- Witness of C4: the 300 entry of the scenario met with a remaining amount
of 150. -/
theorem clearDue_split_step_witness :
    (clearDueLoop (some "wallet") 1000 [pendingEntry 2 300 20, pendingEntry 3 50 30]
        150 scenarioStore.ledger []).2.1
      = [{ id := 2, amount := 150, status := ProcessedStatus.partially_paid }] :=
  congrArg (fun x => x.2.1)
    (clearDue_split_step (some PaymentMethod.wallet) 1000 (pendingEntry 2 300 20)
      [pendingEntry 3 50 30] 150 scenarioStore.ledger [] (by decide) (by decide)).1

/-! ## The eligibility gate -/

/-- C10. Eligibility gate: `canFreelancerWork` with threshold t is the test
`getTotalDue(F).totalDue < t` and nothing else (true exactly below the
threshold, false exactly from the threshold on), and an omitted threshold is
500. -/
theorem canFreelancerWork_iff (ledger : List LedgerEntry) (F : UserId) (t : Int) :
    canFreelancerWork ledger F (some t) = decide ((getTotalDue ledger F).totalDue < t) ∧
      (canFreelancerWork ledger F (some t) = true ↔ (getTotalDue ledger F).totalDue < t) ∧
      (canFreelancerWork ledger F (some t) = false ↔ t ≤ (getTotalDue ledger F).totalDue) ∧
      canFreelancerWork ledger F none = canFreelancerWork ledger F (some 500) := by
  refine ⟨rfl, ?_, ?_, rfl⟩
  · simp [canFreelancerWork]
  · simp [canFreelancerWork]

/-- C9 (the code at the failing input). An approved freelancer without active
job who owes 600 is turned away by `applyForJob` on commission grounds, with an
answer that names the threshold 700, and nothing is stored; the same happens at
500 and at 700, and only below 500 the application goes through. -/
theorem applyForJob_rejects_below_reported_threshold :
    (applyForJob (dueStore 600) 10 0 none "" none 50)
        = (ApplyResp.commissionDue 600 700 false, dueStore 600) ∧
      (applyForJob (dueStore 500) 10 0 none "" none 50).1 = ApplyResp.commissionDue 500 700 false ∧
      (applyForJob (dueStore 700) 10 0 none "" none 50).1 = ApplyResp.commissionDue 700 700 false ∧
      (∃ offer, (applyForJob (dueStore 499) 10 0 none "" none 50).1 = ApplyResp.ok offer) ∧
      findActiveJob (dueStore 600).jobs 10 = none ∧
      (findFreelancerProfile (dueStore 600).freelancerProfiles 10).map
          (fun p => p.verificationStatus) = some VerificationStatus.approved ∧
      (getTotalDue (dueStore 600).ledger 10).totalDue = 600 := by
  refine ⟨by decide, by decide, by decide, ⟨_, rfl⟩, by decide, by decide, by decide⟩

/-! ## Runs that leave the intended job and offer invariants -/

/-- C2 (the code at the failing input). After freelancer 10 has placed `pickup`
offers on two open jobs and the client has accepted both, freelancer 10 holds
two assigned jobs. -/
theorem two_active_jobs_after_two_accepts :
    activeJobCount (run demoEnv Store.empty twoAcceptsRun).jobs 10 = 2 ∧
      (run demoEnv Store.empty twoAcceptsRun).jobs.map
          (fun j => (j._id, j.freelancerId, j.status))
        = [(0, some 10, JobStatus.assigned), (1, some 10, JobStatus.assigned)] := by
  constructor <;> decide

/-- C5 (the code at the failing input). A completed job goes back to assigned
when the client accepts an offer that was still pending on it, and a completed
job goes back to paid when the gateway repeats its success callback. -/
theorem completed_job_moves_back :
    (run demoEnv marketStore completedRun).jobs.map (fun j => (j._id, j.freelancerId, j.status))
        = [(0, some 10, JobStatus.completed)] ∧
      (run demoEnv marketStore
          (completedRun ++ [Request.respondToOffer 1 0 "accept" none 60])).jobs.map
          (fun j => (j._id, j.freelancerId, j.status))
        = [(0, some 11, JobStatus.assigned)] ∧
      (run demoEnv marketStore gatewayRun).jobs.map (fun j => (j._id, j.status))
        = [(0, JobStatus.completed)] ∧
      (run demoEnv marketStore
          (gatewayRun ++ [Request.paymentCallback orderCallback 60])).jobs.map
          (fun j => (j._id, j.status))
        = [(0, JobStatus.paid)] ∧
      JobStatus.rank JobStatus.assigned < JobStatus.rank JobStatus.completed ∧
      JobStatus.rank JobStatus.paid < JobStatus.rank JobStatus.completed := by
  refine ⟨by decide, by decide, by decide, by decide, by decide, by decide⟩

/-- C6 (the code at the failing input). After a single direct-apply
application the job is assigned and the applicant's own offer is still
pending; an earlier pending offer of another freelancer stays pending too. -/
theorem pending_offer_on_assigned_job :
    (findJobById
        (run demoEnv marketStore [Request.applyForJob 10 0 none "" none 21]).jobs 0).map
          (fun j => (j.freelancerId, j.status)) = some (some 10, JobStatus.assigned) ∧
      (pendingOffersOn
        (run demoEnv marketStore [Request.applyForJob 10 0 none "" none 21]).offers 0).map
          (fun o => (o._id, o.freelancerId)) = [(0, 10)] ∧
      (pendingOffersOn
        (run demoEnv marketStore
          [Request.applyForJob 11 0 none "" (some "pickup") 20,
           Request.applyForJob 10 0 none "" none 21]).offers 0).map
          (fun o => (o._id, o.freelancerId)) = [(0, 11), (1, 10)] := by
  refine ⟨by decide, by decide, by decide⟩

/-! ## Responding to an offer -/

theorem find?_map_of_invariant {α : Type} (p : α → Bool) (f : α → α) (l : List α)
    (hp : ∀ x, p (f x) = p x) : (l.map f).find? p = (l.find? p).map f := by
  rw [List.find?_map]
  have : p ∘ f = p := funext hp
  rw [this]

theorem findOfferById_id {offers : List Offer} {offerId : ObjId} {offer : Offer}
    (h : findOfferById offers offerId = some offer) : offer._id = offerId := by
  have := List.find?_some h
  simpa using this

theorem findJobById_id {jobs : List Job} {jobId : ObjId} {job : Job}
    (h : findJobById jobs jobId = some job) : job._id = jobId := by
  have := List.find?_some h
  simpa using this

/-- C7. Accept fan-out: when the client who owns job J accepts a pending offer
O on J, the answer carries O as accepted; afterwards O is stored as accepted,
J is stored with O's freelancer and status assigned (assigned at the request
time), every other offer on J that was pending is rejected with the response
message "Another offer was accepted", every other offer (not pending, or on
another job) and every other job is unchanged, and no other collection
changes. -/
theorem respondToOffer_accept (s : Store) (user : UserId) (offerId : ObjId)
    (msg : Option String) (now : Time) (offer : Offer) (job : Job)
    (hoffer : findOfferById s.offers offerId = some offer)
    (hjob : findJobById s.jobs offer.jobId = some job)
    (hown : job.clientId = user) (hpending : offer.status = OfferStatus.pending) :
    (respondToOffer s user offerId "accept" msg now).1
        = Resp.ok { offer with
            status := OfferStatus.accepted, respondedAt := some now, responseMessage := msg } ∧
      findOfferById (respondToOffer s user offerId "accept" msg now).2.offers offerId
        = some { offer with
            status := OfferStatus.accepted, respondedAt := some now, responseMessage := msg } ∧
      findJobById (respondToOffer s user offerId "accept" msg now).2.jobs offer.jobId
        = some { job with
            freelancerId := some offer.freelancerId, status := JobStatus.assigned,
            assignedAt := some now } ∧
      (respondToOffer s user offerId "accept" msg now).2.offers
        = s.offers.map (fun o =>
            if o._id = offerId then
              { offer with
                status := OfferStatus.accepted, respondedAt := some now, responseMessage := msg }
            else if o.jobId = offer.jobId ∧ o.status = OfferStatus.pending then
              { o with
                status := OfferStatus.rejected, respondedAt := some now,
                responseMessage := some "Another offer was accepted" }
            else o) ∧
      (respondToOffer s user offerId "accept" msg now).2.jobs
        = s.jobs.map (fun j =>
            if j._id = offer.jobId then
              { job with
                freelancerId := some offer.freelancerId, status := JobStatus.assigned,
                assignedAt := some now }
            else j) ∧
      (respondToOffer s user offerId "accept" msg now).2.ledger = s.ledger ∧
      (respondToOffer s user offerId "accept" msg now).2.wallets = s.wallets ∧
      (respondToOffer s user offerId "accept" msg now).2.transactions = s.transactions ∧
      (respondToOffer s user offerId "accept" msg now).2.freelancerProfiles
        = s.freelancerProfiles ∧
      (respondToOffer s user offerId "accept" msg now).2.clientProfiles = s.clientProfiles := by
  have hoid : offer._id = offerId := findOfferById_id hoffer
  have hjid : job._id = offer.jobId := findJobById_id hjob
  have hown1 : ¬ job.clientId ≠ user := not_not.mpr hown
  have hpend1 : ¬ offer.status ≠ OfferStatus.pending := not_not.mpr hpending
  have hoffers : saveOffer
        { offer with
          status := OfferStatus.accepted, respondedAt := some now, responseMessage := msg }
        (rejectOtherOffers s.offers job._id offerId now)
      = s.offers.map (fun o =>
          if o._id = offerId then
            { offer with
              status := OfferStatus.accepted, respondedAt := some now, responseMessage := msg }
          else if o.jobId = offer.jobId ∧ o.status = OfferStatus.pending then
            { o with
              status := OfferStatus.rejected, respondedAt := some now,
              responseMessage := some "Another offer was accepted" }
          else o) := by
    simp only [saveOffer, rejectOtherOffers, List.map_map]
    apply List.map_congr_left
    intro o _
    simp only [Function.comp_apply, hjid, hoid]
    by_cases h1 : o._id = offerId
    · by_cases h2 : o.jobId = offer.jobId ∧ o.status = OfferStatus.pending <;> simp [h1, h2]
    · by_cases h2 : o.jobId = offer.jobId ∧ o.status = OfferStatus.pending
      · simp [h1, h2]
      · have h3 : ¬ (o.jobId = offer.jobId ∧ ¬ o._id = offerId ∧ o.status = OfferStatus.pending) :=
          fun h => h2 ⟨h.1, h.2.2⟩
        simp [h1, h2, h3]
  have hjobs : saveJob
        { job with
          freelancerId := some offer.freelancerId, status := JobStatus.assigned,
          assignedAt := some now } s.jobs
      = s.jobs.map (fun j =>
          if j._id = offer.jobId then
            { job with
              freelancerId := some offer.freelancerId, status := JobStatus.assigned,
              assignedAt := some now }
          else j) := by
    simp only [saveJob, hjid]
  have hresp : respondToOffer s user offerId "accept" msg now
      = (Resp.ok { offer with
            status := OfferStatus.accepted, respondedAt := some now, responseMessage := msg },
          { s with
            jobs := saveJob
              { job with
                freelancerId := some offer.freelancerId, status := JobStatus.assigned,
                assignedAt := some now } s.jobs
            offers := saveOffer
              { offer with
                status := OfferStatus.accepted, respondedAt := some now, responseMessage := msg }
              (rejectOtherOffers s.offers job._id offerId now) }) := by
    simp only [respondToOffer, hoffer, hjob, hown1, hpend1, if_false, if_true]
  rw [hresp]
  refine ⟨rfl, ?_, ?_, hoffers, hjobs, rfl, rfl, rfl, rfl, rfl⟩
  · show findOfferById (saveOffer _ (rejectOtherOffers s.offers job._id offerId now)) offerId = _
    rw [hoffers]
    unfold findOfferById at hoffer ⊢
    rw [find?_map_of_invariant, hoffer]
    · simp [hoid]
    · intro o
      by_cases h1 : o._id = offerId
      · simp [h1, hoid]
      · by_cases h2 : o.jobId = offer.jobId ∧ o.status = OfferStatus.pending <;> simp [h1, h2]
  · show findJobById (saveJob _ s.jobs) offer.jobId = _
    rw [hjobs]
    unfold findJobById at hjob ⊢
    rw [find?_map_of_invariant, hjob]
    · simp [hjid]
    · intro j
      by_cases h1 : j._id = offer.jobId <;> simp [h1, hjid]

/-- Witness of C7: the client accepts the first of the two pending offers of
`twoOffersStore`. -/
theorem respondToOffer_accept_witness :
    (respondToOffer twoOffersStore 1 0 "accept" none 30).2.offers
      = twoOffersStore.offers.map (fun o =>
          if o._id = 0 then
            { firstOffer with
              status := OfferStatus.accepted, respondedAt := some 30, responseMessage := none }
          else if o.jobId = firstOffer.jobId ∧ o.status = OfferStatus.pending then
            { o with
              status := OfferStatus.rejected, respondedAt := some 30,
              responseMessage := some "Another offer was accepted" }
          else o) :=
  (respondToOffer_accept twoOffersStore 1 0 none 30 firstOffer paintJob (by decide) (by decide)
    (by decide) (by decide)).2.2.2.1

/-! ## Frame facts: what each handler leaves alone -/

theorem mem_saveJob {j j1 : Job} {jobs : List Job} (h : j ∈ saveJob j1 jobs) :
    j = j1 ∨ j ∈ jobs := by
  simp only [saveJob, List.mem_map] at h
  obtain ⟨d, hd, hj⟩ := h
  by_cases hc : d._id = j1._id
  · simp only [hc, if_true] at hj; exact Or.inl hj.symm
  · simp only [hc, if_false] at hj; rw [← hj]; exact Or.inr hd

theorem clientProfilePost_frame (s : Store) (user : UserId) :
    (clientProfilePost s user).2.offers = s.offers ∧
      (clientProfilePost s user).2.jobs = s.jobs := by
  simp only [clientProfilePost]
  split <;> exact ⟨rfl, rfl⟩

theorem createTestProfile_frame (s : Store) (user : UserId) (vs : VerificationStatus) :
    (createTestProfile s user vs).2.offers = s.offers ∧
      (createTestProfile s user vs).2.jobs = s.jobs := by
  simp only [createTestProfile]
  split <;> exact ⟨rfl, rfl⟩

theorem getWallet_frame (s : Store) (user : UserId) :
    (getWallet s user).2.offers = s.offers ∧ (getWallet s user).2.jobs = s.jobs := by
  simp only [getWallet]
  split <;> exact ⟨rfl, rfl⟩

theorem withdraw_frame (s : Store) (user : UserId) (amount : Int) (now : Time) :
    (withdraw s user amount now).2.offers = s.offers ∧
      (withdraw s user amount now).2.jobs = s.jobs := by
  simp only [withdraw]
  split
  · exact ⟨rfl, rfl⟩
  · split <;> exact ⟨rfl, rfl⟩

theorem clearDue_frame (s : Store) (user : UserId) (amount : Int) (pm : Option String)
    (now : Time) :
    (clearDue s user amount pm now).2.offers = s.offers ∧
      (clearDue s user amount pm now).2.jobs = s.jobs := by
  simp only [clearDue]
  split
  · exact ⟨rfl, rfl⟩
  · split
    · exact ⟨rfl, rfl⟩
    · split
      · exact ⟨rfl, rfl⟩
      · split <;> exact ⟨rfl, rfl⟩

theorem postJob_frame (s : Store) (user : UserId) (title description : String) (amount : Int)
    (n : Nat) (now : Time) :
    (postJob s user title description amount n now).2.offers = s.offers ∧
      ∀ j ∈ (postJob s user title description amount n now).2.jobs,
        j ∈ s.jobs ∨ j.status = JobStatus.open := by
  simp only [postJob]
  split
  · exact ⟨rfl, fun j hj => Or.inl hj⟩
  · split
    · exact ⟨rfl, fun j hj => Or.inl hj⟩
    · split
      · exact ⟨rfl, fun j hj => Or.inl hj⟩
      · refine ⟨rfl, fun j hj => ?_⟩
        rcases List.mem_append.mp hj with h | h
        · exact Or.inl h
        · rw [List.mem_singleton] at h; rw [h]; exact Or.inr rfl

theorem markWorkDone_frame (s : Store) (user : UserId) (jobId : ObjId) (now : Time) :
    (markWorkDone s user jobId now).2.offers = s.offers ∧
      ∀ j ∈ (markWorkDone s user jobId now).2.jobs,
        j ∈ s.jobs ∨ j.status = JobStatus.waiting_for_payment := by
  simp only [markWorkDone]
  split
  · exact ⟨rfl, fun j hj => Or.inl hj⟩
  · refine ⟨rfl, fun j hj => ?_⟩
    rcases mem_saveJob hj with h | h
    · rw [h]; exact Or.inr rfl
    · exact Or.inl h

theorem markCompleted_frame (s : Store) (user : UserId) (jobId : ObjId) (now : Time) :
    (markCompleted s user jobId now).2.offers = s.offers ∧
      ∀ j ∈ (markCompleted s user jobId now).2.jobs,
        j ∈ s.jobs ∨ j.status = JobStatus.completed := by
  simp only [markCompleted]
  split
  · exact ⟨rfl, fun j hj => Or.inl hj⟩
  · split
    · refine ⟨rfl, fun j hj => ?_⟩
      rcases mem_saveJob hj with h | h
      · rw [h]; exact Or.inr rfl
      · exact Or.inl h
    · refine ⟨rfl, fun j hj => ?_⟩
      rcases mem_saveJob hj with h | h
      · rw [h]; exact Or.inr rfl
      · exact Or.inl h

theorem payPhonepe_frame (s : Store) (user : UserId) (jobId : ObjId) (gatewayOk : Bool)
    (now : Time) :
    (payPhonepe s user jobId gatewayOk now).2.offers = s.offers ∧
      ∀ j ∈ (payPhonepe s user jobId gatewayOk now).2.jobs,
        j ∈ s.jobs ∨ j.status = JobStatus.waiting_for_payment := by
  simp only [payPhonepe]
  split
  · exact ⟨rfl, fun j hj => Or.inl hj⟩
  · rename_i job hjob
    have hst : job.status = JobStatus.waiting_for_payment := by
      have := List.find?_some hjob
      simp only [Bool.and_eq_true, decide_eq_true_eq] at this
      exact this.2
    split
    · exact ⟨rfl, fun j hj => Or.inl hj⟩
    · split
      · refine ⟨rfl, fun j hj => ?_⟩
        rcases mem_saveJob hj with h | h
        · rw [h]; exact Or.inr hst
        · exact Or.inl h
      · exact ⟨rfl, fun j hj => Or.inl hj⟩

theorem payCash_frame (s : Store) (user : UserId) (jobId : ObjId) (now : Time) :
    (payCash s user jobId now).2.offers = s.offers ∧
      ∀ j ∈ (payCash s user jobId now).2.jobs, j ∈ s.jobs ∨ j.status = JobStatus.paid := by
  simp only [payCash]
  split
  · exact ⟨rfl, fun j hj => Or.inl hj⟩
  · have hjobs : ∀ (j1 : Job), j1.status = JobStatus.paid →
        ∀ j ∈ saveJob j1 s.jobs, j ∈ s.jobs ∨ j.status = JobStatus.paid := by
      intro j1 h1 j hj
      rcases mem_saveJob hj with h | h
      · rw [h]; exact Or.inr h1
      · exact Or.inl h
    split
    · exact ⟨rfl, hjobs _ rfl⟩
    · split <;> exact ⟨rfl, hjobs _ rfl⟩

theorem paymentCallback_frame (gen : CallbackData → String) (s : Store) (data : CallbackData)
    (now : Time) :
    (paymentCallback gen s data now).2.offers = s.offers ∧
      ∀ j ∈ (paymentCallback gen s data now).2.jobs,
        j ∈ s.jobs ∨ j.status = JobStatus.paid := by
  simp only [paymentCallback]
  have hjobs : ∀ (j1 : Job), j1.status = JobStatus.paid →
      ∀ j ∈ saveJob j1 s.jobs, j ∈ s.jobs ∨ j.status = JobStatus.paid := by
    intro j1 h1 j hj
    rcases mem_saveJob hj with h | h
    · rw [h]; exact Or.inr h1
    · exact Or.inl h
  split
  · exact ⟨rfl, fun j hj => Or.inl hj⟩
  · split
    · exact ⟨rfl, fun j hj => Or.inl hj⟩
    · split
      · exact ⟨rfl, fun j hj => Or.inl hj⟩
      · split
        · exact ⟨rfl, hjobs _ rfl⟩
        · exact ⟨rfl, hjobs _ rfl⟩

/-- While no job has status work_done the legacy wallet payment rejects every
request and stores nothing. -/
theorem pay_of_no_work_done (cs : CommissionService) (s : Store) (user : UserId)
    (jobId : ObjId) (now : Time) (h : ∀ j ∈ s.jobs, j.status ≠ JobStatus.work_done) :
    pay cs s user jobId now = (Resp.rejected 400 "Job not found or not ready for payment", s) := by
  have hnone : findClientJob s.jobs jobId user JobStatus.work_done = none := by
    simp only [findClientJob, List.find?_eq_none, Bool.and_eq_true, decide_eq_true_eq, not_and]
    intro j hj _ hst
    exact h j hj hst
  simp only [pay, hnone]

theorem applyForJob_jobs (s : Store) (user : UserId) (jobId : ObjId)
    (offeredAmount : Option Int) (message : String) (offerType : Option String) (now : Time) :
    ∀ j ∈ (applyForJob s user jobId offeredAmount message offerType now).2.jobs,
      j ∈ s.jobs ∨ j.status = JobStatus.assigned := by
  simp only [applyForJob]
  split
  · exact fun j hj => Or.inl hj
  · split
    · exact fun j hj => Or.inl hj
    · split
      · exact fun j hj => Or.inl hj
      · split
        · exact fun j hj => Or.inl hj
        · split
          · exact fun j hj => Or.inl hj
          · split
            · exact fun j hj => Or.inl hj
            · split
              · intro j hj
                rcases mem_saveJob hj with h | h
                · rw [h]; exact Or.inr rfl
                · exact Or.inl h
              · exact fun j hj => Or.inl hj

theorem applyForJob_offers (s : Store) (user : UserId) (jobId : ObjId)
    (offeredAmount : Option Int) (message : String) (offerType : Option String) (now : Time) :
    (applyForJob s user jobId offeredAmount message offerType now).2.offers = s.offers ∨
      (findExistingOffer s.offers jobId user = none ∧
        ∃ offer : Offer, offer._id = freshId (s.offers.map (fun o => o._id)) ∧
          offer.jobId = jobId ∧ offer.freelancerId = user ∧
          (applyForJob s user jobId offeredAmount message offerType now).2.offers
            = s.offers ++ [offer]) := by
  simp only [applyForJob]
  split
  · exact Or.inl rfl
  · split
    · exact Or.inl rfl
    · split
      · exact Or.inl rfl
      · split
        · exact Or.inl rfl
        · split
          · exact Or.inl rfl
          · split
            · exact Or.inl rfl
            · rename_i hnone
              split
              · exact Or.inr ⟨hnone, _, rfl, rfl, rfl, rfl⟩
              · exact Or.inr ⟨hnone, _, rfl, rfl, rfl, rfl⟩

theorem respondToOffer_jobs (s : Store) (user : UserId) (offerId : ObjId) (action : String)
    (msg : Option String) (now : Time) :
    ∀ j ∈ (respondToOffer s user offerId action msg now).2.jobs,
      j ∈ s.jobs ∨ j.status = JobStatus.assigned := by
  simp only [respondToOffer]
  split
  · exact fun j hj => Or.inl hj
  · split
    · exact fun j hj => Or.inl hj
    · split
      · exact fun j hj => Or.inl hj
      · split
        · exact fun j hj => Or.inl hj
        · split
          · intro j hj
            rcases mem_saveJob hj with h | h
            · rw [h]; exact Or.inr rfl
            · exact Or.inl h
          · split
            · exact fun j hj => Or.inl hj
            · exact fun j hj => Or.inl hj

theorem respondToOffer_offers (s : Store) (user : UserId) (offerId : ObjId) (action : String)
    (msg : Option String) (now : Time) (hnd : (s.offers.map (fun o => o._id)).Nodup) :
    ∃ g : Offer → Offer,
      (respondToOffer s user offerId action msg now).2.offers = s.offers.map g ∧
      ∀ o ∈ s.offers, (g o)._id = o._id ∧ (g o).jobId = o.jobId ∧
        (g o).freelancerId = o.freelancerId ∧
        ((g o).status.isLive = true → o.status.isLive = true) := by
  have hid : ∃ g : Offer → Offer, s.offers = s.offers.map g ∧
      ∀ o ∈ s.offers, (g o)._id = o._id ∧ (g o).jobId = o.jobId ∧
        (g o).freelancerId = o.freelancerId ∧
        ((g o).status.isLive = true → o.status.isLive = true) :=
    ⟨id, (List.map_id _).symm, fun o _ => ⟨rfl, rfl, rfl, fun h => h⟩⟩
  simp only [respondToOffer]
  split
  · exact hid
  · rename_i offer hoffer
    have hmem : offer ∈ s.offers := List.mem_of_find?_eq_some hoffer
    have huniq : ∀ o ∈ s.offers, o._id = offer._id → o = offer := fun o ho h =>
      List.inj_on_of_nodup_map hnd ho hmem h
    split
    · exact hid
    · rename_i job hjob
      split
      · exact hid
      · split
        · exact hid
        · rename_i hpend
          have hpending : offer.status = OfferStatus.pending := not_not.mp hpend
          split
          · have hoid : offer._id = offerId := findOfferById_id hoffer
            refine ⟨fun o =>
              if o._id = offerId then
                ({ offer with
                  status := OfferStatus.accepted, respondedAt := some now,
                  responseMessage := msg } : Offer)
              else if o.jobId = job._id ∧ o.status = OfferStatus.pending then
                ({ o with
                  status := OfferStatus.rejected, respondedAt := some now,
                  responseMessage := some "Another offer was accepted" } : Offer)
              else o, ?_, ?_⟩
            · simp only [saveOffer, rejectOtherOffers, List.map_map]
              apply List.map_congr_left
              intro o _
              simp only [Function.comp_apply, hoid]
              by_cases h1 : o._id = offerId
              · by_cases h2 : o.jobId = job._id ∧ o.status = OfferStatus.pending <;>
                  simp [h1, h2]
              · by_cases h2 : o.jobId = job._id ∧ o.status = OfferStatus.pending
                · simp [h1, h2]
                · have h3 : ¬ (o.jobId = job._id ∧ ¬ o._id = offerId ∧
                      o.status = OfferStatus.pending) := fun h => h2 ⟨h.1, h.2.2⟩
                  simp [h1, h2, h3]
            · intro o ho
              by_cases h2 : o._id = offerId
              · have := huniq o ho (h2.trans hoid.symm)
                subst this
                simp [h2, hpending, OfferStatus.isLive]
              · by_cases h1 : o.jobId = job._id ∧ o.status = OfferStatus.pending
                · simp [h2, h1, OfferStatus.isLive]
                · simp [h2, h1]
          · split
            · refine ⟨fun o =>
                if o._id = offer._id then
                  ({ offer with
                    status := OfferStatus.rejected, respondedAt := some now,
                    responseMessage := msg } : Offer)
                else o, rfl, ?_⟩
              intro o ho
              by_cases h2 : o._id = offer._id
              · have := huniq o ho h2
                subst this
                simp [OfferStatus.isLive]
              · simp [h2]
            · refine ⟨fun o => if o._id = offer._id then offer else o, rfl, ?_⟩
              intro o ho
              by_cases h2 : o._id = offer._id
              · have := huniq o ho h2
                subst this
                simp
              · simp [h2]

theorem filter_map_length_le {α : Type} (P : α → Bool) (g : α → α) :
    ∀ l : List α, (∀ o ∈ l, P (g o) = true → P o = true) →
      ((l.map g).filter P).length ≤ (l.filter P).length := by
  intro l
  induction l with
  | nil => intro _; simp
  | cons a t ih =>
    intro h
    have iht := ih (fun o ho => h o (List.mem_cons_of_mem _ ho))
    have ha := h a (List.mem_cons_self _ _)
    simp only [List.map_cons, List.filter_cons]
    by_cases h1 : P (g a) = true
    · simp only [h1, ha h1, if_true, List.length_cons]; omega
    · by_cases h2 : P a = true
      · simp only [h1, h2, if_true, List.length_cons]; simp only [Bool.false_eq_true, if_false]
        omega
      · simp only [h1, h2]; exact iht

/-! ## Offer exclusivity along every run -/

theorem offerExclusive_append (offers : List Offer) (offer : Offer)
    (hex : OfferExclusive offers)
    (hnone : findExistingOffer offers offer.jobId offer.freelancerId = none) :
    OfferExclusive (offers ++ [offer]) := by
  intro jobId freelancerId
  have hold := hex jobId freelancerId
  rw [List.filter_append, List.length_append]
  by_cases hkey : offer.jobId = jobId ∧ offer.freelancerId = freelancerId
  · obtain ⟨h1, h2⟩ := hkey
    subst h1 h2
    have hempty : offers.filter (fun o =>
        decide (o.jobId = offer.jobId) && decide (o.freelancerId = offer.freelancerId) &&
          o.status.isLive) = [] := by
      rw [List.filter_eq_nil_iff]
      intro o ho
      have := List.find?_eq_none.mp hnone o ho
      simpa using this
    rw [hempty]
    have : ([offer].filter (fun o =>
        decide (o.jobId = offer.jobId) && decide (o.freelancerId = offer.freelancerId) &&
          o.status.isLive)).length ≤ 1 :=
      le_trans (List.length_filter_le _ _) (by simp)
    simpa using this
  · have hnew : [offer].filter (fun o =>
        decide (o.jobId = jobId) && decide (o.freelancerId = freelancerId) &&
          o.status.isLive) = [] := by
      rw [List.filter_eq_nil_iff]
      intro o ho
      rw [List.mem_singleton] at ho
      subst ho
      intro h
      simp only [Bool.and_eq_true, decide_eq_true_eq] at h
      exact hkey ⟨h.1.1, h.1.2⟩
    rw [hnew]
    simpa using hold

theorem offerExclusive_map (offers : List Offer) (g : Offer → Offer)
    (hex : OfferExclusive offers)
    (hg : ∀ o ∈ offers, (g o)._id = o._id ∧ (g o).jobId = o.jobId ∧
      (g o).freelancerId = o.freelancerId ∧
      ((g o).status.isLive = true → o.status.isLive = true)) :
    OfferExclusive (offers.map g) := by
  intro jobId freelancerId
  refine le_trans (filter_map_length_le _ g offers ?_) (hex jobId freelancerId)
  intro o ho h
  obtain ⟨-, h2, h3, h4⟩ := hg o ho
  simp only [Bool.and_eq_true, decide_eq_true_eq] at h ⊢
  rw [h2, h3] at h
  exact ⟨h.1, h4 h.2⟩

/-- One request keeps the three facts: offer ids are unique, offers are
exclusive, and no job has status work_done. -/
theorem step_preserves (env : Env) (s : Store) (req : Request)
    (hnd : (s.offers.map (fun o => o._id)).Nodup) (hex : OfferExclusive s.offers)
    (hwd : ∀ j ∈ s.jobs, j.status ≠ JobStatus.work_done) :
    ((step env s req).offers.map (fun o => o._id)).Nodup ∧
      OfferExclusive (step env s req).offers ∧
      ∀ j ∈ (step env s req).jobs, j.status ≠ JobStatus.work_done := by
  have same : ∀ (s1 : Store), s1.offers = s.offers → s1.jobs = s.jobs →
      (s1.offers.map (fun o => o._id)).Nodup ∧ OfferExclusive s1.offers ∧
        ∀ j ∈ s1.jobs, j.status ≠ JobStatus.work_done := by
    intro s1 h1 h2
    rw [h1, h2]
    exact ⟨hnd, hex, hwd⟩
  have jobsOk : ∀ (s1 : Store) (st : JobStatus), st ≠ JobStatus.work_done →
      s1.offers = s.offers → (∀ j ∈ s1.jobs, j ∈ s.jobs ∨ j.status = st) →
      (s1.offers.map (fun o => o._id)).Nodup ∧ OfferExclusive s1.offers ∧
        ∀ j ∈ s1.jobs, j.status ≠ JobStatus.work_done := by
    intro s1 st hst h1 h2
    rw [h1]
    refine ⟨hnd, hex, fun j hj => ?_⟩
    rcases h2 j hj with h | h
    · exact hwd j h
    · rw [h]; exact hst
  cases req with
  | clientProfilePost user =>
    exact same _ (clientProfilePost_frame s user).1 (clientProfilePost_frame s user).2
  | createTestProfile user vs =>
    exact same _ (createTestProfile_frame s user vs).1 (createTestProfile_frame s user vs).2
  | postJob user title description amount n now =>
    exact jobsOk _ JobStatus.open (by decide)
      (postJob_frame s user title description amount n now).1
      (postJob_frame s user title description amount n now).2
  | applyForJob user jobId offeredAmount message offerType now =>
    have hjobs : ∀ j ∈ (applyForJob s user jobId offeredAmount message offerType now).2.jobs,
        j.status ≠ JobStatus.work_done := by
      intro j hj
      rcases applyForJob_jobs s user jobId offeredAmount message offerType now j hj with h | h
      · exact hwd j h
      · rw [h]; decide
    rcases applyForJob_offers s user jobId offeredAmount message offerType now with h | h
    · simp only [step]
      rw [h]
      exact ⟨hnd, hex, hjobs⟩
    · obtain ⟨hnone, offer, hid, hjob, hfree, heq⟩ := h
      simp only [step]
      rw [heq]
      refine ⟨?_, offerExclusive_append s.offers offer hex (by rw [hjob, hfree]; exact hnone),
        hjobs⟩
      rw [List.map_append, List.nodup_append]
      refine ⟨hnd, by simp, ?_⟩
      intro a ha hb
      simp only [List.map_cons, List.map_nil, List.mem_singleton] at hb
      rw [hb, hid] at ha
      exact freshId_not_mem _ ha
  | respondToOffer user offerId action msg now =>
    obtain ⟨g, hmap, hg⟩ := respondToOffer_offers s user offerId action msg now hnd
    simp only [step]
    rw [hmap]
    refine ⟨?_, offerExclusive_map s.offers g hex hg, ?_⟩
    · have : (s.offers.map g).map (fun o => o._id) = s.offers.map (fun o => o._id) := by
        rw [List.map_map]
        apply List.map_congr_left
        intro o ho
        exact (hg o ho).1
      rw [this]; exact hnd
    · intro j hj
      rcases respondToOffer_jobs s user offerId action msg now j hj with h | h
      · exact hwd j h
      · rw [h]; decide
  | markWorkDone user jobId now =>
    exact jobsOk _ JobStatus.waiting_for_payment (by decide)
      (markWorkDone_frame s user jobId now).1 (markWorkDone_frame s user jobId now).2
  | markCompleted user jobId now =>
    exact jobsOk _ JobStatus.completed (by decide)
      (markCompleted_frame s user jobId now).1 (markCompleted_frame s user jobId now).2
  | payPhonepe user jobId gatewayOk now =>
    exact jobsOk _ JobStatus.waiting_for_payment (by decide)
      (payPhonepe_frame s user jobId gatewayOk now).1
      (payPhonepe_frame s user jobId gatewayOk now).2
  | pay user jobId now =>
    simp only [step]
    rw [pay_of_no_work_done env.commissionService s user jobId now hwd]
    exact ⟨hnd, hex, hwd⟩
  | payCash user jobId now =>
    exact jobsOk _ JobStatus.paid (by decide)
      (payCash_frame s user jobId now).1 (payCash_frame s user jobId now).2
  | paymentCallback data now =>
    exact jobsOk _ JobStatus.paid (by decide)
      (paymentCallback_frame env.generateChecksum s data now).1
      (paymentCallback_frame env.generateChecksum s data now).2
  | getWallet user =>
    exact same _ (getWallet_frame s user).1 (getWallet_frame s user).2
  | withdraw user amount now =>
    exact same _ (withdraw_frame s user amount now).1 (withdraw_frame s user amount now).2
  | clearDue user amount pm now =>
    exact same _ (clearDue_frame s user amount pm now).1 (clearDue_frame s user amount pm now).2

theorem run_preserves (env : Env) (requests : List Request) :
    ∀ s : Store, (s.offers.map (fun o => o._id)).Nodup → OfferExclusive s.offers →
      (∀ j ∈ s.jobs, j.status ≠ JobStatus.work_done) →
      ((run env s requests).offers.map (fun o => o._id)).Nodup ∧
        OfferExclusive (run env s requests).offers ∧
        ∀ j ∈ (run env s requests).jobs, j.status ≠ JobStatus.work_done := by
  induction requests with
  | nil => intro s h1 h2 h3; exact ⟨h1, h2, h3⟩
  | cons req rest ih =>
    intro s h1 h2 h3
    obtain ⟨a, b, c⟩ := step_preserves env s req h1 h2 h3
    exact ih (step env s req) a b c

/-- C8. Offer exclusivity: in every store that a sequence of requests to the
handlers (applyForJob and respondToOffer among them) builds from the empty
store, whatever the gateway checksum and the commission routine are, no job
and freelancer have more than one offer whose status is pending or accepted. -/
theorem offer_exclusivity (env : Env) (requests : List Request) (jobId : ObjId)
    (freelancerId : UserId) :
    ((run env Store.empty requests).offers.filter (fun o =>
      decide (o.jobId = jobId) && decide (o.freelancerId = freelancerId) &&
        (decide (o.status = OfferStatus.pending) || decide (o.status = OfferStatus.accepted)))
      ).length ≤ 1 := by
  have h := (run_preserves env requests Store.empty (by simp [Store.empty])
    (by intro j f; simp [Store.empty]) (by intro j hj; simp [Store.empty] at hj)).2.1
    jobId freelancerId
  have hlive : ∀ o : Offer, o.status.isLive
      = (decide (o.status = OfferStatus.pending) || decide (o.status = OfferStatus.accepted)) := by
    intro o
    cases hs : o.status <;> simp [OfferStatus.isLive]
  simpa only [hlive] using h

/-! ## The pending total -/

/-- C11. `getTotalDue(F)` returns as `totalDue` the sum of the amounts of
exactly the ledger entries with `freelancerId = F` and status pending, and as
`count` their number: entries of other freelancers and entries that are paid,
overdue or waived contribute nothing (the result on a ledger is the result on
its pending entries of F alone), and without such an entry the result is
`{ totalDue: 0, count: 0 }`. -/
theorem getTotalDue_spec (ledger : List LedgerEntry) (F : UserId) :
    getTotalDue ledger F
        = { totalDue :=
              ((ledger.filter (fun e =>
                decide (e.freelancerId = F) && decide (e.status = LedgerStatus.pending))).map
                (fun e => e.amount)).sum
            count :=
              (ledger.filter (fun e =>
                decide (e.freelancerId = F) && decide (e.status = LedgerStatus.pending))).length } ∧
      getTotalDue ledger F
        = getTotalDue (ledger.filter (fun e =>
            decide (e.freelancerId = F) && decide (e.status = LedgerStatus.pending))) F ∧
      getTotalDue (ledger.filter (fun e =>
            !(decide (e.freelancerId = F) && decide (e.status = LedgerStatus.pending)))) F
        = { totalDue := 0, count := 0 } ∧
      getTotalDue [] F = { totalDue := 0, count := 0 } := by
  have hpred : (fun e : LedgerEntry =>
      decide (e.freelancerId = F) && decide (e.status = LedgerStatus.pending)) = isPendingOf F := by
    funext e; rfl
  have hmain : ∀ l : List LedgerEntry, getTotalDue l F
      = { totalDue := ((l.filter (isPendingOf F)).map (fun e => e.amount)).sum
          count := (l.filter (isPendingOf F)).length } := by
    intro l
    unfold getTotalDue
    cases h : l.filter (isPendingOf F) <;> simp
  rw [hpred]
  refine ⟨hmain ledger, ?_, ?_, rfl⟩
  · rw [hmain ledger, hmain (ledger.filter (isPendingOf F))]
    simp [List.filter_filter]
  · rw [hmain]
    have : (ledger.filter (fun e =>
        !(decide (e.freelancerId = F) && decide (e.status = LedgerStatus.pending)))).filter
        (isPendingOf F) = [] := by
      rw [List.filter_eq_nil_iff]
      intro e he
      have := (List.mem_filter.mp he).2
      simp only [isPendingOf] at this ⊢
      cases h : (decide (e.freelancerId = F) && decide (e.status = LedgerStatus.pending))
      · simp
      · rw [h] at this; simp at this
    rw [this]
    rfl

/-! ## Clear-due: rejection, wallet and transaction -/

theorem clearDue_of_exceeds (s : Store) (user : UserId) (amount : Int)
    (pm : Option String) (now : Time)
    (h : amount > (getTotalDue s.ledger user).totalDue) :
    clearDue s user amount pm now
      = (Resp.rejected 400 "Amount cannot exceed total due amount", s) := by
  simp only [clearDue, h, if_true]

theorem clearDue_of_no_wallet (s : Store) (user : UserId) (amount : Int)
    (pm : Option String) (now : Time)
    (h : ¬ amount > (getTotalDue s.ledger user).totalDue)
    (hw : findWallet s.wallets user = none) :
    clearDue s user amount pm now = (Resp.rejected 400 "Insufficient wallet balance", s) := by
  simp only [clearDue, h, if_false, hw]

theorem clearDue_of_low_balance (s : Store) (user : UserId) (amount : Int)
    (pm : Option String) (now : Time) (wallet : Wallet)
    (h : ¬ amount > (getTotalDue s.ledger user).totalDue)
    (hw : findWallet s.wallets user = some wallet) (hb : wallet.balance < amount) :
    clearDue s user amount pm now = (Resp.rejected 400 "Insufficient wallet balance", s) := by
  simp only [clearDue, h, if_false, hw, hb, if_true]

/-- A request that passes both checks leaves the wallets as they are when a
`markAsPaid` throws, and debits the caller otherwise. -/
theorem clearDue_wallets (s : Store) (user : UserId) (amount : Int)
    (pm : Option String) (now : Time) (wallet : Wallet)
    (h : ¬ amount > (getTotalDue s.ledger user).totalDue)
    (hw : findWallet s.wallets user = some wallet) (hb : ¬ wallet.balance < amount) :
    (clearDue s user amount pm now).2.wallets = s.wallets ∨
      (clearDue s user amount pm now).2.wallets
        = saveWallet { wallet with balance := wallet.balance - amount } s.wallets := by
  simp only [clearDue, h, if_false, hw, hb]
  split
  · exact Or.inl rfl
  · exact Or.inr rfl

/-- A request that passes both checks is answered with a success or, when a
`markAsPaid` throws, with the answer of the `catch` block. -/
theorem clearDue_passed (s : Store) (user : UserId) (amount : Int)
    (pm : Option String) (now : Time) (wallet : Wallet)
    (h : ¬ amount > (getTotalDue s.ledger user).totalDue)
    (hw : findWallet s.wallets user = some wallet) (hb : ¬ wallet.balance < amount) :
    (∃ data, (clearDue s user amount pm now).1 = Resp.ok data) ∨
      (clearDue s user amount pm now).1 = Resp.serverError "Failed to clear commission due" := by
  simp only [clearDue, h, if_false, hw, hb]
  split
  · exact Or.inr rfl
  · exact Or.inl ⟨_, rfl⟩

/-- The answers with status 400: a clear-due request of amount A gets one
exactly when A exceeds the caller's total pending due, or the caller has no
wallet, or the wallet balance is below A, and the store is then returned as it
was given. -/
theorem clearDue_rejected_iff (s : Store) (user : UserId) (amount : Int)
    (pm : Option String) (now : Time) :
    ((∃ status message, (clearDue s user amount pm now).1 = Resp.rejected status message) ↔
        (amount > (getTotalDue s.ledger user).totalDue ∨
          findWallet s.wallets user = none ∨
          ∃ wallet, findWallet s.wallets user = some wallet ∧ wallet.balance < amount)) ∧
      ((∃ status message, (clearDue s user amount pm now).1 = Resp.rejected status message) →
        (clearDue s user amount pm now).2 = s) := by
  by_cases h1 : amount > (getTotalDue s.ledger user).totalDue
  · rw [clearDue_of_exceeds s user amount pm now h1]
    exact ⟨⟨fun _ => Or.inl h1, fun _ => ⟨_, _, rfl⟩⟩, fun _ => rfl⟩
  · cases hw : findWallet s.wallets user with
    | none =>
      rw [clearDue_of_no_wallet s user amount pm now h1 hw]
      exact ⟨⟨fun _ => Or.inr (Or.inl rfl), fun _ => ⟨_, _, rfl⟩⟩, fun _ => rfl⟩
    | some wallet =>
      by_cases hb : wallet.balance < amount
      · rw [clearDue_of_low_balance s user amount pm now wallet h1 hw hb]
        exact ⟨⟨fun _ => Or.inr (Or.inr ⟨wallet, rfl, hb⟩), fun _ => ⟨_, _, rfl⟩⟩, fun _ => rfl⟩
      · have hno : ¬ ∃ status message,
            (clearDue s user amount pm now).1 = Resp.rejected status message := by
          rintro ⟨st, msg, h⟩
          rcases clearDue_passed s user amount pm now wallet h1 hw hb with ⟨data, hd⟩ | hd
          · rw [hd] at h; exact Resp.noConfusion h
          · rw [hd] at h; exact Resp.noConfusion h
        refine ⟨⟨fun h => absurd h hno, fun h => ?_⟩, fun h => absurd h hno⟩
        rcases h with h | h | ⟨w, hw1, hb1⟩
        · exact absurd h h1
        · cases h
        · cases hw1; exact absurd hb1 hb

/-- C14 (the code at the failing input). Freelancer 7 owes 450 and holds 1000;
a clear-due request of 50 with the payment method "card", which the ledger
schema does not list, meets none of the three rejection conditions, is
answered with status 500, and leaves a new pending entry of 50 behind (the
residual of the split of the entry of 100, which itself stays pending at 100),
so the total due has grown from 450 to 500; wallet and transactions are as
before. -/
theorem clearDue_failure_changes_ledger :
    ((getTotalDue scenarioStore.ledger 7).totalDue = 450 ∧
        (findWallet scenarioStore.wallets 7).map (fun w => w.balance) = some 1000) ∧
      (clearDue scenarioStore 7 50 (some "card") 1000).1
        = Resp.serverError "Failed to clear commission due" ∧
      scenarioStore.ledger.map (fun d => (d._id, d.jobId, d.amount, d.status))
        = [(1, 101, 100, LedgerStatus.pending), (2, 102, 300, LedgerStatus.pending),
           (3, 103, 50, LedgerStatus.pending)] ∧
      (clearDue scenarioStore 7 50 (some "card") 1000).2.ledger.map
          (fun d => (d._id, d.jobId, d.amount, d.status))
        = [(1, 101, 100, LedgerStatus.pending), (2, 102, 300, LedgerStatus.pending),
           (3, 103, 50, LedgerStatus.pending), (4, 101, 50, LedgerStatus.pending)] ∧
      (getTotalDue (clearDue scenarioStore 7 50 (some "card") 1000).2.ledger 7).totalDue = 500 ∧
      (clearDue scenarioStore 7 50 (some "card") 1000).2.wallets = scenarioStore.wallets ∧
      (clearDue scenarioStore 7 50 (some "card") 1000).2.transactions
        = scenarioStore.transactions := by
  refine ⟨⟨by decide, by decide⟩, by decide, by decide, by decide, by decide, by decide,
    by decide⟩

/-! ## The payment callback -/

/-- C18. Callback checksum rejection: for a payload whose received checksum
differs from the checksum recomputed by the gateway client, `processCallback`
answers `success: false` with the error "Invalid checksum", and the handler
changes no job, wallet, transaction or other document while its HTTP answer is
still `{ success: true }`. -/
theorem paymentCallback_invalid_checksum (generateChecksum : CallbackData → String) (s : Store)
    (callbackData : CallbackData) (now : Time)
    (h : callbackData.checksum ≠ generateChecksum callbackData) :
    processCallback generateChecksum callbackData = Except.error "Invalid checksum" ∧
      paymentCallback generateChecksum s callbackData now = (Resp.ok (), s) := by
  have h1 : processCallback generateChecksum callbackData = Except.error "Invalid checksum" := by
    simp only [processCallback, h, ne_eq, not_false_eq_true, if_true]
  refine ⟨h1, ?_⟩
  simp only [paymentCallback, h1]

/-- Witness of C18: the forged callback against the store with an open order. -/
theorem paymentCallback_invalid_checksum_witness :
    processCallback demoEnv.generateChecksum forgedCallback = Except.error "Invalid checksum" ∧
      paymentCallback demoEnv.generateChecksum orderedStore forgedCallback 45
        = (Resp.ok (), orderedStore) :=
  paymentCallback_invalid_checksum demoEnv.generateChecksum orderedStore forgedCallback 45
    (by decide)

/-! ## Lookups after a save -/

theorem find?_map_replace {α : Type} (key : α → Nat) (p : α → Bool) (a a1 : α)
    (hid : key a1 = key a) (hp1 : p a1 = true) :
    ∀ l : List α, l.find? p = some a →
      (l.map (fun d => if key d = key a1 then a1 else d)).find? p = some a1 := by
  intro l
  induction l with
  | nil => intro h; cases h
  | cons d t ih =>
    intro h
    by_cases hd : p d = true
    · have hda : d = a := by
        simp only [List.find?_cons, hd] at h
        exact Option.some.inj h
      subst hda
      simp only [List.map_cons, hid, if_true, List.find?_cons, hp1]
    · have hd1 : p d = false := by simpa using hd
      simp only [List.find?_cons, hd1] at h
      by_cases hk : key d = key a1
      · simp only [List.map_cons, hk, if_true, List.find?_cons, hp1]
      · simp only [List.map_cons, hk, if_false, List.find?_cons, hd1]
        exact ih h

theorem findWallet_userId {ws : List Wallet} {F : UserId} {w : Wallet}
    (h : findWallet ws F = some w) : w.userId = F := by
  have := List.find?_some h
  simpa using this

theorem findWallet_saveWallet (ws : List Wallet) (F : UserId) (w : Wallet) (balance : Int)
    (h : findWallet ws F = some w) :
    findWallet (saveWallet { w with balance := balance } ws) F
      = some { w with balance := balance } := by
  have hu := findWallet_userId h
  unfold findWallet saveWallet at *
  exact find?_map_replace (fun d : Wallet => d._id) _ w { w with balance := balance } rfl
    (by simpa using hu) ws h

theorem findWallet_append_new (ws : List Wallet) (F : UserId) (w : Wallet)
    (h : findWallet ws F = none) (hw : w.userId = F) :
    findWallet (ws ++ [w]) F = some w := by
  unfold findWallet at *
  rw [List.find?_append, h]
  simp [hw]

/-- The wallet of `F` after the credit that the cash payment and the payment
callback make: the old balance, or zero for a wallet made on the spot, plus
the credited amount. -/
theorem findWallet_credit (ws : List Wallet) (F : UserId) (amount : Int) :
    (findWallet
        (match findWallet ws F with
          | some w => saveWallet { w with balance := w.balance + amount } ws
          | none => ws ++ [{ newWallet F ws with balance := (newWallet F ws).balance + amount }])
        F).map (fun w => w.balance)
      = some (((findWallet ws F).map (fun w => w.balance)).getD 0 + amount) := by
  cases h : findWallet ws F with
  | none =>
    simp only [Option.map_none', Option.getD_none]
    rw [findWallet_append_new ws F _ h rfl]
    simp [newWallet]
  | some w =>
    simp only [Option.map_some', Option.getD_some]
    rw [findWallet_saveWallet ws F w _ h]
    rfl

theorem findJobById_saveJob (jobs : List Job) (job job1 : Job) (p : Job → Bool)
    (h : jobs.find? p = some job) (hid : job1._id = job._id) :
    findJobById (saveJob job1 jobs) job._id = some job1 := by
  have hmem : job ∈ jobs := List.mem_of_find?_eq_some h
  have hfind : ∃ j0, findJobById jobs job._id = some j0 := by
    cases h0 : findJobById jobs job._id with
    | none =>
      have := List.find?_eq_none.mp h0 job hmem
      simp at this
    | some j0 => exact ⟨j0, rfl⟩
  obtain ⟨j0, hj0⟩ := hfind
  have hj0id : j0._id = job._id := findJobById_id hj0
  unfold findJobById saveJob at *
  exact find?_map_replace (fun d : Job => d._id) _ j0 job1 (hid.trans hj0id.symm)
    (by simpa using hid) jobs hj0

/-! ## Cash settlement -/

/-- What a cash payment for a job that waits for payment and has a freelancer
answers and stores. -/
theorem payCash_success (s : Store) (user : UserId) (jobId : ObjId) (now : Time) (job : Job)
    (F : UserId)
    (hjob : findClientJob s.jobs jobId user JobStatus.waiting_for_payment = some job)
    (hF : job.freelancerId = some F) :
    ∃ data, (payCash s user jobId now).1 = Resp.ok data ∧
      data.job = { job with
        status := JobStatus.paid, paymentStatus := some PaymentStatus.completed,
        paymentMethod := some PaymentMethod.cash, paidAt := some now } ∧
      data.commissionAmount = roundTenth job.amount ∧
      data.freelancerAmount = job.amount - roundTenth job.amount ∧
      data.transaction.amount = job.amount ∧
      data.transaction.type = TransactionType.payment ∧
      data.transaction.status = TransactionStatus.completed ∧
      data.transaction.paymentMethod = some "cash" ∧
      data.transaction.jobId = some job._id ∧
      data.ledgerEntry.freelancerId = F ∧
      data.ledgerEntry.jobId = job._id ∧
      data.ledgerEntry.amount = roundTenth job.amount ∧
      data.ledgerEntry.type = LedgerType.commission_due ∧
      data.ledgerEntry.status = LedgerStatus.pending ∧
      (payCash s user jobId now).2.jobs = saveJob data.job s.jobs ∧
      (payCash s user jobId now).2.transactions = s.transactions ++ [data.transaction] ∧
      (payCash s user jobId now).2.ledger = s.ledger ++ [data.ledgerEntry] ∧
      (payCash s user jobId now).2.wallets
        = (match findWallet s.wallets F with
            | some w =>
              saveWallet { w with balance := w.balance + (job.amount - roundTenth job.amount) }
                s.wallets
            | none =>
              s.wallets ++ [{ newWallet F s.wallets with
                balance := (newWallet F s.wallets).balance
                  + (job.amount - roundTenth job.amount) }]) ∧
      (payCash s user jobId now).2.offers = s.offers ∧
      (payCash s user jobId now).2.clientProfiles = s.clientProfiles ∧
      (payCash s user jobId now).2.freelancerProfiles
        = (match findFreelancerProfile s.freelancerProfiles F with
            | some profile =>
              saveFreelancerProfile
                { profile with
                  completedJobs := profile.completedJobs + 1
                  totalEarnings := profile.totalEarnings + (job.amount - roundTenth job.amount) }
                s.freelancerProfiles
            | none => s.freelancerProfiles) := by
  simp only [payCash, hjob, hF]
  cases hp : findFreelancerProfile s.freelancerProfiles F <;>
    exact ⟨_, rfl, rfl, rfl, rfl, rfl, rfl, rfl, rfl, rfl, rfl, rfl, rfl, rfl, rfl, rfl, rfl, rfl,
      rfl, rfl, rfl, rfl⟩

theorem findClientJob_some {jobs : List Job} {jobId : ObjId} {clientId : UserId}
    {status : JobStatus} {job : Job} (h : findClientJob jobs jobId clientId status = some job) :
    job._id = jobId ∧ job.clientId = clientId ∧ job.status = status := by
  have := List.find?_some h
  simp only [Bool.and_eq_true, decide_eq_true_eq] at this
  exact ⟨this.1.1, this.1.2, this.2⟩

/-! ## The rounded tenth -/

theorem excessBits_le : ∀ (fuel p k : Nat), p < 2 ^ (53 + k) → excessBits fuel p ≤ k := by
  intro fuel
  induction fuel with
  | zero => intro p k _; simp [excessBits]
  | succ n ih =>
    intro p k h
    simp only [excessBits]
    split
    · exact Nat.zero_le _
    · rename_i hp
      cases k with
      | zero => exact absurd h hp
      | succ j =>
        have h2 : p / 2 < 2 ^ (53 + j) := by
          rw [Nat.div_lt_iff_lt_mul (by decide)]
          have : 2 ^ (53 + (j + 1)) = 2 ^ (53 + j) * 2 := by
            rw [← Nat.add_assoc, Nat.pow_succ]
          rw [← this]
          exact h
        have := ih (p / 2) j h2
        omega

/-- Rounding does not go below a multiple of the unit in the last place that
the value has reached. -/
theorem roundToDouble_ge (p t : Nat) (ht : t * 2 ^ excessBits 1024 p ≤ p) :
    t * 2 ^ excessBits 1024 p ≤ roundToDouble p := by
  have hpos : 0 < 2 ^ excessBits 1024 p := Nat.pow_pos (by decide)
  have hq : t ≤ p / 2 ^ excessBits 1024 p := (Nat.le_div_iff_mul_le hpos).mpr ht
  have h1 : t * 2 ^ excessBits 1024 p ≤ p / 2 ^ excessBits 1024 p * 2 ^ excessBits 1024 p :=
    Nat.mul_le_mul_right _ hq
  simp only [roundToDouble]
  split
  · exact le_trans h1 (Nat.mul_le_mul_right _ (Nat.le_succ _))
  · exact h1

/-- Rounding stays below a bound that the value misses by more than half a
unit in the last place. -/
theorem roundToDouble_lt (p U : Nat) (h : 2 * p + 2 ^ excessBits 1024 p < 2 * U) :
    roundToDouble p < U := by
  have hdm := Nat.div_add_mod p (2 ^ excessBits 1024 p)
  have hcomm : 2 ^ excessBits 1024 p * (p / 2 ^ excessBits 1024 p)
      = p / 2 ^ excessBits 1024 p * 2 ^ excessBits 1024 p := Nat.mul_comm _ _
  simp only [roundToDouble]
  generalize 2 ^ excessBits 1024 p = w at *
  generalize p / w = q at *
  generalize p % w = r at *
  generalize hqw : q * w = x at *
  split
  · rename_i hc
    have : w ≤ 2 * r := by
      rcases hc with hc | hc
      · exact le_of_lt hc
      · exact le_of_eq hc.1.symm
    rw [Nat.add_mul, hqw]
    omega
  · omega

/-- Below 3 * 2 ^ 51 = 6755399441055744 the double product is close enough to
the exact tenth: `roundTenth` is the whole number nearest to a tenth of the
amount, a half going up. -/
theorem roundTenth_eq (M : Int) (h0 : 0 ≤ M) (h1 : M < 6755399441055744) :
    roundTenth M = (M + 5) / 10 := by
  obtain ⟨m, rfl⟩ := Int.eq_ofNat_of_zero_le h0
  have hm : m < 6755399441055744 := by exact_mod_cast h1
  rcases Nat.eq_zero_or_pos m with hz | hpos
  · subst hz; decide
  have hs : excessBits 1024 (m * 3602879701896397) ≤ 52 := by
    apply excessBits_le
    have : (2 : Nat) ^ (53 + 52) = 40564819207303340847894502572032 := by norm_num
    rw [this]
    omega
  have hw : 2 ^ excessBits 1024 (m * 3602879701896397) ≤ 2 ^ 52 :=
    Nat.pow_le_pow_right (by decide) hs
  have h54 : (2 : Nat) ^ 54 = 18014398509481984 := by norm_num
  have hlow : (2 * ((m + 5) / 10) - 1) * 2 ^ 54 ≤ roundToDouble (m * 3602879701896397) := by
    have hsplit : (2 * ((m + 5) / 10) - 1) * 2 ^ 54
        = ((2 * ((m + 5) / 10) - 1) * 2 ^ (54 - excessBits 1024 (m * 3602879701896397)))
          * 2 ^ excessBits 1024 (m * 3602879701896397) := by
      rw [Nat.mul_assoc, ← Nat.pow_add, Nat.sub_add_cancel (by omega)]
    rw [hsplit]
    apply roundToDouble_ge
    rw [← hsplit, h54]
    omega
  have hup : roundToDouble (m * 3602879701896397) < (2 * ((m + 5) / 10) + 1) * 2 ^ 54 := by
    apply roundToDouble_lt
    have h52 : (2 : Nat) ^ 52 = 4503599627370496 := by norm_num
    rw [h54]
    rw [h52] at hw
    omega
  have hsign : (m : Int).sign = 1 := Int.sign_eq_one_of_pos (by exact_mod_cast hpos)
  simp only [roundTenth, tenthNumerator, hsign, Int.natAbs_ofNat, one_mul]
  rw [h54] at hlow hup
  have key : (2 * roundToDouble (m * 3602879701896397) + 2 ^ 55) / 2 ^ 56 = (m + 5) / 10 := by
    have h55 : (2 : Nat) ^ 55 = 36028797018963968 := by norm_num
    have h56 : (2 : Nat) ^ 56 = 72057594037927936 := by norm_num
    rw [h55, h56]
    omega
  exact_mod_cast congrArg (fun n : Nat => (n : Int)) key

/-- C12 (counterexample). The job of `largeJobStore` has the amount
M = 6755399441055744.  A tenth of M is 675539944105574.4, so the nearest whole
unit is 675539944105574; pay-cash answers with the commission 675539944105575
(the double product is 675539944105574.5, which `Math.round` takes up) and the
freelancer amount 6079859496950169: the commission is not the whole unit
nearest to M x 0.10, it is 6 tenths of a unit above a tenth of M. -/
theorem commission_not_nearest_unit :
    (findClientJob largeJobStore.jobs 0 1 JobStatus.waiting_for_payment).map
        (fun j => j.amount) = some 6755399441055744 ∧
      (payCash largeJobStore 1 0 40).1.data?.map
          (fun data => (data.commissionAmount, data.freelancerAmount))
        = some (675539944105575, 6079859496950169) ∧
      ((6755399441055744 : Int) + 5) / 10 = 675539944105574 ∧
      ¬ (10 * (675539944105575 : Int) - 6755399441055744 ≤ 5) ∧
      (6755399441055744 : Int) - 10 * 675539944105574 = 4 := by
  refine ⟨by decide, by decide, by decide, by decide, by decide⟩

/-- C12 (amended). Cash settlement split: for a job that waits for payment
pay-cash answers with `commissionAmount` the value of `Math.round(M * 0.1)` and
with `freelancerAmount = M - commissionAmount`, so that the two add up to M,
for every amount M; when 0 ≤ M < 6755399441055744 the commission is the whole
unit nearest to a tenth of M (a half goes up), that is (M + 5) div 10; for
M = 2000 the two are 200 and 1800. -/
theorem payCash_commission_split (s : Store) (user : UserId) (jobId : ObjId) (now : Time)
    (job : Job) (F : UserId)
    (hjob : findClientJob s.jobs jobId user JobStatus.waiting_for_payment = some job)
    (hF : job.freelancerId = some F) :
    ∃ data, (payCash s user jobId now).1 = Resp.ok data ∧
      data.commissionAmount = roundTenth job.amount ∧
      data.freelancerAmount = job.amount - data.commissionAmount ∧
      data.freelancerAmount + data.commissionAmount = job.amount ∧
      (0 ≤ job.amount → job.amount < 6755399441055744 →
        data.commissionAmount = (job.amount + 5) / 10 ∧
        10 * data.commissionAmount - job.amount ≤ 5 ∧
        job.amount - 10 * data.commissionAmount < 5 ∧
        0 ≤ data.commissionAmount) ∧
      roundTenth 2000 = 200 ∧ (2000 : Int) - roundTenth 2000 = 1800 := by
  obtain ⟨data, hresp, -, hc, hf, -⟩ := payCash_success s user jobId now job F hjob hF
  refine ⟨data, hresp, hc, ?_, ?_, ?_, by decide, by decide⟩
  · rw [hf, hc]
  · rw [hf, hc]; ring
  · intro h0 h1
    have hr := roundTenth_eq job.amount h0 h1
    rw [hc, hr]
    refine ⟨rfl, ?_, ?_, ?_⟩ <;> omega

/-- Witness of the amended C12: the cash payment of the job of amount 2000
that waits for payment in `awaitingPaymentStore` gives 200 and 1800. -/
theorem payCash_commission_split_witness :
    ∃ data, (payCash awaitingPaymentStore 1 0 40).1 = Resp.ok data ∧
      data.commissionAmount = 200 ∧ data.freelancerAmount = 1800 :=
  (payCash_commission_split awaitingPaymentStore 1 0 40 awaitingJob 10 (by decide)
    (by decide)).elim (fun data h =>
      ⟨data, h.1, (h.2.2.2.2.1 (by decide) (by decide)).1.trans (by decide),
        h.2.2.1.trans (by
          rw [(h.2.2.2.2.1 (by decide) (by decide)).1]
          decide)⟩)

/-- C13 (counterexample). The cash payment of the job of amount
M = 6755399441055744 in `largeJobStore` creates the ledger entry with the
amount 675539944105575 and credits the wallet of freelancer 10, who had none,
with 6079859496950169, while the whole unit nearest to M x 0.10 is
675539944105574 and M less that is 6079859496950170. -/
theorem ledger_amount_not_nearest_unit :
    (payCash largeJobStore 1 0 40).2.ledger.map
        (fun e => (e.freelancerId, e.jobId, e.type, e.status, e.amount))
        = [(10, 0, LedgerType.commission_due, LedgerStatus.pending, 675539944105575)] ∧
      (findWallet largeJobStore.wallets 10).map (fun w => w.balance) = none ∧
      (findWallet (payCash largeJobStore 1 0 40).2.wallets 10).map (fun w => w.balance)
        = some 6079859496950169 ∧
      ((6755399441055744 : Int) + 5) / 10 = 675539944105574 ∧
      (6755399441055744 : Int) - (6755399441055744 + 5) / 10 = 6079859496950170 := by
  refine ⟨by decide, by decide, by decide, by decide, by decide⟩

/-- C13 (amended). Cash settlement effects: for a job of amount M with
0 ≤ M < 6755399441055744 that belongs to the calling client, waits for payment
and has freelancer F, pay-cash stores the job as paid with payment status
completed and payment method cash, appends exactly one transaction (type
payment, status completed, amount M), appends exactly one ledger entry
(freelancer F, this job, type commission_due, status pending) whose amount is
the whole unit nearest to a tenth of M, (M + 5) div 10, and leaves F with a
wallet whose balance is the former balance, or zero when F had no wallet, plus
M less that amount. -/
theorem payCash_effects (s : Store) (user : UserId) (jobId : ObjId) (now : Time)
    (job : Job) (F : UserId)
    (hjob : findClientJob s.jobs jobId user JobStatus.waiting_for_payment = some job)
    (hF : job.freelancerId = some F) (hM : 0 ≤ job.amount)
    (hlt : job.amount < 6755399441055744) :
    findJobById (payCash s user jobId now).2.jobs jobId
        = some { job with
            status := JobStatus.paid, paymentStatus := some PaymentStatus.completed,
            paymentMethod := some PaymentMethod.cash, paidAt := some now } ∧
      (∃ t, (payCash s user jobId now).2.transactions = s.transactions ++ [t] ∧
        t.type = TransactionType.payment ∧ t.status = TransactionStatus.completed ∧
        t.amount = job.amount ∧ t.jobId = some jobId) ∧
      (∃ e, (payCash s user jobId now).2.ledger = s.ledger ++ [e] ∧
        e.freelancerId = F ∧ e.jobId = jobId ∧ e.type = LedgerType.commission_due ∧
        e.status = LedgerStatus.pending ∧ e.amount = (job.amount + 5) / 10 ∧
        10 * e.amount - job.amount ≤ 5 ∧ job.amount - 10 * e.amount < 5) ∧
      (findWallet (payCash s user jobId now).2.wallets F).map (fun w => w.balance)
        = some (((findWallet s.wallets F).map (fun w => w.balance)).getD 0
            + (job.amount - (job.amount + 5) / 10)) ∧
      (payCash s user jobId now).2.wallets.length
        = s.wallets.length + (if (findWallet s.wallets F).isSome then 0 else 1) := by
  obtain ⟨hid, -, -⟩ := findClientJob_some hjob
  obtain ⟨data, -, hdj, -, -, ht1, ht2, ht3, -, ht4, he1, he2, he3, he4, he5, hjobs, htx, hled,
    hwal, -⟩ := payCash_success s user jobId now job F hjob hF
  have hr := roundTenth_eq job.amount hM hlt
  rw [hr] at he3 hwal
  refine ⟨?_, ⟨data.transaction, htx, ht2, ht3, ht1, by rw [ht4, hid]⟩,
    ⟨data.ledgerEntry, hled, he1, by rw [he2, hid], he4, he5, he3, ?_, ?_⟩, ?_, ?_⟩
  · rw [hjobs, ← hdj, ← hid]
    exact findJobById_saveJob s.jobs job data.job _ hjob (by rw [hdj])
  · rw [he3]; omega
  · rw [he3]; omega
  · rw [hwal]
    exact findWallet_credit s.wallets F _
  · rw [hwal]
    cases hw : findWallet s.wallets F <;> simp [saveWallet]

/-- Witness of the amended C13: the cash payment of job 0, of amount 2000, in
`awaitingPaymentStore`, whose freelancer 10 has no wallet yet, leaves the
wallet of freelancer 10 at 1800. -/
theorem payCash_effects_witness :
    (findWallet (payCash awaitingPaymentStore 1 0 40).2.wallets 10).map (fun w => w.balance)
      = some 1800 :=
  (payCash_effects awaitingPaymentStore 1 0 40 awaitingJob 10 (by decide) (by decide)
    (by decide) (by decide)).2.2.2.1.trans (by decide)

/-- What a verified success callback for an order that matches a job with a
freelancer stores. -/
theorem paymentCallback_success (gen : CallbackData → String) (s : Store)
    (data : CallbackData) (now : Time) (job : Job) (F : UserId)
    (hsum : data.checksum = gen data) (hcode : data.code = "PAYMENT_SUCCESS")
    (hjob : s.jobs.find? (fun j => decide (j.paymentOrderId = some data.merchantOrderId))
      = some job)
    (hF : job.freelancerId = some F) :
    (paymentCallback gen s data now).1 = Resp.ok () ∧
      (paymentCallback gen s data now).2.jobs
        = saveJob { job with
            status := JobStatus.paid, paymentStatus := some PaymentStatus.completed,
            paymentTransactionId := some data.merchantTransactionId, paidAt := some now }
          s.jobs ∧
      (∃ t, (paymentCallback gen s data now).2.transactions = s.transactions ++ [t] ∧
        t.amount = data.amount / 100 ∧ t.type = TransactionType.payment ∧
        t.status = TransactionStatus.completed ∧ t.jobId = some job._id ∧
        t.freelancerId = some F) ∧
      (paymentCallback gen s data now).2.wallets
        = (match findWallet s.wallets F with
            | some w => saveWallet { w with balance := w.balance + data.amount / 100 } s.wallets
            | none =>
              s.wallets ++ [{ newWallet F s.wallets with
                balance := (newWallet F s.wallets).balance + data.amount / 100 }]) ∧
      (paymentCallback gen s data now).2.ledger = s.ledger ∧
      (paymentCallback gen s data now).2.offers = s.offers ∧
      (paymentCallback gen s data now).2.freelancerProfiles = s.freelancerProfiles ∧
      (paymentCallback gen s data now).2.clientProfiles = s.clientProfiles := by
  have hproc : processCallback gen data = Except.ok
      { transactionId := data.merchantTransactionId
        orderId := data.merchantOrderId
        amount := data.amount / 100
        status := CallbackStatus.success
        responseCode := data.code } := by
    simp only [processCallback, hsum, ne_eq, not_true_eq_false, if_false, hcode, if_true]
  simp only [paymentCallback, hproc, hjob, hF, ne_eq, not_true_eq_false, if_false]
  exact ⟨trivial, trivial, ⟨_, rfl, rfl, rfl, rfl, rfl, rfl⟩, trivial, trivial, trivial, trivial,
    trivial⟩

theorem find?_saveJob (jobs : List Job) (p : Job → Bool) (job job1 : Job)
    (h : jobs.find? p = some job) (hid : job1._id = job._id) (hp : p job1 = true) :
    (saveJob job1 jobs).find? p = some job1 := by
  unfold saveJob
  exact find?_map_replace (fun d : Job => d._id) p job job1 hid hp jobs h

/-- C19. Gateway path credits the full amount: a verified PAYMENT_SUCCESS
callback of `100 * units` paise whose order id matches a job with freelancer F
stores the job as paid (payment status completed), leaves F with a wallet whose
balance is the former balance, or zero when F had no wallet, plus the full
`units` (nothing is deducted), records one transaction of `units`, and leaves
the commission ledger as it was. -/
theorem paymentCallback_full_amount (gen : CallbackData → String) (s : Store)
    (data : CallbackData) (now : Time) (job : Job) (F : UserId) (units : Int)
    (hsum : data.checksum = gen data) (hcode : data.code = "PAYMENT_SUCCESS")
    (hjob : s.jobs.find? (fun j => decide (j.paymentOrderId = some data.merchantOrderId))
      = some job)
    (hF : job.freelancerId = some F) (hunits : data.amount = 100 * units) :
    findJobById (paymentCallback gen s data now).2.jobs job._id
        = some { job with
            status := JobStatus.paid, paymentStatus := some PaymentStatus.completed,
            paymentTransactionId := some data.merchantTransactionId, paidAt := some now } ∧
      (findWallet (paymentCallback gen s data now).2.wallets F).map (fun w => w.balance)
        = some (((findWallet s.wallets F).map (fun w => w.balance)).getD 0 + units) ∧
      (∃ t, (paymentCallback gen s data now).2.transactions = s.transactions ++ [t] ∧
        t.amount = units ∧ t.type = TransactionType.payment) ∧
      (paymentCallback gen s data now).2.ledger = s.ledger := by
  have hdiv : data.amount / 100 = units := by rw [hunits]; omega
  obtain ⟨-, hjobs, ⟨t, htx, ht1, ht2, -⟩, hwal, hled, -⟩ :=
    paymentCallback_success gen s data now job F hsum hcode hjob hF
  rw [hdiv] at hwal ht1
  refine ⟨?_, ?_, ⟨t, htx, ht1, ht2⟩, hled⟩
  · rw [hjobs]
    exact findJobById_saveJob s.jobs job _ _ hjob rfl
  · rw [hwal]
    exact findWallet_credit s.wallets F units

/-- Witness of C19: the gateway confirms the order of 200000 paise opened in
`orderedStore`. -/
theorem paymentCallback_full_amount_witness :
    (findWallet (paymentCallback demoEnv.generateChecksum orderedStore orderCallback 45).2.wallets
        10).map (fun w => w.balance)
        = some (((findWallet orderedStore.wallets 10).map (fun w => w.balance)).getD 0 + 2000) ∧
      (paymentCallback demoEnv.generateChecksum orderedStore orderCallback 45).2.ledger
        = orderedStore.ledger :=
  ⟨(paymentCallback_full_amount demoEnv.generateChecksum orderedStore orderCallback 45
      orderedJob 10 2000 (by decide) (by decide) (by decide) (by decide) (by decide)).2.1,
    (paymentCallback_full_amount demoEnv.generateChecksum orderedStore orderCallback 45
      orderedJob 10 2000 (by decide) (by decide) (by decide) (by decide) (by decide)).2.2.2⟩

/-- C17. The payment callback is not idempotent: when a verified
PAYMENT_SUCCESS callback of `100 * units` paise whose order id matches a job
with freelancer F is processed twice, the second run finds the job already
paid and still goes through: both runs answer success, F's wallet ends at the
former balance (zero without a wallet) plus twice `units`, and two
transactions of `units` are recorded. -/
theorem paymentCallback_twice (gen : CallbackData → String) (s : Store)
    (data : CallbackData) (now1 now2 : Time) (job : Job) (F : UserId) (units : Int)
    (hsum : data.checksum = gen data) (hcode : data.code = "PAYMENT_SUCCESS")
    (hjob : s.jobs.find? (fun j => decide (j.paymentOrderId = some data.merchantOrderId))
      = some job)
    (hF : job.freelancerId = some F) (hunits : data.amount = 100 * units) :
    (paymentCallback gen s data now1).1 = Resp.ok () ∧
      (paymentCallback gen (paymentCallback gen s data now1).2 data now2).1 = Resp.ok () ∧
      ((paymentCallback gen s data now1).2.jobs.find?
          (fun j => decide (j.paymentOrderId = some data.merchantOrderId))).map
          (fun j => j.status) = some JobStatus.paid ∧
      (findWallet (paymentCallback gen (paymentCallback gen s data now1).2 data now2).2.wallets
          F).map (fun w => w.balance)
        = some (((findWallet s.wallets F).map (fun w => w.balance)).getD 0 + 2 * units) ∧
      (∃ t1 t2,
        (paymentCallback gen (paymentCallback gen s data now1).2 data now2).2.transactions
          = s.transactions ++ [t1, t2] ∧
        t1.amount = units ∧ t2.amount = units ∧
        t1.type = TransactionType.payment ∧ t2.type = TransactionType.payment ∧
        t1.jobId = some job._id ∧ t2.jobId = some job._id) := by
  have hdiv : data.amount / 100 = units := by rw [hunits]; omega
  obtain ⟨hr1, hjobs1, ⟨t1, htx1, ht1a, ht1b, -, ht1c, -⟩, hwal1, -⟩ :=
    paymentCallback_success gen s data now1 job F hsum hcode hjob hF
  have horder : job.paymentOrderId = some data.merchantOrderId := by
    have := List.find?_some hjob
    simpa using this
  have hjob1 : (paymentCallback gen s data now1).2.jobs.find?
      (fun j => decide (j.paymentOrderId = some data.merchantOrderId))
      = some { job with
          status := JobStatus.paid, paymentStatus := some PaymentStatus.completed,
          paymentTransactionId := some data.merchantTransactionId, paidAt := some now1 } := by
    rw [hjobs1]
    exact find?_saveJob s.jobs _ job
      { job with
        status := JobStatus.paid, paymentStatus := some PaymentStatus.completed,
        paymentTransactionId := some data.merchantTransactionId, paidAt := some now1 }
      hjob rfl (by simpa using horder)
  obtain ⟨hr2, -, ⟨t2, htx2, ht2a, ht2b, -, ht2c, -⟩, hwal2, -⟩ :=
    paymentCallback_success gen (paymentCallback gen s data now1).2 data now2 _ F hsum hcode
      hjob1 hF
  rw [hdiv] at hwal1 hwal2 ht1a ht2a
  have hb1 := findWallet_credit s.wallets F units
  rw [← hwal1] at hb1
  have hb2 := findWallet_credit (paymentCallback gen s data now1).2.wallets F units
  rw [← hwal2, hb1] at hb2
  refine ⟨hr1, hr2, by rw [hjob1]; rfl, ?_, ⟨t1, t2, ?_, ht1a, ht2a, ht1b, ht2b, ht1c, ht2c⟩⟩
  · rw [hb2]
    simp only [Option.getD_some]
    congr 1
    ring
  · rw [htx2, htx1]
    simp

/-- Witness of C17: the gateway repeats its confirmation of the order opened
in `orderedStore`; freelancer 10 ends with 4000 for a job of 2000. -/
theorem paymentCallback_twice_witness :
    (findWallet
        (paymentCallback demoEnv.generateChecksum
          (paymentCallback demoEnv.generateChecksum orderedStore orderCallback 45).2
          orderCallback 60).2.wallets 10).map (fun w => w.balance)
      = some (((findWallet orderedStore.wallets 10).map (fun w => w.balance)).getD 0
          + 2 * 2000) :=
  (paymentCallback_twice demoEnv.generateChecksum orderedStore orderCallback 45 60 orderedJob 10
    2000 (by decide) (by decide) (by decide) (by decide) (by decide)).2.2.2.1

/-! ## Wallet debits -/

theorem mem_saveWallet {w w1 : Wallet} {ws : List Wallet} (h : w ∈ saveWallet w1 ws) :
    w = w1 ∨ w ∈ ws := by
  simp only [saveWallet, List.mem_map] at h
  obtain ⟨d, hd, hj⟩ := h
  by_cases hc : d._id = w1._id
  · simp only [hc, if_true] at hj; exact Or.inl hj.symm
  · simp only [hc, if_false] at hj; rw [← hj]; exact Or.inr hd

theorem filter_map_of_fixed {α : Type} (p : α → Bool) (f : α → α) :
    ∀ l : List α, (∀ d ∈ l, f d = d ∨ (p d = false ∧ p (f d) = false)) →
      (l.map f).filter p = l.filter p := by
  intro l
  induction l with
  | nil => intro _; rfl
  | cons a t ih =>
    intro h
    have iht := ih (fun d hd => h d (List.mem_cons_of_mem _ hd))
    rcases h a (List.mem_cons_self _ _) with ha | ⟨ha1, ha2⟩
    · simp only [List.map_cons, List.filter_cons, ha, iht]
    · simp only [List.map_cons, List.filter_cons, ha1, ha2, iht, Bool.false_eq_true, if_false]

/-- After a fetched wallet has been saved with a new balance, the wallets of
the other users are as before (wallet ids being unique). -/
theorem saveWallet_others (ws : List Wallet) (user : UserId) (wallet : Wallet) (balance : Int)
    (hids : (ws.map (fun d => d._id)).Nodup) (hw : findWallet ws user = some wallet) :
    (saveWallet { wallet with balance := balance } ws).filter
        (fun d => decide (d.userId ≠ user))
      = ws.filter (fun d => decide (d.userId ≠ user)) := by
  have hmem : wallet ∈ ws := List.mem_of_find?_eq_some hw
  have hu : wallet.userId = user := findWallet_userId hw
  unfold saveWallet
  apply filter_map_of_fixed
  intro d hd
  by_cases hc : d._id = wallet._id
  · have hdw : d = wallet := List.inj_on_of_nodup_map hids hd hmem hc
    subst hdw
    right
    simp [hu]
  · left
    simp [hc]

/-- C15. Clear-due wallet and transaction post-condition: a clear-due request
of amount A that passes the checks (A at most the total due, a wallet with
balance at least A) and names a payment method of the ledger schema or none
succeeds, leaves the caller's wallet with the balance
before minus A, appends exactly one transaction (type commission_payment,
status completed, amount A) however many ledger entries were processed, and,
wallet ids being unique, leaves the wallets of all other users as they were. -/
theorem clearDue_wallet_transaction (s : Store) (user : UserId) (amount : Int)
    (pm : Option PaymentMethod) (now : Time) (wallet : Wallet)
    (hids : (s.wallets.map (fun d => d._id)).Nodup)
    (hle : amount ≤ (getTotalDue s.ledger user).totalDue)
    (hw : findWallet s.wallets user = some wallet) (hb : amount ≤ wallet.balance) :
    ∃ data, (clearDue s user amount (pm.map PaymentMethod.name) now).1 = Resp.ok data ∧
      findWallet (clearDue s user amount (pm.map PaymentMethod.name) now).2.wallets user
        = some { wallet with balance := wallet.balance - amount } ∧
      (clearDue s user amount (pm.map PaymentMethod.name) now).2.transactions
        = s.transactions ++ [data.transaction] ∧
      data.transaction.type = TransactionType.commission_payment ∧
      data.transaction.status = TransactionStatus.completed ∧
      data.transaction.amount = amount ∧
      (clearDue s user amount (pm.map PaymentMethod.name) now).2.wallets.filter
          (fun d => decide (d.userId ≠ user))
        = s.wallets.filter (fun d => decide (d.userId ≠ user)) ∧
      (clearDue s user amount (pm.map PaymentMethod.name) now).2.wallets.length = s.wallets.length := by
  obtain ⟨data, hresp, -, -, -, -, -, hwal, htx, ha, hty, hst⟩ :=
    clearDue_success s user amount pm now wallet hle hw hb
  refine ⟨data, hresp, ?_, htx, hty, hst, ha, ?_, ?_⟩
  · rw [hwal]; exact findWallet_saveWallet s.wallets user wallet _ hw
  · rw [hwal]; exact saveWallet_others s.wallets user wallet _ hids hw
  · rw [hwal]; simp [saveWallet]

/-- Witness of C15: freelancer 7 clears 250 from a wallet of 1000. -/
theorem clearDue_wallet_transaction_witness :
    ∃ data, (clearDue scenarioStore 7 250 (some "wallet") 1000).1 = Resp.ok data ∧
      findWallet (clearDue scenarioStore 7 250 (some "wallet") 1000).2.wallets 7
        = some { ({ _id := 1, userId := 7, balance := 1000 } : Wallet) with
            balance := ({ _id := 1, userId := 7, balance := 1000 } : Wallet).balance - 250 } ∧
      (clearDue scenarioStore 7 250 (some "wallet") 1000).2.transactions
        = scenarioStore.transactions ++ [data.transaction] ∧
      data.transaction.type = TransactionType.commission_payment ∧
      data.transaction.status = TransactionStatus.completed ∧
      data.transaction.amount = 250 ∧
      (clearDue scenarioStore 7 250 (some "wallet") 1000).2.wallets.filter
          (fun d => decide (d.userId ≠ 7))
        = scenarioStore.wallets.filter (fun d => decide (d.userId ≠ 7)) ∧
      (clearDue scenarioStore 7 250 (some "wallet") 1000).2.wallets.length
        = scenarioStore.wallets.length :=
  clearDue_wallet_transaction scenarioStore 7 250 (some PaymentMethod.wallet) 1000
    { _id := 1, userId := 7, balance := 1000 } (by decide) (by decide) (by decide) (by decide)

theorem withdraw_of_low_balance (s : Store) (user : UserId) (amount : Int) (now : Time)
    (wallet : Wallet) (hw : findWallet s.wallets user = some wallet)
    (hb : wallet.balance < amount) :
    withdraw s user amount now = (Resp.rejected 400 "Insufficient balance", s) := by
  simp only [withdraw, hw, hb, if_true]

/-- C20. Wallet non-negativity under debits: when every wallet balance is at
least zero, it still is after the withdraw handler and after the clear-due
handler have served a request of any amount and, for clear-due, any payment
method, whether the request is accepted, rejected or ends in an error; and a
request for more than the caller's balance is rejected by both handlers with
the store, the balance included, unchanged. -/
theorem debit_keeps_balance_nonnegative (s : Store) (user : UserId) (amount : Int)
    (pm : Option String) (now : Time) (h : ∀ w ∈ s.wallets, 0 ≤ w.balance) :
    (∀ w ∈ (withdraw s user amount now).2.wallets, 0 ≤ w.balance) ∧
      (∀ w ∈ (clearDue s user amount pm now).2.wallets, 0 ≤ w.balance) ∧
      (∀ wallet, findWallet s.wallets user = some wallet → wallet.balance < amount →
        withdraw s user amount now = (Resp.rejected 400 "Insufficient balance", s) ∧
        ∃ message, clearDue s user amount pm now = (Resp.rejected 400 message, s)) := by
  refine ⟨?_, ?_, ?_⟩
  · cases hw : findWallet s.wallets user with
    | none => simp only [withdraw, hw]; exact h
    | some wallet =>
      by_cases hb : wallet.balance < amount
      · rw [withdraw_of_low_balance s user amount now wallet hw hb]; exact h
      · simp only [withdraw, hw, hb, if_false]
        intro w hmem
        rcases mem_saveWallet hmem with h1 | h1
        · rw [h1]; show 0 ≤ wallet.balance - amount; omega
        · exact h w h1
  · by_cases h1 : amount > (getTotalDue s.ledger user).totalDue
    · rw [clearDue_of_exceeds s user amount pm now h1]; exact h
    · cases hw : findWallet s.wallets user with
      | none => rw [clearDue_of_no_wallet s user amount pm now h1 hw]; exact h
      | some wallet =>
        by_cases hb : wallet.balance < amount
        · rw [clearDue_of_low_balance s user amount pm now wallet h1 hw hb]; exact h
        · rcases clearDue_wallets s user amount pm now wallet h1 hw hb with hwal | hwal
          · rw [hwal]; exact h
          · rw [hwal]
            intro w hmem
            rcases mem_saveWallet hmem with h2 | h2
            · rw [h2]; show 0 ≤ wallet.balance - amount; omega
            · exact h w h2
  · intro wallet hw hb
    refine ⟨withdraw_of_low_balance s user amount now wallet hw hb, ?_⟩
    by_cases h1 : amount > (getTotalDue s.ledger user).totalDue
    · exact ⟨_, clearDue_of_exceeds s user amount pm now h1⟩
    · exact ⟨_, clearDue_of_low_balance s user amount pm now wallet h1 hw hb⟩

/-- Witness of C20: freelancer 7, with a wallet of 1000, asks for 300 (withdrawn,
and cleared against dues of 450) and for 2000 (rejected). -/
theorem debit_keeps_balance_nonnegative_witness :
    ((∀ w ∈ (withdraw scenarioStore 7 300 1000).2.wallets, 0 ≤ w.balance) ∧
      (∀ w ∈ (clearDue scenarioStore 7 300 none 1000).2.wallets, 0 ≤ w.balance)) ∧
      withdraw scenarioStore 7 2000 1000
        = (Resp.rejected 400 "Insufficient balance", scenarioStore) :=
  ⟨⟨(debit_keeps_balance_nonnegative scenarioStore 7 300 none 1000 (by decide)).1,
      (debit_keeps_balance_nonnegative scenarioStore 7 300 none 1000 (by decide)).2.1⟩,
    ((debit_keeps_balance_nonnegative scenarioStore 7 2000 none 1000 (by decide)).2.2
      { _id := 1, userId := 7, balance := 1000 } (by decide) (by decide)).1⟩

/-! ## Applying for a job -/

/-- The two outcomes of an application: every check passes and one pending
offer of the caller on the job is appended, or some check fails and the store
is returned as it was. -/
theorem applyForJob_cases (s : Store) (user : UserId) (jobId : ObjId)
    (offeredAmount : Option Int) (message : String) (offerType : Option String) (now : Time) :
    (((findFreelancerProfile s.freelancerProfiles user).map (fun p => p.verificationStatus)
          = some VerificationStatus.approved ∧
        findActiveJob s.jobs user = none ∧
        canFreelancerWork s.ledger user none = true ∧
        (∃ job, findJobById s.jobs jobId = some job ∧ job.status = JobStatus.open) ∧
        findExistingOffer s.offers jobId user = none) ∧
      ∃ offer, (applyForJob s user jobId offeredAmount message offerType now).1
          = ApplyResp.ok offer ∧
        (applyForJob s user jobId offeredAmount message offerType now).2.offers
          = s.offers ++ [offer] ∧
        offer.status = OfferStatus.pending ∧ offer.jobId = jobId ∧ offer.freelancerId = user) ∨
    (¬ ((findFreelancerProfile s.freelancerProfiles user).map (fun p => p.verificationStatus)
          = some VerificationStatus.approved ∧
        findActiveJob s.jobs user = none ∧
        canFreelancerWork s.ledger user none = true ∧
        (∃ job, findJobById s.jobs jobId = some job ∧ job.status = JobStatus.open) ∧
        findExistingOffer s.offers jobId user = none) ∧
      (∀ offer, (applyForJob s user jobId offeredAmount message offerType now).1
          ≠ ApplyResp.ok offer) ∧
      (applyForJob s user jobId offeredAmount message offerType now).2 = s) := by
  by_cases hp : (findFreelancerProfile s.freelancerProfiles user).map
      (fun p => p.verificationStatus) = some VerificationStatus.approved
  swap
  · right
    refine ⟨fun h => hp h.1, ?_⟩
    simp only [applyForJob, ne_eq, hp, not_false_eq_true, if_true]
    exact ⟨fun offer h => (by cases h), trivial⟩
  cases ha : findActiveJob s.jobs user with
  | some activeJob =>
    right
    refine ⟨fun h => (by cases h.2.1), ?_⟩
    simp only [applyForJob, ne_eq, hp, not_true_eq_false, if_false, ha]
    exact ⟨fun offer h => (by cases h), trivial⟩
  | none =>
    by_cases hc : canFreelancerWork s.ledger user none = true
    swap
    · right
      refine ⟨fun h => hc h.2.2.1, ?_⟩
      have hc1 : canFreelancerWork s.ledger user none = false := by simpa using hc
      simp only [applyForJob, ne_eq, hp, not_true_eq_false, if_false, ha, hc1, Bool.not_false,
        if_true]
      exact ⟨fun offer h => (by cases h), trivial⟩
    cases hj : findJobById s.jobs jobId with
    | none =>
      right
      refine ⟨fun h => (by obtain ⟨_, hh, _⟩ := h.2.2.2.1; cases hh), ?_⟩
      simp only [applyForJob, ne_eq, hp, not_true_eq_false, if_false, ha, hc, Bool.not_true,
        Bool.false_eq_true, hj]
      exact ⟨fun offer h => (by cases h), trivial⟩
    | some job =>
      by_cases hs : job.status = JobStatus.open
      swap
      · right
        refine ⟨fun h => (by obtain ⟨j, hh, hst⟩ := h.2.2.2.1; cases hh; exact hs hst), ?_⟩
        simp only [applyForJob, ne_eq, hp, not_true_eq_false, if_false, ha, hc, Bool.not_true,
          Bool.false_eq_true, hj, hs, not_false_eq_true, if_true]
        exact ⟨fun offer h => (by cases h), trivial⟩
      cases he : findExistingOffer s.offers jobId user with
      | some existing =>
        right
        refine ⟨fun h => (by cases h.2.2.2.2), ?_⟩
        simp only [applyForJob, ne_eq, hp, not_true_eq_false, if_false, ha, hc, Bool.not_true,
          Bool.false_eq_true, hj, hs, he]
        exact ⟨fun offer h => (by cases h), trivial⟩
      | none =>
        left
        refine ⟨⟨hp, rfl, hc, ⟨job, rfl, hs⟩, rfl⟩, ?_⟩
        simp only [applyForJob, ne_eq, hp, not_true_eq_false, if_false, ha, hc, Bool.not_true,
          Bool.false_eq_true, hj, hs, he]
        by_cases hd : offerType.getD "direct_apply" = "direct_apply"
        · simp only [hd, if_true]
          exact ⟨_, rfl, rfl, rfl, rfl, rfl⟩
        · simp only [hd, if_false]
          exact ⟨_, rfl, rfl, rfl, rfl, rfl⟩

theorem applyPreconditions_iff (s : Store) (user : UserId) (jobId : ObjId) :
    ApplyPreconditions s user jobId ↔
      ((findFreelancerProfile s.freelancerProfiles user).map (fun p => p.verificationStatus)
          = some VerificationStatus.approved ∧
        findActiveJob s.jobs user = none ∧
        canFreelancerWork s.ledger user none = true ∧
        (∃ job, findJobById s.jobs jobId = some job ∧ job.status = JobStatus.open) ∧
        findExistingOffer s.offers jobId user = none) := by
  have h1 : (∃ profile, findFreelancerProfile s.freelancerProfiles user = some profile ∧
        profile.verificationStatus = VerificationStatus.approved) ↔
      (findFreelancerProfile s.freelancerProfiles user).map (fun p => p.verificationStatus)
        = some VerificationStatus.approved := by
    cases findFreelancerProfile s.freelancerProfiles user <;> simp
  have h2 : (∀ j ∈ s.jobs, j.freelancerId = some user →
        j.status ≠ JobStatus.assigned ∧ j.status ≠ JobStatus.work_done ∧
          j.status ≠ JobStatus.waiting_for_payment) ↔ findActiveJob s.jobs user = none := by
    unfold findActiveJob
    rw [List.find?_eq_none]
    constructor
    · intro h j hj hc
      simp only [Bool.and_eq_true, decide_eq_true_eq] at hc
      have := h j hj hc.1
      revert this
      have hact := hc.2
      revert hact
      cases j.status <;> simp [JobStatus.isActive]
    · intro h j hj hf
      have := h j hj
      simp only [Bool.and_eq_true, decide_eq_true_eq, not_and] at this
      have hact := this hf
      revert hact
      cases j.status <;> simp [JobStatus.isActive]
  have h3 : (getTotalDue s.ledger user).totalDue < 500 ↔
      canFreelancerWork s.ledger user none = true := by
    simp [canFreelancerWork]
  have h5 : (∀ o ∈ s.offers, o.jobId = jobId → o.freelancerId = user →
        o.status ≠ OfferStatus.pending ∧ o.status ≠ OfferStatus.accepted) ↔
      findExistingOffer s.offers jobId user = none := by
    unfold findExistingOffer
    rw [List.find?_eq_none]
    constructor
    · intro h o ho hc
      simp only [Bool.and_eq_true, decide_eq_true_eq] at hc
      have := h o ho hc.1.1 hc.1.2
      revert this
      have hlive := hc.2
      revert hlive
      cases o.status <;> simp [OfferStatus.isLive]
    · intro h o ho hj hf
      have := h o ho
      simp only [Bool.and_eq_true, decide_eq_true_eq, not_and] at this
      have hlive := this ⟨hj, hf⟩
      revert hlive
      cases o.status <;> simp [OfferStatus.isLive]
  unfold ApplyPreconditions
  rw [h1, h2, h3, h5]

/-- C16. `applyForJob` answers with a created offer if and only if the
caller's profile exists and is approved, the caller has no job in status
assigned, work_done or waiting_for_payment, the commission gate passes, the job
exists with status open, and the caller has no pending or accepted offer on
that job.  In that case exactly one pending offer of the caller on the job is
appended.  In every other case the request is rejected and the store is
returned unchanged: no offer is created and no job is modified. -/
theorem applyForJob_creates_offer_iff (s : Store) (user : UserId) (jobId : ObjId)
    (offeredAmount : Option Int) (message : String) (offerType : Option String) (now : Time) :
    ((∃ offer, (applyForJob s user jobId offeredAmount message offerType now).1
          = ApplyResp.ok offer) ↔ ApplyPreconditions s user jobId) ∧
      (ApplyPreconditions s user jobId →
        ∃ offer, (applyForJob s user jobId offeredAmount message offerType now).1
            = ApplyResp.ok offer ∧
          (applyForJob s user jobId offeredAmount message offerType now).2.offers
            = s.offers ++ [offer] ∧
          offer.status = OfferStatus.pending ∧ offer.jobId = jobId ∧
          offer.freelancerId = user) ∧
      (¬ ApplyPreconditions s user jobId →
        (∀ offer, (applyForJob s user jobId offeredAmount message offerType now).1
            ≠ ApplyResp.ok offer) ∧
          (applyForJob s user jobId offeredAmount message offerType now).2 = s) := by
  rw [applyPreconditions_iff]
  rcases applyForJob_cases s user jobId offeredAmount message offerType now with
    ⟨hc, offer, hresp, hrest⟩ | ⟨hc, hno, hs⟩
  · exact ⟨⟨fun _ => hc, fun _ => ⟨offer, hresp⟩⟩, fun _ => ⟨offer, hresp, hrest⟩,
      fun h => absurd hc h⟩
  · exact ⟨⟨fun ⟨o, ho⟩ => absurd ho (hno o), fun h => absurd h hc⟩, fun h => absurd h hc,
      fun _ => ⟨hno, hs⟩⟩

/-! ## Due dates -/

/-- C24. Overdue rule and default due date: the schema default of `dueDate`
for an entry created at time t is t + 30 days (30 * 24 * 60 * 60 * 1000 ms), and
it is the due date of the entries the handlers create (the commission entry of
a cash payment, the residual of a split), none of which passes a due date;
`isOverdue` read at time `now` holds exactly when the status is pending and
`now` is later than the due date; so a pending entry with the default due date
is overdue exactly at the times strictly later than t + 30 days, and an entry
that is paid or waived is never overdue. -/
theorem overdue_rule (e : LedgerEntry) (t now : Time) :
    defaultDueDate t = t + 30 * 24 * 60 * 60 * 1000 ∧
      (e.isOverdue now = true ↔ e.status = LedgerStatus.pending ∧ now > e.dueDate) ∧
      (({ e with status := LedgerStatus.pending, dueDate := defaultDueDate t } :
            LedgerEntry).isOverdue now = true ↔ now > t + 2592000000) ∧
      (({ e with status := LedgerStatus.paid } : LedgerEntry).isOverdue now = false) ∧
      (({ e with status := LedgerStatus.waived } : LedgerEntry).isOverdue now = false) ∧
      (∀ (r : Int) (ledger : List LedgerEntry),
        (remainingEntryOf e r ledger t).dueDate = defaultDueDate t ∧
          (remainingEntryOf e r ledger t).createdAt = t) ∧
      (∀ (s : Store) (user : UserId) (jobId : ObjId) (data : CashData),
        (payCash s user jobId t).1 = Resp.ok data →
          data.ledgerEntry.dueDate = defaultDueDate t ∧ data.ledgerEntry.createdAt = t) := by
  refine ⟨rfl, ?_, ?_, ?_, ?_, fun _ _ => ⟨rfl, rfl⟩, ?_⟩
  · simp [LedgerEntry.isOverdue]
  · simp [LedgerEntry.isOverdue, defaultDueDate]
  · simp [LedgerEntry.isOverdue]
  · simp [LedgerEntry.isOverdue]
  · intro s user jobId data h
    cases hjob : findClientJob s.jobs jobId user JobStatus.waiting_for_payment with
    | none =>
      simp only [payCash, hjob] at h
      cases h
    | some job =>
      cases hF : job.freelancerId with
      | none =>
        simp only [payCash, hjob, hF] at h
        cases h
      | some F =>
        simp only [payCash, hjob, hF] at h
        cases hp : findFreelancerProfile s.freelancerProfiles F <;>
          (injection h with h; subst h; exact ⟨rfl, rfl⟩)

/-! ## Where the code leaves the intended behaviour of the ledger and the stats -/

/-- C26 (the code at the failing input). A clear-due request of -100 from
freelancer 7, who owes 450 and holds 1000, passes both checks, pays no entry,
and leaves the wallet at 1100 with a recorded transaction of -100. -/
theorem clearDue_negative_amount_raises_balance :
    (findWallet scenarioStore.wallets 7).map (fun w => w.balance) = some 1000 ∧
      (findWallet (clearDue scenarioStore 7 (-100) none 1000).2.wallets 7).map
          (fun w => w.balance) = some 1100 ∧
      (clearDue scenarioStore 7 (-100) none 1000).1.data?.map
          (fun data => (data.amountPaid, data.processedEntries, data.totalDue))
        = some (-100, [], 450) ∧
      (clearDue scenarioStore 7 (-100) none 1000).2.transactions.map
          (fun t => (t.type, t.amount)) = [(TransactionType.commission_payment, -100)] := by
  refine ⟨by decide, by decide, by decide, by decide⟩

/-- C27 (the code at the failing input). For the job of amount 2000 that waits
for payment in `awaitingPaymentStore`, the cash payment credits 1800 and the
freelancer then marks the job completed: the profile ends with `completedJobs`
raised by 2 and `totalEarnings` raised by 1800 + 2000 = 3800. -/
theorem stats_counted_twice :
    (findFreelancerProfile awaitingPaymentStore.freelancerProfiles 10).map
        (fun p => (p.completedJobs, p.totalEarnings)) = some (0, 0) ∧
      (findFreelancerProfile
          (run demoEnv awaitingPaymentStore [Request.payCash 1 0 40]).freelancerProfiles 10).map
        (fun p => (p.completedJobs, p.totalEarnings)) = some (1, 1800) ∧
      (findFreelancerProfile
          (run demoEnv awaitingPaymentStore
            [Request.payCash 1 0 40, Request.markCompleted 10 0 50]).freelancerProfiles 10).map
        (fun p => (p.completedJobs, p.totalEarnings)) = some (2, 3800) ∧
      (findWallet
          (run demoEnv awaitingPaymentStore
            [Request.payCash 1 0 40, Request.markCompleted 10 0 50]).wallets 10).map
        (fun w => w.balance) = some 1800 := by
  refine ⟨by decide, by decide, by decide, by decide⟩

/-! ## The residual entry of a split -/

theorem mem_saveEntry {d e : LedgerEntry} {L : List LedgerEntry} (h : d ∈ saveEntry e L) :
    d = e ∨ d ∈ L := by
  simp only [saveEntry, List.mem_map] at h
  obtain ⟨x, hx, hj⟩ := h
  by_cases hc : x._id = e._id
  · simp only [hc, if_true] at hj; exact Or.inl hj.symm
  · simp only [hc, if_false] at hj; rw [← hj]; exact Or.inr hx

theorem saveEntry_append_fresh (e d : LedgerEntry) (L : List LedgerEntry)
    (hne : d._id ≠ e._id) : saveEntry e (L ++ [d]) = saveEntry e L ++ [d] := by
  simp [saveEntry, hne]

/-- The ledger after a run of the loop: the documents that were there, each
either untouched or stored as paid, followed by at most one new document, the
residual of a split, which is pending, created at the time of the call and due
30 days later. -/
theorem clearDueLoop_residual (pm : Option PaymentMethod) (now : Time) :
    ∀ (es : List LedgerEntry) (r : Int) (L : List LedgerEntry) (P : List ProcessedEntry),
      (L.map (fun d => d._id)).Nodup → (es.map (fun d => d._id)).Nodup → (∀ e ∈ es, e ∈ L) →
      ∃ M : List LedgerEntry, M.map (fun d => d._id) = L.map (fun d => d._id) ∧
        (∀ d ∈ M, d ∈ L ∨ d.status = LedgerStatus.paid) ∧
        (((clearDueLoop (pm.map PaymentMethod.name) now es r L P).1 = M ∧
            ∀ p ∈ (clearDueLoop (pm.map PaymentMethod.name) now es r L P).2.1,
              p ∈ P ∨ p.status = ProcessedStatus.fully_paid) ∨
          ∃ resid e, e ∈ es ∧
            (clearDueLoop (pm.map PaymentMethod.name) now es r L P).1 = M ++ [resid] ∧
            resid.createdAt = now ∧ resid.dueDate = defaultDueDate now ∧
            resid.status = LedgerStatus.pending ∧ resid.freelancerId = e.freelancerId ∧
            resid.jobId = e.jobId ∧ resid._id = freshId (L.map (fun d => d._id)) ∧
            0 < resid.amount ∧ resid.amount < e.amount ∧
            ∃ p ∈ (clearDueLoop (pm.map PaymentMethod.name) now es r L P).2.1,
              p.status = ProcessedStatus.partially_paid ∧ p.id = e._id) := by
  intro es
  induction es with
  | nil =>
    intro r L P _ _ _
    exact ⟨L, rfl, fun d hd => Or.inl hd, Or.inl ⟨rfl, fun p hp => Or.inl hp⟩⟩
  | cons e rest ih =>
    intro r L P hL hes hmem
    have heL : e ∈ L := hmem e (List.mem_cons_self _ _)
    have hes1 := hes
    simp only [List.map_cons, List.nodup_cons] at hes1
    have hrestL : ∀ d ∈ rest, d ∈ L := fun d hd => hmem d (List.mem_cons_of_mem _ hd)
    by_cases hr : r ≤ 0
    · rw [clearDueLoop_break _ now (e :: rest) r L P hr]
      exact ⟨L, rfl, fun d hd => Or.inl hd, Or.inl ⟨rfl, fun p hp => Or.inl hp⟩⟩
    · have hr0 : 0 < r := not_le.mp hr
      by_cases hfull : e.amount ≤ r
      · rw [clearDueLoop_full pm now e rest r L P hr0 hfull]
        have hids1 : (saveEntry (e.asPaid pm (Ref.clearDue now) now) L).map (fun d => d._id)
            = L.map (fun d => d._id) := saveEntry_map_id _ L
        obtain ⟨M, hM, hMmem, hcase⟩ := ih (r - e.amount)
          (saveEntry (e.asPaid pm (Ref.clearDue now) now) L)
          (P ++ [{ id := e._id, amount := e.amount, status := ProcessedStatus.fully_paid }])
          (by rw [hids1]; exact hL) hes1.2 (rest_mem_saveEntry e _ rest L rfl hes hrestL)
        refine ⟨M, hM.trans hids1, ?_, ?_⟩
        · intro d hd
          rcases hMmem d hd with h | h
          · rcases mem_saveEntry h with h1 | h1
            · right; rw [h1]; rfl
            · exact Or.inl h1
          · exact Or.inr h
        · rcases hcase with ⟨h1, h2⟩ | ⟨resid, e2, he2, h1, h2, h3, h4, h5, h6, h7, h8⟩
          · left
            refine ⟨h1, fun p hp => ?_⟩
            rcases h2 p hp with h | h
            · rcases List.mem_append.mp h with h' | h'
              · exact Or.inl h'
              · rw [List.mem_singleton] at h'; right; rw [h']
            · exact Or.inr h
          · right
            refine ⟨resid, e2, List.mem_cons_of_mem _ he2, h1, h2, h3, h4, h5, h6, ?_, h8⟩
            rw [h7, hids1]
      · have hlt : r < e.amount := not_le.mp hfull
        rw [clearDueLoop_split pm now e rest r L P hr0 hlt]
        have hfresh : (remainingEntryOf e r L now)._id
            ≠ (({ e with amount := r } : LedgerEntry).asPaid pm (Ref.clearDue now) now)._id := by
          intro h
          have h1 : freshId (L.map (fun d => d._id)) = e._id := h
          exact freshId_not_mem (L.map (fun d => d._id))
            (by rw [h1]; exact List.mem_map_of_mem (fun d => d._id) heL)
        refine ⟨saveEntry
          (({ e with amount := r } : LedgerEntry).asPaid pm (Ref.clearDue now) now) L,
          saveEntry_map_id _ L, ?_, Or.inr ⟨remainingEntryOf e r L now, e,
            List.mem_cons_self _ _, ?_, rfl, rfl, rfl, rfl, rfl, rfl, ?_, ?_, ?_⟩⟩
        · intro d hd
          rcases mem_saveEntry hd with h1 | h1
          · right; rw [h1]; rfl
          · exact Or.inl h1
        · exact saveEntry_append_fresh _ _ L hfresh
        · show 0 < e.amount - r
          omega
        · show e.amount - r < e.amount
          omega
        · exact ⟨_, List.mem_append_right _ (List.mem_singleton.mpr rfl), rfl, rfl⟩

theorem orderedInsert_append_last (a x : LedgerEntry) (hax : createdBefore a x) :
    ∀ l : List LedgerEntry,
      List.orderedInsert createdBefore a (l ++ [x])
        = List.orderedInsert createdBefore a l ++ [x] := by
  intro l
  induction l with
  | nil => simp [List.orderedInsert, hax]
  | cons b t ih =>
    by_cases hab : createdBefore a b
    · simp [List.orderedInsert, hab]
    · simp [List.orderedInsert, hab, ih]

theorem insertionSort_append_last (x : LedgerEntry) :
    ∀ l : List LedgerEntry, (∀ a ∈ l, createdBefore a x) →
      List.insertionSort createdBefore (l ++ [x])
        = List.insertionSort createdBefore l ++ [x] := by
  intro l
  induction l with
  | nil => intro _; rfl
  | cons b t ih =>
    intro h
    have hb := h b (List.mem_cons_self _ _)
    have ht := ih (fun a ha => h a (List.mem_cons_of_mem _ ha))
    show List.orderedInsert createdBefore b (List.insertionSort createdBefore (t ++ [x]))
      = List.orderedInsert createdBefore b (List.insertionSort createdBefore t) ++ [x]
    rw [ht]
    exact orderedInsert_append_last b x hb _

theorem isPendingOf_iff (F : UserId) (e : LedgerEntry) :
    isPendingOf F e = true ↔ e.freelancerId = F ∧ e.status = LedgerStatus.pending := by
  simp [isPendingOf]

/-- C29 (counterexample). Freelancer 7 owes 100, 300 and 50 (created at times
10, 20 and 30) and clears 250 at time 1000: the 300 entry is split and the
entry of 50, older than the call, remains behind it.  The residual (id 4) is
not the first entry the next call processes: in the order of the next call the
entry of 50 comes first and the residual last, and a next request of 50 pays
the entry of 50 and leaves the residual pending. -/
theorem residual_not_processed_first :
    (clearDue scenarioStore 7 250 none 1000).1.data?.map (fun data => data.processedEntries)
        = some [{ id := 1, amount := 100, status := ProcessedStatus.fully_paid },
                { id := 2, amount := 150, status := ProcessedStatus.partially_paid }] ∧
      (findPendingSorted (clearDue scenarioStore 7 250 none 1000).2.ledger 7).map
          (fun e => (e._id, e.jobId, e.amount, e.createdAt))
        = [(3, 103, 50, 30), (4, 102, 150, 1000)] ∧
      (clearDue (clearDue scenarioStore 7 250 none 1000).2 7 50 none 2000).1.data?.map
          (fun data => data.processedEntries.map (fun p => p.id)) = some [3] ∧
      ¬ ((clearDue (clearDue scenarioStore 7 250 none 1000).2 7 50 none 2000).1.data?.map
          (fun data => (data.processedEntries.map (fun p => p.id)).head?) = some (some 4)) ∧
      (findPendingSorted
          (clearDue (clearDue scenarioStore 7 250 none 1000).2 7 50 none 2000).2.ledger 7).map
          (fun e => (e._id, e.jobId, e.amount)) = [(4, 102, 150)] := by
  refine ⟨by decide, by decide, by decide, by decide, by decide⟩

/-- C29 (amended). When a clear-due call served at time `now`, with a payment
method of the ledger schema or with none, splits an entry and every pending
entry of the caller was created before `now`, the residual
is a new document created at `now`, and the order in which the next clear-due
call takes the pending entries (ascending `createdAt`) puts it last, after
every pending entry that remained behind it; when the call splits nothing, it
adds no document. -/
theorem residual_is_last_in_next_order (s : Store) (user : UserId) (amount : Int)
    (pm : Option PaymentMethod) (now : Time) (wallet : Wallet)
    (hids : (s.ledger.map (fun d => d._id)).Nodup)
    (hold : ∀ e ∈ s.ledger, isPendingOf user e = true → e.createdAt < now)
    (hle : amount ≤ (getTotalDue s.ledger user).totalDue)
    (hw : findWallet s.wallets user = some wallet) (hb : amount ≤ wallet.balance) :
    ∃ data, (clearDue s user amount (pm.map PaymentMethod.name) now).1 = Resp.ok data ∧
      (((∀ p ∈ data.processedEntries, p.status = ProcessedStatus.fully_paid) ∧
          (clearDue s user amount (pm.map PaymentMethod.name) now).2.ledger.length
            = s.ledger.length) ∨
        ∃ rest resid,
          findPendingSorted (clearDue s user amount (pm.map PaymentMethod.name) now).2.ledger user
            = rest ++ [resid] ∧
          resid.createdAt = now ∧
          resid._id ∉ s.ledger.map (fun d => d._id) ∧
          (∀ d ∈ rest, d ∈ s.ledger ∧ d.createdAt < now) ∧
          ∃ p ∈ data.processedEntries, p.status = ProcessedStatus.partially_paid) := by
  obtain ⟨data, hresp, -, hproc, hledger, -⟩ :=
    clearDue_success s user amount pm now wallet hle hw hb
  have hesnd := findPendingSorted_nodup s.ledger user hids
  have hesL : ∀ e ∈ findPendingSorted s.ledger user, e ∈ s.ledger := fun e he =>
    ((mem_findPendingSorted s.ledger user e).mp he).1
  obtain ⟨M, hM, hMmem, hcase⟩ := clearDueLoop_residual pm now
    (findPendingSorted s.ledger user) amount s.ledger [] hids hesnd hesL
  refine ⟨data, hresp, ?_⟩
  rcases hcase with ⟨h1, h2⟩ | ⟨resid, e, he, h1, h2, -, h4, h5, -, h7, -, -, p, hp, hps, -⟩
  · left
    constructor
    · intro p hp
      rw [hproc] at hp
      rcases h2 p hp with h | h
      · cases h
      · exact h
    · rw [hledger, h1]
      have := congrArg List.length hM
      simpa using this
  · right
    have hepend := ((mem_findPendingSorted s.ledger user e).mp he).2
    have hresP : isPendingOf user resid = true := by
      rw [isPendingOf_iff] at hepend ⊢
      exact ⟨h5.trans hepend.1, h4⟩
    have hMold : ∀ a ∈ M.filter (isPendingOf user), a ∈ s.ledger ∧ a.createdAt < now := by
      intro a ha
      obtain ⟨haM, hap⟩ := List.mem_filter.mp ha
      rcases hMmem a haM with h | h
      · exact ⟨h, hold a h hap⟩
      · rw [isPendingOf_iff] at hap
        rw [h] at hap
        exact absurd hap.2 (by decide)
    have hsort : findPendingSorted
        (clearDue s user amount (pm.map PaymentMethod.name) now).2.ledger user
        = List.insertionSort createdBefore (M.filter (isPendingOf user)) ++ [resid] := by
      rw [hledger, h1]
      unfold findPendingSorted
      rw [List.filter_append]
      have : [resid].filter (isPendingOf user) = [resid] := by
        simp [List.filter_cons, hresP]
      rw [this]
      apply insertionSort_append_last
      intro a ha
      show a.createdAt ≤ resid.createdAt
      rw [h2]
      exact le_of_lt (hMold a ha).2
    refine ⟨_, resid, hsort, h2, ?_, ?_, ⟨p, by rw [hproc]; exact hp, hps⟩⟩
    · rw [h7]; exact freshId_not_mem _
    · intro d hd
      exact hMold d ((List.perm_insertionSort createdBefore _).mem_iff.mp hd)

/-- Witness of the amended C29 on the scenario store: clearing 250 at time 1000. -/
theorem residual_is_last_in_next_order_witness :
    ∃ data, (clearDue scenarioStore 7 250 none 1000).1 = Resp.ok data ∧
      (((∀ p ∈ data.processedEntries, p.status = ProcessedStatus.fully_paid) ∧
          (clearDue scenarioStore 7 250 none 1000).2.ledger.length
            = scenarioStore.ledger.length) ∨
        ∃ rest resid,
          findPendingSorted (clearDue scenarioStore 7 250 none 1000).2.ledger 7
            = rest ++ [resid] ∧
          resid.createdAt = 1000 ∧
          resid._id ∉ scenarioStore.ledger.map (fun d => d._id) ∧
          (∀ d ∈ rest, d ∈ scenarioStore.ledger ∧ d.createdAt < 1000) ∧
          ∃ p ∈ data.processedEntries, p.status = ProcessedStatus.partially_paid) :=
  residual_is_last_in_next_order scenarioStore 7 250 none 1000
    { _id := 1, userId := 7, balance := 1000 } (by decide) (by decide) (by decide) (by decide)
    (by decide)

/-- C30 (counterexample). At time 3000000000 the entry of 300 of freelancer 7,
due at 2592000020, is overdue; a clear-due of 250 at that time splits it, and
the residual of 150 (id 4) has another due date, 5592000000, and is not
overdue. -/
theorem residual_due_date_differs :
    (scenarioStore.ledger.map
        (fun e => (e._id, e.amount, e.status, e.dueDate, e.isOverdue 3000000000)))
        = [(1, 100, LedgerStatus.pending, 2592000010, true),
           (2, 300, LedgerStatus.pending, 2592000020, true),
           (3, 50, LedgerStatus.pending, 2592000030, true)] ∧
      ((clearDue scenarioStore 7 250 none 3000000000).2.ledger.map
        (fun e => (e._id, e.amount, e.status, e.dueDate, e.isOverdue 3000000000)))
        = [(1, 100, LedgerStatus.paid, 2592000010, false),
           (2, 150, LedgerStatus.paid, 2592000020, false),
           (3, 50, LedgerStatus.pending, 2592000030, true),
           (4, 150, LedgerStatus.pending, 5592000000, false)] ∧
      ¬ (((clearDue scenarioStore 7 250 none 3000000000).2.ledger.filter
            (fun e => decide (e._id = 4))).map (fun e => e.dueDate)
          = (scenarioStore.ledger.filter (fun e => decide (e._id = 2))).map
              (fun e => e.dueDate)) := by
  refine ⟨by decide, by decide, by decide⟩

/-- C30 (amended). When a clear-due call served at time `now`, with a payment
method of the ledger schema or with none, splits an entry, the new pending
residual is the one document the call adds, and its due date is
the schema default, `now` plus 30 days, whatever the due date of the original
entry was; so the residual is not overdue immediately after the partial
payment.  A call that splits nothing adds no document. -/
theorem residual_gets_default_due_date (s : Store) (user : UserId) (amount : Int)
    (pm : Option PaymentMethod) (now : Time) (wallet : Wallet)
    (hids : (s.ledger.map (fun d => d._id)).Nodup)
    (hle : amount ≤ (getTotalDue s.ledger user).totalDue)
    (hw : findWallet s.wallets user = some wallet) (hb : amount ≤ wallet.balance) :
    ∃ data M, (clearDue s user amount (pm.map PaymentMethod.name) now).1 = Resp.ok data ∧
      M.map (fun d => d._id) = s.ledger.map (fun d => d._id) ∧
      (((clearDue s user amount (pm.map PaymentMethod.name) now).2.ledger = M ∧
          ∀ p ∈ data.processedEntries, p.status = ProcessedStatus.fully_paid) ∨
        ∃ resid, (clearDue s user amount (pm.map PaymentMethod.name) now).2.ledger = M ++ [resid] ∧
          resid.status = LedgerStatus.pending ∧
          resid.dueDate = now + 30 * 24 * 60 * 60 * 1000 ∧
          resid.isOverdue now = false ∧
          ∃ p ∈ data.processedEntries, p.status = ProcessedStatus.partially_paid) := by
  obtain ⟨data, hresp, -, hproc, hledger, -⟩ :=
    clearDue_success s user amount pm now wallet hle hw hb
  have hesnd := findPendingSorted_nodup s.ledger user hids
  have hesL : ∀ e ∈ findPendingSorted s.ledger user, e ∈ s.ledger := fun e he =>
    ((mem_findPendingSorted s.ledger user e).mp he).1
  obtain ⟨M, hM, -, hcase⟩ := clearDueLoop_residual pm now
    (findPendingSorted s.ledger user) amount s.ledger [] hids hesnd hesL
  refine ⟨data, M, hresp, hM, ?_⟩
  rcases hcase with ⟨h1, h2⟩ | ⟨resid, e, -, h1, -, h3, h4, -, -, -, -, -, p, hp, hps, -⟩
  · left
    refine ⟨by rw [hledger, h1], fun p hp => ?_⟩
    rw [hproc] at hp
    rcases h2 p hp with h | h
    · cases h
    · exact h
  · right
    refine ⟨resid, by rw [hledger, h1], h4, h3, ?_, ⟨p, by rw [hproc]; exact hp, hps⟩⟩
    simp [LedgerEntry.isOverdue, h3, defaultDueDate]

/-- Witness of the amended C30 on the scenario store: clearing 250 at time
3000000000, when all three entries are overdue. -/
theorem residual_gets_default_due_date_witness :
    ∃ data M, (clearDue scenarioStore 7 250 none 3000000000).1 = Resp.ok data ∧
      M.map (fun d => d._id) = scenarioStore.ledger.map (fun d => d._id) ∧
      (((clearDue scenarioStore 7 250 none 3000000000).2.ledger = M ∧
          ∀ p ∈ data.processedEntries, p.status = ProcessedStatus.fully_paid) ∨
        ∃ resid, (clearDue scenarioStore 7 250 none 3000000000).2.ledger = M ++ [resid] ∧
          resid.status = LedgerStatus.pending ∧
          resid.dueDate = 3000000000 + 30 * 24 * 60 * 60 * 1000 ∧
          resid.isOverdue 3000000000 = false ∧
          ∃ p ∈ data.processedEntries, p.status = ProcessedStatus.partially_paid) :=
  residual_gets_default_due_date scenarioStore 7 250 none 3000000000
    { _id := 1, userId := 7, balance := 1000 } (by decide) (by decide) (by decide) (by decide)

/-! ## Direct apply -/

/-- C23. Direct-apply fast path: an application that passes every check
answers with the created offer, whose type is the requested one or
`direct_apply` when the body has none; when that type is `direct_apply` the
job is stored with the applicant as freelancer, status assigned and
`assignedAt` the request time, and no other job changes; with any other type
the jobs, the status and freelancer of this job among them, are unchanged. -/
theorem applyForJob_direct_apply (s : Store) (user : UserId) (jobId : ObjId)
    (offeredAmount : Option Int) (message : String) (offerType : Option String) (now : Time)
    (job : Job) (hpre : ApplyPreconditions s user jobId)
    (hjob : findJobById s.jobs jobId = some job) :
    (∃ offer, (applyForJob s user jobId offeredAmount message offerType now).1
        = ApplyResp.ok offer ∧ offer.offerType = offerType.getD "direct_apply") ∧
      (none : Option String).getD "direct_apply" = "direct_apply" ∧
      (offerType.getD "direct_apply" = "direct_apply" →
        findJobById (applyForJob s user jobId offeredAmount message offerType now).2.jobs jobId
            = some { job with
                freelancerId := some user, status := JobStatus.assigned,
                assignedAt := some now } ∧
          (applyForJob s user jobId offeredAmount message offerType now).2.jobs
            = s.jobs.map (fun j =>
                if j._id = jobId then
                  { job with
                    freelancerId := some user, status := JobStatus.assigned,
                    assignedAt := some now }
                else j)) ∧
      (offerType.getD "direct_apply" ≠ "direct_apply" →
        (applyForJob s user jobId offeredAmount message offerType now).2.jobs = s.jobs) := by
  obtain ⟨hp, ha, hc, ⟨job1, hj1, hs⟩, he⟩ := (applyPreconditions_iff s user jobId).mp hpre
  have hjj : job1 = job := by rw [hjob] at hj1; exact (Option.some.inj hj1).symm
  subst hjj
  have hid : job1._id = jobId := findJobById_id hjob
  by_cases hd : offerType.getD "direct_apply" = "direct_apply"
  · have hres : ∃ offer : Offer,
        applyForJob s user jobId offeredAmount message offerType now
          = (ApplyResp.ok offer, { s with
              offers := s.offers ++ [offer]
              jobs := saveJob { job1 with
                freelancerId := some user, status := JobStatus.assigned,
                assignedAt := some now } s.jobs }) ∧
        offer.offerType = offerType.getD "direct_apply" := by
      simp only [applyForJob, ne_eq, hp, not_true_eq_false, if_false, ha, hc, Bool.not_true,
        Bool.false_eq_true, hjob, hs, he, hd, if_true]
      exact ⟨_, rfl, rfl⟩
    obtain ⟨offer, hres, hty⟩ := hres
    rw [hres]
    refine ⟨⟨offer, rfl, hty⟩, rfl, fun _ => ⟨?_, ?_⟩, fun h => absurd hd h⟩
    · show findJobById (saveJob _ s.jobs) jobId = _
      rw [← hid]
      exact findJobById_saveJob s.jobs job1 _ _ hjob rfl
    · show saveJob _ s.jobs = _
      simp only [saveJob, hid]
  · have hres : ∃ offer : Offer,
        applyForJob s user jobId offeredAmount message offerType now
          = (ApplyResp.ok offer, { s with offers := s.offers ++ [offer] }) ∧
        offer.offerType = offerType.getD "direct_apply" := by
      simp only [applyForJob, ne_eq, hp, not_true_eq_false, if_false, ha, hc, Bool.not_true,
        Bool.false_eq_true, hjob, hs, he, hd]
      exact ⟨_, rfl, rfl⟩
    obtain ⟨offer, hres, hty⟩ := hres
    rw [hres]
    exact ⟨⟨offer, rfl, hty⟩, rfl, fun h => absurd h hd, fun _ => rfl⟩

/-- Witness of C23: freelancer 10 applies to the open job 0 of `marketStore`
without naming an offer type. -/
theorem applyForJob_direct_apply_witness :
    findJobById (applyForJob marketStore 10 0 none "" none 21).2.jobs 0
      = some { paintJob with
          freelancerId := some 10, status := JobStatus.assigned, assignedAt := some 21 } :=
  ((applyForJob_direct_apply marketStore 10 0 none "" none 21 paintJob
    ((applyPreconditions_iff marketStore 10 0).mpr
      ⟨by decide, by decide, by decide, ⟨paintJob, by decide, by decide⟩, by decide⟩)
    (by decide)).2.2.1 (by decide)).1

/-! ## Marking a job completed -/

theorem findFreelancerProfile_save (ps : List FreelancerProfile) (user : UserId)
    (profile profile1 : FreelancerProfile)
    (h : findFreelancerProfile ps user = some profile) (hid : profile1._id = profile._id)
    (hu : profile1.userId = profile.userId) :
    findFreelancerProfile (saveFreelancerProfile profile1 ps) user = some profile1 := by
  have hpu : profile.userId = user := by
    have := List.find?_some h
    simpa using this
  unfold findFreelancerProfile saveFreelancerProfile at *
  exact find?_map_replace (fun d : FreelancerProfile => d._id) _ profile profile1 hid
    (by simp [hu, hpu]) ps h

/-- C25. `markCompleted` succeeds exactly when a job with the given id, the
caller as freelancer and status paid exists.  On success the job is stored as
completed with `completedAt` the request time, and the caller's profile, when
there is one, has `completedJobs` raised by 1 and `totalEarnings` raised by the
job's amount, nothing else changing; otherwise the request is rejected and the
store, job and profile included, is returned unchanged. -/
theorem markCompleted_spec (s : Store) (user : UserId) (jobId : ObjId) (now : Time) :
    ((∃ job, (markCompleted s user jobId now).1 = Resp.ok job) ↔
        ∃ job ∈ s.jobs, job._id = jobId ∧ job.freelancerId = some user ∧
          job.status = JobStatus.paid) ∧
      (∀ job,
        s.jobs.find? (fun j =>
          decide (j._id = jobId) && decide (j.freelancerId = some user) &&
            decide (j.status = JobStatus.paid)) = some job →
        (markCompleted s user jobId now).1
            = Resp.ok { job with status := JobStatus.completed, completedAt := some now } ∧
          findJobById (markCompleted s user jobId now).2.jobs jobId
            = some { job with status := JobStatus.completed, completedAt := some now } ∧
          findFreelancerProfile (markCompleted s user jobId now).2.freelancerProfiles user
            = (findFreelancerProfile s.freelancerProfiles user).map (fun p =>
                { p with
                  completedJobs := p.completedJobs + 1
                  totalEarnings := p.totalEarnings + job.amount }) ∧
          (markCompleted s user jobId now).2.offers = s.offers ∧
          (markCompleted s user jobId now).2.ledger = s.ledger ∧
          (markCompleted s user jobId now).2.wallets = s.wallets ∧
          (markCompleted s user jobId now).2.transactions = s.transactions) ∧
      ((¬ ∃ job ∈ s.jobs, job._id = jobId ∧ job.freelancerId = some user ∧
          job.status = JobStatus.paid) →
        markCompleted s user jobId now
          = (Resp.rejected 400 "Job not found or payment not received yet", s)) := by
  cases hfind : s.jobs.find? (fun j =>
      decide (j._id = jobId) && decide (j.freelancerId = some user) &&
        decide (j.status = JobStatus.paid)) with
  | none =>
    have hno : ¬ ∃ job ∈ s.jobs, job._id = jobId ∧ job.freelancerId = some user ∧
        job.status = JobStatus.paid := by
      rintro ⟨job, hj, h1, h2, h3⟩
      have := List.find?_eq_none.mp hfind job hj
      simp [h1, h2, h3] at this
    have hres : markCompleted s user jobId now
        = (Resp.rejected 400 "Job not found or payment not received yet", s) := by
      simp only [markCompleted, hfind]
    rw [hres]
    refine ⟨⟨fun ⟨_, h⟩ => (by cases h), fun h => absurd h hno⟩, fun job h => (by cases h),
      fun _ => rfl⟩
  | some job =>
    have hprop := List.find?_some hfind
    simp only [Bool.and_eq_true, decide_eq_true_eq] at hprop
    have hmem : job ∈ s.jobs := List.mem_of_find?_eq_some hfind
    have hyes : ∃ job ∈ s.jobs, job._id = jobId ∧ job.freelancerId = some user ∧
        job.status = JobStatus.paid := ⟨job, hmem, hprop.1.1, hprop.1.2, hprop.2⟩
    have hjobfind : findJobById
        (saveJob { job with status := JobStatus.completed, completedAt := some now } s.jobs)
        jobId = some { job with status := JobStatus.completed, completedAt := some now } := by
      rw [← hprop.1.1]
      exact findJobById_saveJob s.jobs job _ _ hfind rfl
    cases hp : findFreelancerProfile s.freelancerProfiles user with
    | none =>
      have hres : markCompleted s user jobId now
          = (Resp.ok { job with status := JobStatus.completed, completedAt := some now },
              { s with
                jobs := (saveJob
                  { job with status := JobStatus.completed, completedAt := some now } s.jobs) })
          := by
        simp only [markCompleted, hfind, hp]
      rw [hres]
      refine ⟨⟨fun _ => hyes, fun _ => ⟨_, rfl⟩⟩, fun job1 h => ?_, fun h => absurd hyes h⟩
      cases h
      exact ⟨rfl, hjobfind, by simp [hp], rfl, rfl, rfl, rfl⟩
    | some profile =>
      have hres : markCompleted s user jobId now
          = (Resp.ok { job with status := JobStatus.completed, completedAt := some now },
              { s with
                jobs := (saveJob
                  { job with status := JobStatus.completed, completedAt := some now } s.jobs)
                freelancerProfiles := (saveFreelancerProfile
                  { profile with
                    completedJobs := profile.completedJobs + 1
                    totalEarnings := profile.totalEarnings + job.amount }
                  s.freelancerProfiles) }) := by
        simp only [markCompleted, hfind, hp]
      rw [hres]
      refine ⟨⟨fun _ => hyes, fun _ => ⟨_, rfl⟩⟩, fun job1 h => ?_, fun h => absurd hyes h⟩
      cases h
      refine ⟨rfl, hjobfind, ?_, rfl, rfl, rfl, rfl⟩
      show findFreelancerProfile (saveFreelancerProfile _ s.freelancerProfiles) user = _
      rw [findFreelancerProfile_save s.freelancerProfiles user profile
        { profile with
          completedJobs := profile.completedJobs + 1
          totalEarnings := profile.totalEarnings + job.amount } hp rfl rfl]
      rfl

/-! ## No job is ever in status work_done -/

theorem step_no_work_done (env : Env) (s : Store) (req : Request)
    (hwd : ∀ j ∈ s.jobs, j.status ≠ JobStatus.work_done) :
    ∀ j ∈ (step env s req).jobs, j.status ≠ JobStatus.work_done := by
  have same : ∀ (s1 : Store), s1.jobs = s.jobs →
      ∀ j ∈ s1.jobs, j.status ≠ JobStatus.work_done := by
    intro s1 h1
    rw [h1]
    exact hwd
  have jobsOk : ∀ (s1 : Store) (st : JobStatus), st ≠ JobStatus.work_done →
      (∀ j ∈ s1.jobs, j ∈ s.jobs ∨ j.status = st) →
      ∀ j ∈ s1.jobs, j.status ≠ JobStatus.work_done := by
    intro s1 st hst h2 j hj
    rcases h2 j hj with h | h
    · exact hwd j h
    · rw [h]; exact hst
  cases req with
  | clientProfilePost user => exact same _ (clientProfilePost_frame s user).2
  | createTestProfile user vs => exact same _ (createTestProfile_frame s user vs).2
  | postJob user title description amount n now =>
    exact jobsOk _ JobStatus.open (by decide)
      (postJob_frame s user title description amount n now).2
  | applyForJob user jobId offeredAmount message offerType now =>
    exact jobsOk _ JobStatus.assigned (by decide)
      (applyForJob_jobs s user jobId offeredAmount message offerType now)
  | respondToOffer user offerId action msg now =>
    exact jobsOk _ JobStatus.assigned (by decide)
      (respondToOffer_jobs s user offerId action msg now)
  | markWorkDone user jobId now =>
    exact jobsOk _ JobStatus.waiting_for_payment (by decide)
      (markWorkDone_frame s user jobId now).2
  | markCompleted user jobId now =>
    exact jobsOk _ JobStatus.completed (by decide) (markCompleted_frame s user jobId now).2
  | payPhonepe user jobId gatewayOk now =>
    exact jobsOk _ JobStatus.waiting_for_payment (by decide)
      (payPhonepe_frame s user jobId gatewayOk now).2
  | pay user jobId now =>
    simp only [step]
    rw [pay_of_no_work_done env.commissionService s user jobId now hwd]
    exact hwd
  | payCash user jobId now =>
    exact jobsOk _ JobStatus.paid (by decide) (payCash_frame s user jobId now).2
  | paymentCallback data now =>
    exact jobsOk _ JobStatus.paid (by decide)
      (paymentCallback_frame env.generateChecksum s data now).2
  | getWallet user => exact same _ (getWallet_frame s user).2
  | withdraw user amount now => exact same _ (withdraw_frame s user amount now).2
  | clearDue user amount pm now => exact same _ (clearDue_frame s user amount pm now).2

theorem run_no_work_done (env : Env) (requests : List Request) :
    ∀ s : Store, (∀ j ∈ s.jobs, j.status ≠ JobStatus.work_done) →
      ∀ j ∈ (run env s requests).jobs, j.status ≠ JobStatus.work_done := by
  induction requests with
  | nil => intro s h; exact h
  | cons req rest ih =>
    intro s h
    exact ih (step env s req) (step_no_work_done env s req h)

/-- C28. The status work_done is unreachable: in every store that a sequence
of requests to the handlers builds from a store without jobs, no job has status
work_done (a successful `markWorkDone` answers with a job that waits for
payment), and so the wallet payment handler `POST /jobs/:jobId/pay` rejects
every request there with "Job not found or not ready for payment", leaving the
store as it is. -/
theorem work_done_unreachable (env : Env) (s : Store) (requests : List Request)
    (hs : s.jobs = []) :
    (∀ j ∈ (run env s requests).jobs, j.status ≠ JobStatus.work_done) ∧
      (∀ (user : UserId) (jobId : ObjId) (now : Time),
        pay env.commissionService (run env s requests) user jobId now
          = (Resp.rejected 400 "Job not found or not ready for payment",
              run env s requests)) ∧
      (∀ (s1 : Store) (user : UserId) (jobId : ObjId) (now : Time) (job : Job),
        (markWorkDone s1 user jobId now).1 = Resp.ok job →
          job.status = JobStatus.waiting_for_payment) := by
  have hwd : ∀ j ∈ (run env s requests).jobs, j.status ≠ JobStatus.work_done :=
    run_no_work_done env requests s (by rw [hs]; intro j hj; cases hj)
  refine ⟨hwd, fun user jobId now =>
    pay_of_no_work_done env.commissionService _ user jobId now hwd, ?_⟩
  intro s1 user jobId now job h
  simp only [markWorkDone] at h
  split at h
  · cases h
  · injection h with h
    rw [← h]

/-- Witness of C28: after the run `twoAcceptsRun` from the empty store the
wallet payment of job 0 by client 1 is rejected. -/
theorem work_done_unreachable_witness :
    pay demoEnv.commissionService (run demoEnv Store.empty twoAcceptsRun) 1 0 40
      = (Resp.rejected 400 "Job not found or not ready for payment",
          run demoEnv Store.empty twoAcceptsRun) :=
  (work_done_unreachable demoEnv Store.empty twoAcceptsRun rfl).2.1 1 0 40

/-! ## Decided offers stay as they are -/

theorem findOfferById_of_mem :
    ∀ (offers : List Offer), (offers.map (fun o => o._id)).Nodup →
      ∀ o ∈ offers, findOfferById offers o._id = some o := by
  intro offers
  induction offers with
  | nil => intro _ o ho; cases ho
  | cons a t ih =>
    intro hnd o ho
    simp only [List.map_cons, List.nodup_cons] at hnd
    simp only [findOfferById, List.find?_cons]
    rcases List.mem_cons.mp ho with h | h
    · subst h
      simp
    · have hne : a._id ≠ o._id := by
        intro heq
        apply hnd.1
        rw [heq]
        exact List.mem_map_of_mem (fun o => o._id) h
      simp only [hne, decide_False]
      exact ih hnd.2 o h

theorem rejectOtherOffers_map (offers : List Offer) (jobId offerId : ObjId) (now : Time) :
    ∃ f : Offer → Offer, (∀ o, o.status ≠ OfferStatus.pending → f o = o) ∧
      (∀ o, f o = o ∨ (o.jobId = jobId ∧ o._id ≠ offerId ∧ o.status = OfferStatus.pending ∧
        (f o).status = OfferStatus.rejected)) ∧
      rejectOtherOffers offers jobId offerId now = offers.map f := by
  refine ⟨fun o =>
    if o.jobId = jobId ∧ o._id ≠ offerId ∧ o.status = OfferStatus.pending then
      { o with
        status := OfferStatus.rejected
        respondedAt := some now
        responseMessage := some "Another offer was accepted" }
    else o, ?_, ?_, rfl⟩
  · intro o ho
    have : ¬ (o.jobId = jobId ∧ o._id ≠ offerId ∧ o.status = OfferStatus.pending) :=
      fun h => ho h.2.2
    simp only [this, if_false]
  · intro o
    by_cases h : o.jobId = jobId ∧ o._id ≠ offerId ∧ o.status = OfferStatus.pending
    · dsimp only
      rw [if_pos h]
      exact Or.inr ⟨h.1, h.2.1, h.2.2, rfl⟩
    · dsimp only
      rw [if_neg h]
      exact Or.inl rfl

theorem respondToOffer_keeps_decided (s : Store) (user : UserId) (offerId : ObjId)
    (action : String) (msg : Option String) (now : Time)
    (hnd : (s.offers.map (fun o => o._id)).Nodup) (o : Offer) (ho : o ∈ s.offers)
    (hp : o.status ≠ OfferStatus.pending) :
    o ∈ (respondToOffer s user offerId action msg now).2.offers := by
  simp only [respondToOffer]
  split
  · exact ho
  · rename_i offer hoffer
    have hmem : offer ∈ s.offers := List.mem_of_find?_eq_some hoffer
    split
    · exact ho
    · rename_i job hjob
      split
      · exact ho
      · split
        · exact ho
        · rename_i hpend
          have hpending : offer.status = OfferStatus.pending := not_not.mp hpend
          have hne : o._id ≠ offer._id := by
            intro heq
            have := List.inj_on_of_nodup_map hnd ho hmem heq
            rw [this] at hp
            exact hp hpending
          have hself : ∀ (offer1 : Offer) (l : List Offer), o ∈ l →
              offer1._id = offer._id → o ∈ saveOffer offer1 l := by
            intro offer1 l hl h1
            simp only [saveOffer, List.mem_map]
            refine ⟨o, hl, ?_⟩
            rw [h1]
            simp only [hne, if_false]
          split
          · refine hself _ (rejectOtherOffers s.offers job._id offerId now) ?_ ?_
            · simp only [rejectOtherOffers, List.mem_map]
              refine ⟨o, ho, ?_⟩
              have : ¬ (o.jobId = job._id ∧ o._id ≠ offerId ∧
                  o.status = OfferStatus.pending) := fun h => hp h.2.2
              simp only [this, if_false]
            · rfl
          · split
            · refine hself _ s.offers ho ?_
              rfl
            · refine hself _ s.offers ho ?_
              rfl

theorem step_keeps_decided (env : Env) (s : Store) (req : Request)
    (hnd : (s.offers.map (fun o => o._id)).Nodup)
    (hwd : ∀ j ∈ s.jobs, j.status ≠ JobStatus.work_done) (o : Offer) (ho : o ∈ s.offers)
    (hp : o.status ≠ OfferStatus.pending) : o ∈ (step env s req).offers := by
  have same : ∀ (s1 : Store), s1.offers = s.offers → o ∈ s1.offers := by
    intro s1 h1
    rw [h1]
    exact ho
  cases req with
  | clientProfilePost user => exact same _ (clientProfilePost_frame s user).1
  | createTestProfile user vs => exact same _ (createTestProfile_frame s user vs).1
  | postJob user title description amount n now =>
    exact same _ (postJob_frame s user title description amount n now).1
  | applyForJob user jobId offeredAmount message offerType now =>
    simp only [step]
    rcases applyForJob_offers s user jobId offeredAmount message offerType now with h | h
    · rw [h]; exact ho
    · obtain ⟨-, offer, -, -, -, heq⟩ := h
      rw [heq]
      exact List.mem_append_left _ ho
  | respondToOffer user offerId action msg now =>
    exact respondToOffer_keeps_decided s user offerId action msg now hnd o ho hp
  | markWorkDone user jobId now => exact same _ (markWorkDone_frame s user jobId now).1
  | markCompleted user jobId now => exact same _ (markCompleted_frame s user jobId now).1
  | payPhonepe user jobId gatewayOk now =>
    exact same _ (payPhonepe_frame s user jobId gatewayOk now).1
  | pay user jobId now =>
    simp only [step]
    rw [pay_of_no_work_done env.commissionService s user jobId now hwd]
    exact ho
  | payCash user jobId now => exact same _ (payCash_frame s user jobId now).1
  | paymentCallback data now =>
    exact same _ (paymentCallback_frame env.generateChecksum s data now).1
  | getWallet user => exact same _ (getWallet_frame s user).1
  | withdraw user amount now => exact same _ (withdraw_frame s user amount now).1
  | clearDue user amount pm now => exact same _ (clearDue_frame s user amount pm now).1

theorem run_keeps_decided (env : Env) (requests : List Request) :
    ∀ s : Store, (s.offers.map (fun o => o._id)).Nodup → OfferExclusive s.offers →
      (∀ j ∈ s.jobs, j.status ≠ JobStatus.work_done) →
      ∀ o ∈ s.offers, o.status ≠ OfferStatus.pending → o ∈ (run env s requests).offers := by
  induction requests with
  | nil => intro s _ _ _ o ho _; exact ho
  | cons req rest ih =>
    intro s h1 h2 h3 o ho hp
    obtain ⟨a, b, c⟩ := step_preserves env s req h1 h2 h3
    exact ih (step env s req) a b c o (step_keeps_decided env s req h1 h3 o ho hp) hp

theorem offerExclusive_nil : OfferExclusive [] := by
  intro jobId freelancerId
  simp

/-- C22. Offers are terminal once decided.  In every store `s` that a sequence
of requests builds from the empty store: an offer of `s` whose status is
accepted or rejected is still the offer found under its id after any further
sequence of requests; `respondToOffer` on an offer that is not pending leaves
the whole store as it is and never succeeds, and its answer is the rejection
"Offer has already been responded to" exactly when the job of the offer exists
and belongs to the caller.  The bulk rejection done on accept maps every offer
that is not pending to itself, and changes an offer only if it is pending. -/
theorem decided_offers_are_terminal (env : Env) (s : Store) (hreach : Reachable env s) :
    (∀ (requests : List Request) (o : Offer), o ∈ s.offers →
        o.status ≠ OfferStatus.pending →
        findOfferById (run env s requests).offers o._id = some o) ∧
      (∀ (user : UserId) (offerId : ObjId) (action : String) (msg : Option String)
          (now : Time) (offer : Offer),
        findOfferById s.offers offerId = some offer → offer.status ≠ OfferStatus.pending →
        (respondToOffer s user offerId action msg now).2 = s ∧
          (∀ o, (respondToOffer s user offerId action msg now).1 ≠ Resp.ok o) ∧
          ((respondToOffer s user offerId action msg now).1
              = Resp.rejected 400 "Offer has already been responded to" ↔
            ∃ job, findJobById s.jobs offer.jobId = some job ∧ job.clientId = user)) ∧
      (∀ (offers : List Offer) (jobId offerId : ObjId) (now : Time),
        ∃ f : Offer → Offer, (∀ o, o.status ≠ OfferStatus.pending → f o = o) ∧
          (∀ o, f o = o ∨ (o.jobId = jobId ∧ o._id ≠ offerId ∧
            o.status = OfferStatus.pending ∧ (f o).status = OfferStatus.rejected)) ∧
          rejectOtherOffers offers jobId offerId now = offers.map f) := by
  obtain ⟨past, hpast⟩ := hreach
  have hinv := run_preserves env past Store.empty List.nodup_nil offerExclusive_nil
    (fun j hj => by cases hj)
  rw [hpast] at hinv
  obtain ⟨hnd, hex, hwd⟩ := hinv
  refine ⟨?_, ?_, rejectOtherOffers_map⟩
  · intro requests o ho hp
    have hmem := run_keeps_decided env requests s hnd hex hwd o ho hp
    exact findOfferById_of_mem _ (run_preserves env requests s hnd hex hwd).1 o hmem
  · intro user offerId action msg now offer hoffer hp
    cases hj : findJobById s.jobs offer.jobId with
    | none =>
      have heq : respondToOffer s user offerId action msg now
          = (Resp.serverError "Failed to respond to offer", s) := by
        simp only [respondToOffer, hoffer, hj]
      rw [heq]
      refine ⟨rfl, fun o h => Resp.noConfusion h, ?_⟩
      constructor
      · intro h
        exact Resp.noConfusion h
      · rintro ⟨job, hjob, -⟩
        cases hjob
    | some job =>
      by_cases hc : job.clientId = user
      · have heq : respondToOffer s user offerId action msg now
            = (Resp.rejected 400 "Offer has already been responded to", s) := by
          simp only [respondToOffer, hoffer, hj, hc, ne_eq, not_true_eq_false, if_false, hp,
            not_false_eq_true, if_true]
        rw [heq]
        exact ⟨rfl, fun o h => Resp.noConfusion h, ⟨fun _ => ⟨job, rfl, hc⟩, fun _ => rfl⟩⟩
      · have heq : respondToOffer s user offerId action msg now
            = (Resp.rejected 404 "Offer not found", s) := by
          simp only [respondToOffer, hoffer, hj, ne_eq, hc, not_false_eq_true, if_true]
        rw [heq]
        refine ⟨rfl, fun o h => Resp.noConfusion h, ?_⟩
        constructor
        · intro h
          have h2 : (404 : Nat) = 400 := by
            injection h
          exact absurd h2 (by decide)
        · rintro ⟨job1, hjob1, hc1⟩
          cases hjob1
          exact absurd hc1 hc

/-- Witness of C22: in the store after `twoAcceptsRun`, where offer 0 is
accepted, a further response of client 1 to offer 0 is rejected. -/
theorem decided_offers_are_terminal_witness :
    (respondToOffer (run demoEnv Store.empty twoAcceptsRun) 1 0 "reject" none 40).2
        = run demoEnv Store.empty twoAcceptsRun ∧
      findOfferById (run demoEnv (run demoEnv Store.empty twoAcceptsRun)
          [Request.respondToOffer 1 0 "reject" none 40,
           Request.applyForJob 10 0 none "" none 41]).offers 0
        = some { firstOffer with status := OfferStatus.accepted, respondedAt := some 30 } :=
  ⟨((decided_offers_are_terminal demoEnv (run demoEnv Store.empty twoAcceptsRun)
      ⟨twoAcceptsRun, rfl⟩).2.1 1 0 "reject" none 40
      { firstOffer with status := OfferStatus.accepted, respondedAt := some 30 }
      (by decide) (by decide)).1,
    (decided_offers_are_terminal demoEnv (run demoEnv Store.empty twoAcceptsRun)
      ⟨twoAcceptsRun, rfl⟩).1
      [Request.respondToOffer 1 0 "reject" none 40, Request.applyForJob 10 0 none "" none 41]
      { firstOffer with status := OfferStatus.accepted, respondedAt := some 30 }
      (by decide) (by decide)⟩

/-! ## The cash payment and its precondition -/

theorem markWorkDone_assignee (s : Store) (user : UserId) (jobId : ObjId) (now : Time) :
    ∀ j ∈ (markWorkDone s user jobId now).2.jobs,
      j ∈ s.jobs ∨ j.freelancerId = some user := by
  simp only [markWorkDone]
  split
  · exact fun j hj => Or.inl hj
  · rename_i job hjob
    have hfree : job.freelancerId = some user := by
      have := List.find?_some hjob
      simp only [Bool.and_eq_true, decide_eq_true_eq] at this
      exact this.1.2
    intro j hj
    rcases mem_saveJob hj with h | h
    · rw [h]; exact Or.inr hfree
    · exact Or.inl h

theorem payPhonepe_assignee (s : Store) (user : UserId) (jobId : ObjId) (gatewayOk : Bool)
    (now : Time) :
    ∀ j ∈ (payPhonepe s user jobId gatewayOk now).2.jobs,
      j ∈ s.jobs ∨ ∃ job ∈ s.jobs, job.status = JobStatus.waiting_for_payment ∧
        j.freelancerId = job.freelancerId := by
  simp only [payPhonepe]
  split
  · exact fun j hj => Or.inl hj
  · rename_i job hjob
    have hmem : job ∈ s.jobs := List.mem_of_find?_eq_some hjob
    have hst : job.status = JobStatus.waiting_for_payment := (findClientJob_some hjob).2.2
    split
    · exact fun j hj => Or.inl hj
    · split
      · intro j hj
        rcases mem_saveJob hj with h | h
        · rw [h]; exact Or.inr ⟨job, hmem, hst, rfl⟩
        · exact Or.inl h
      · exact fun j hj => Or.inl hj

/-- One request keeps the fact that every job that waits for payment has a
freelancer, in a store without a job in status work_done. -/
theorem step_keeps_assignee (env : Env) (s : Store) (req : Request)
    (hwd : ∀ j ∈ s.jobs, j.status ≠ JobStatus.work_done)
    (hinv : ∀ j ∈ s.jobs, j.status = JobStatus.waiting_for_payment → j.freelancerId ≠ none) :
    ∀ j ∈ (step env s req).jobs,
      j.status = JobStatus.waiting_for_payment → j.freelancerId ≠ none := by
  have same : ∀ (s1 : Store), s1.jobs = s.jobs →
      ∀ j ∈ s1.jobs, j.status = JobStatus.waiting_for_payment → j.freelancerId ≠ none := by
    intro s1 h1
    rw [h1]
    exact hinv
  have jobsOk : ∀ (s1 : Store) (st : JobStatus), st ≠ JobStatus.waiting_for_payment →
      (∀ j ∈ s1.jobs, j ∈ s.jobs ∨ j.status = st) →
      ∀ j ∈ s1.jobs, j.status = JobStatus.waiting_for_payment → j.freelancerId ≠ none := by
    intro s1 st hst h2 j hj hw
    rcases h2 j hj with h | h
    · exact hinv j h hw
    · rw [h] at hw
      exact absurd hw hst
  cases req with
  | clientProfilePost user => exact same _ (clientProfilePost_frame s user).2
  | createTestProfile user vs => exact same _ (createTestProfile_frame s user vs).2
  | postJob user title description amount n now =>
    exact jobsOk _ JobStatus.open (by decide)
      (postJob_frame s user title description amount n now).2
  | applyForJob user jobId offeredAmount message offerType now =>
    exact jobsOk _ JobStatus.assigned (by decide)
      (applyForJob_jobs s user jobId offeredAmount message offerType now)
  | respondToOffer user offerId action msg now =>
    exact jobsOk _ JobStatus.assigned (by decide)
      (respondToOffer_jobs s user offerId action msg now)
  | markWorkDone user jobId now =>
    intro j hj hw
    rcases markWorkDone_assignee s user jobId now j hj with h | h
    · exact hinv j h hw
    · rw [h]; exact Option.some_ne_none user
  | markCompleted user jobId now =>
    exact jobsOk _ JobStatus.completed (by decide) (markCompleted_frame s user jobId now).2
  | payPhonepe user jobId gatewayOk now =>
    intro j hj hw
    rcases payPhonepe_assignee s user jobId gatewayOk now j hj with h | ⟨job, hjob, hst, hf⟩
    · exact hinv j h hw
    · rw [hf]; exact hinv job hjob hst
  | pay user jobId now =>
    simp only [step]
    rw [pay_of_no_work_done env.commissionService s user jobId now hwd]
    exact hinv
  | payCash user jobId now =>
    exact jobsOk _ JobStatus.paid (by decide) (payCash_frame s user jobId now).2
  | paymentCallback data now =>
    exact jobsOk _ JobStatus.paid (by decide)
      (paymentCallback_frame env.generateChecksum s data now).2
  | getWallet user => exact same _ (getWallet_frame s user).2
  | withdraw user amount now => exact same _ (withdraw_frame s user amount now).2
  | clearDue user amount pm now => exact same _ (clearDue_frame s user amount pm now).2

theorem run_keeps_assignee (env : Env) (requests : List Request) :
    ∀ s : Store, (∀ j ∈ s.jobs, j.status ≠ JobStatus.work_done) →
      (∀ j ∈ s.jobs, j.status = JobStatus.waiting_for_payment → j.freelancerId ≠ none) →
      ∀ j ∈ (run env s requests).jobs,
        j.status = JobStatus.waiting_for_payment → j.freelancerId ≠ none := by
  induction requests with
  | nil => intro s _ h; exact h
  | cons req rest ih =>
    intro s h1 h2
    exact ih (step env s req) (step_no_work_done env s req h1)
      (step_keeps_assignee env s req h1 h2)

theorem findClientJob_none_iff (jobs : List Job) (jobId : ObjId) (clientId : UserId)
    (status : JobStatus) :
    findClientJob jobs jobId clientId status = none ↔
      ¬ ∃ job ∈ jobs, job._id = jobId ∧ job.clientId = clientId ∧ job.status = status := by
  simp only [findClientJob, List.find?_eq_none, Bool.and_eq_true, decide_eq_true_eq]
  constructor
  · rintro h ⟨job, hj, h1, h2, h3⟩
    exact h job hj ⟨⟨h1, h2⟩, h3⟩
  · intro h job hj hp
    exact h ⟨job, hj, hp.1.1, hp.1.2, hp.2⟩

theorem findClientJob_saveJob_paid (jobs : List Job) (job1 : Job) (clientId : UserId)
    (hst : job1.status = JobStatus.paid) :
    findClientJob (saveJob job1 jobs) job1._id clientId JobStatus.waiting_for_payment = none := by
  rw [findClientJob_none_iff]
  rintro ⟨j, hj, h1, -, h3⟩
  simp only [saveJob, List.mem_map] at hj
  obtain ⟨d, -, hd⟩ := hj
  by_cases h : d._id = job1._id
  · rw [if_pos h] at hd
    rw [← hd, hst] at h3
    exact absurd h3 (by decide)
  · rw [if_neg h] at hd
    rw [hd] at h
    exact h h1

/-- C21. The precondition of pay-cash.  In every store `s` that a sequence of
requests builds from the empty store, `payCash` by a caller on a job id succeeds
if and only if `s` holds a job with that id whose client is the caller and whose
status is waiting_for_payment; when there is no such job the request is
rejected with "Job not found or not ready for payment" and the store, with its
jobs, transactions, ledger entries, wallets and profiles, stays as it is.  After
a successful pay-cash a second pay-cash on the same job is rejected in that way
and changes nothing. -/
theorem payCash_precondition (env : Env) (s : Store) (hreach : Reachable env s)
    (user : UserId) (jobId : ObjId) (now : Time) :
    ((∃ data, (payCash s user jobId now).1 = Resp.ok data) ↔
        ∃ job ∈ s.jobs, job._id = jobId ∧ job.clientId = user ∧
          job.status = JobStatus.waiting_for_payment) ∧
      ((¬ ∃ job ∈ s.jobs, job._id = jobId ∧ job.clientId = user ∧
          job.status = JobStatus.waiting_for_payment) →
        payCash s user jobId now
          = (Resp.rejected 400 "Job not found or not ready for payment", s)) ∧
      (∀ data, (payCash s user jobId now).1 = Resp.ok data →
        ∀ later : Time, payCash (payCash s user jobId now).2 user jobId later
          = (Resp.rejected 400 "Job not found or not ready for payment",
              (payCash s user jobId now).2)) := by
  obtain ⟨past, hpast⟩ := hreach
  have hinv : ∀ j ∈ s.jobs, j.status = JobStatus.waiting_for_payment →
      j.freelancerId ≠ none := by
    rw [← hpast]
    exact run_keeps_assignee env past Store.empty (fun j hj => by cases hj)
      (fun j hj => by cases hj)
  have hrej : ∀ (s1 : Store) (t : Time),
      findClientJob s1.jobs jobId user JobStatus.waiting_for_payment = none →
      payCash s1 user jobId t
        = (Resp.rejected 400 "Job not found or not ready for payment", s1) := by
    intro s1 t h
    simp only [payCash, h]
  cases hfind : findClientJob s.jobs jobId user JobStatus.waiting_for_payment with
  | none =>
    have hno := (findClientJob_none_iff s.jobs jobId user _).mp hfind
    rw [hrej s now hfind]
    refine ⟨⟨?_, fun h => absurd h hno⟩, fun _ => rfl, ?_⟩
    · rintro ⟨data, h⟩
      exact Resp.noConfusion h
    · intro data h
      exact Resp.noConfusion h
  | some job =>
    obtain ⟨hid, hclient, hst⟩ := findClientJob_some hfind
    have hmem : job ∈ s.jobs := List.mem_of_find?_eq_some hfind
    cases hF : job.freelancerId with
    | none => exact absurd hF (hinv job hmem hst)
    | some F =>
      obtain ⟨data, hok, hjob, -, -, -, -, -, -, -, -, -, -, -, -, hjobs, -⟩ :=
        payCash_success s user jobId now job F hfind hF
      refine ⟨⟨fun _ => ⟨job, hmem, hid, hclient, hst⟩, fun _ => ⟨data, hok⟩⟩, ?_, ?_⟩
      · intro h
        exact absurd ⟨job, hmem, hid, hclient, hst⟩ h
      · intro data1 _ later
        have hnone : findClientJob (payCash s user jobId now).2.jobs jobId user
            JobStatus.waiting_for_payment = none := by
          rw [hjobs]
          have hid1 : data.job._id = jobId := by rw [hjob]; exact hid
          have := findClientJob_saveJob_paid s.jobs data.job user (by rw [hjob])
          rw [hid1] at this
          exact this
        exact hrej _ later hnone

/-- Witness of C21: in `awaitingPaymentStore`, where job 0 of client 1 waits
for payment, the first pay-cash succeeds and the second is rejected. -/
theorem payCash_precondition_witness :
    (∃ data, (payCash awaitingPaymentStore 1 0 40).1 = Resp.ok data) ∧
      payCash (payCash awaitingPaymentStore 1 0 40).2 1 0 41
        = (Resp.rejected 400 "Job not found or not ready for payment",
            (payCash awaitingPaymentStore 1 0 40).2) :=
  have hreach : Reachable demoEnv awaitingPaymentStore :=
    ⟨[Request.clientProfilePost 1,
      Request.postJob 1 "paint" "paint a wall" 2000 1 10,
      Request.createTestProfile 10 VerificationStatus.approved,
      Request.createTestProfile 11 VerificationStatus.approved,
      Request.applyForJob 10 0 none "" none 21,
      Request.markWorkDone 10 0 30], rfl⟩
  have hok := (payCash_precondition demoEnv awaitingPaymentStore hreach 1 0 40).1.mpr
    ⟨awaitingJob, by decide, by decide, by decide, by decide⟩
  ⟨hok, hok.elim (fun data h =>
    (payCash_precondition demoEnv awaitingPaymentStore hreach 1 0 40).2.2 data h 41)⟩

end Marketplace
